import Mathlib

/-
  Verification development for the markdown-subset translator
  (markdown.cpp): a shallow embedding of the tokenizer, block parser,
  inline parser, reference dictionary and output writer, together with
  theorems settling the specification claims.

  Machine integers in the source are code points and container indices;
  they are modelled as `Nat`.  C++ iterators into a `std::wstring`
  become `Nat` offsets into a `List Char` buffer.  Loops whose
  termination is not structural are given explicit fuel; the fuel of
  internal scans is sized so that it cannot run out on the loops that
  terminate in the C++ source.
-/

set_option maxRecDepth 10000

namespace Markdown

/-- Character buffer: the whole input as a sequence of code points. -/
abbrev Buf := List Char

/-- Character at an index; out-of-range reads give a NUL sentinel
(the C++ source only dereferences in range). -/
def chAt (buf : Buf) (i : Nat) : Char := buf.getD i (Char.ofNat 0)

/-- The backquote character. -/
def backquote : Char := Char.ofNat 96

/-- The single-quote character. -/
def squote : Char := Char.ofNat 39

/- token kinds; the numeric values mirror the order of the C++ enum -/
def BLANK : Nat := 0
def LINE : Nat := 1
def HTML : Nat := 2
def CODE : Nat := 3
def TEXT : Nat := 4
def INLINE : Nat := 5
def LINKID : Nat := 6
def URI : Nat := 7
def SABEGIN : Nat := 8
def TITLE : Nat := 9
def SAEND : Nat := 10
def IMGBEGIN : Nat := 11
def ALT : Nat := 12
def IMGEND : Nat := 13
def BREAK : Nat := 14
def SCODE : Nat := 15
def ECODE : Nat := 16
def EA : Nat := 17
def SEM : Nat := 18
def EEM : Nat := 19
def SSTRONG : Nat := 20
def ESTRONG : Nat := 21
def HRULE : Nat := 22
def SPRE : Nat := 23
def EPRE : Nat := 24
def SHEADING1 : Nat := 25
def EHEADING1 : Nat := 26
def SHEADING2 : Nat := 27
def EHEADING2 : Nat := 28
def SHEADING3 : Nat := 29
def EHEADING3 : Nat := 30
def SHEADING4 : Nat := 31
def EHEADING4 : Nat := 32
def SHEADING5 : Nat := 33
def EHEADING5 : Nat := 34
def SHEADING6 : Nat := 35
def EHEADING6 : Nat := 36
def SBLOCKQUOTE : Nat := 37
def EBLOCKQUOTE : Nat := 38
def SULIST : Nat := 39
def EULIST : Nat := 40
def SOLIST : Nat := 41
def EOLIST : Nat := 42
def SLITEM : Nat := 43
def ELITEM : Nat := 44
def SPARAGRAPH : Nat := 45
def EPARAGRAPH : Nat := 46

/-- The literal output string attached to each token kind
(`kindname` table of the source). -/
def kindname (k : Nat) : Buf :=
  if k = SABEGIN then "<a href=\"".data
  else if k = TITLE then "\" title=\"".data
  else if k = SAEND then "\">".data
  else if k = IMGBEGIN then "<img src=\"".data
  else if k = ALT then "\" alt=\"".data
  else if k = IMGEND then "\" />".data
  else if k = BREAK then "<br />\n".data
  else if k = SCODE then "<code>".data
  else if k = ECODE then "</code>".data
  else if k = EA then "</a>".data
  else if k = SEM then "<em>".data
  else if k = EEM then "</em>".data
  else if k = SSTRONG then "<strong>".data
  else if k = ESTRONG then "</strong>".data
  else if k = HRULE then "<hr />\n".data
  else if k = SPRE then "<pre><code>".data
  else if k = EPRE then "</code></pre>\n".data
  else if k = SHEADING1 then "<h1>".data
  else if k = EHEADING1 then "</h1>\n".data
  else if k = SHEADING2 then "<h2>".data
  else if k = EHEADING2 then "</h2>\n".data
  else if k = SHEADING3 then "<h3>".data
  else if k = EHEADING3 then "</h3>\n".data
  else if k = SHEADING4 then "<h4>".data
  else if k = EHEADING4 then "</h4>\n".data
  else if k = SHEADING5 then "<h5>".data
  else if k = EHEADING5 then "</h5>\n".data
  else if k = SHEADING6 then "<h6>".data
  else if k = EHEADING6 then "</h6>\n".data
  else if k = SBLOCKQUOTE then "<blockquote>\n".data
  else if k = EBLOCKQUOTE then "</blockquote>\n".data
  else if k = SULIST then "<ul>\n".data
  else if k = EULIST then "</ul>\n".data
  else if k = SOLIST then "<ol>\n".data
  else if k = EOLIST then "</ol>\n".data
  else if k = SLITEM then "<li>".data
  else if k = ELITEM then "</li>\n".data
  else if k = SPARAGRAPH then "<p>".data
  else if k = EPARAGRAPH then "</p>\n".data
  else []

/-- A token: kind plus a half-open `[b, e)` slice of a buffer.
C++ tokens hold iterators; here the buffer is carried explicitly so
that tokens into the inline source and tokens into a reference
dictionary entry can coexist in one sequence. -/
structure Tok where
  kind : Nat
  buf : Buf
  b : Nat
  e : Nat
deriving DecidableEq

/-- The characters a token stands for. -/
def Tok.slice (t : Tok) : Buf := (t.buf.drop t.b).take (t.e - t.b)

/-- A reference-link dictionary entry. -/
structure Reflink where
  id : Buf
  uri : Buf
  title : Buf
deriving DecidableEq

/-- The reference dictionary (`std::map` in the source); an association
list whose insert replaces the entry with an equal key, so duplicate
insertions keep the last value. -/
abbrev Refdict := List Reflink

/-- Lookup by exact identifier (`dict.find`). -/
def dict_find (dict : Refdict) (id : Buf) : Option Reflink :=
  dict.find? (fun r => r.id == id)

/-- Insert-or-replace (`dict[entry.id] = entry`). -/
def dict_insert (dict : Refdict) (entry : Reflink) : Refdict :=
  if (dict.find? (fun r => r.id == entry.id)).isSome then
    dict.map (fun r => if r.id == entry.id then entry else r)
  else
    dict ++ [entry]

/-- An emphasis nest frame: `pos` indexes the pending start marker in the
current token sequence; `n` is 0 for an open link sentinel, 1 for a
pending em, 2 for a pending strong, 3 for a pending combined triple. -/
structure Nest where
  pos : Nat
  n : Nat
deriving DecidableEq

/- character classes -/

def ismdescapable (c : Char) : Bool :=
  c == '\\' || c == backquote || c == '*' || c == '_' || c == '\x7b' ||
  c == '\x7d' || c == '[' || c == ']' || c == '(' || c == ')' ||
  c == '<' || c == '>' || c == '#' || c == '+' || c == '-' ||
  c == '.' || c == '!'

def ismdwhite (c : Char) : Bool :=
  c == '\n' || c == '\t' || c == ' '

def ismdspace (c : Char) : Bool :=
  c == '\t' || c == ' '

def ismdgraph (c : Char) : Bool :=
  ' ' < c && c ≠ '\x7f'

def ismdprint (c : Char) : Bool :=
  c == '\t' || (' ' ≤ c && c ≠ '\x7f')

def ismdany (c : Char) : Bool :=
  c == '\n' || c == '\t' || (' ' ≤ c && c ≠ '\x7f')

def ismddigit (c : Char) : Bool :=
  '0' ≤ c && c ≤ '9'

def ismdxdigit (c : Char) : Bool :=
  ('A' ≤ c && c ≤ 'F') || ('a' ≤ c && c ≤ 'f') || ismddigit c

def ismdalnum (c : Char) : Bool :=
  ('A' ≤ c && c ≤ 'Z') || ('a' ≤ c && c ≤ 'z') || ismddigit c

def ishtname (c : Char) : Bool :=
  ismdalnum c || c == '-' || c == '_' || c == ':'

def ishtattr (c : Char) : Bool :=
  ' ' < c && c ≠ '<' && c ≠ '>' && c ≠ '"' && c ≠ squote && c ≠ backquote

/- scanning primitives -/

/-- Loop body of `scan_of`; `i` counts matched characters, `p` is the
cursor.  Each continuing step has `p < eos`, so fuel `eos - pos + 1`
cannot run out. -/
def scan_of_go (buf : Buf) (eos : Nat) (n1 : Nat) (n2 : Int) (pr : Char → Bool)
    (pos : Nat) : Nat → Nat → Nat → Nat
  | 0, p, _ => p
  | fuel+1, p, i =>
    if n2 < 0 ∨ (i : Int) < n2 then
      if p < eos ∧ pr (chAt buf p) then
        scan_of_go buf eos n1 n2 pr pos fuel (p+1) (i+1)
      else if i < n1 then pos else p
    else p

/-- scan `pr{n1,n2}` from `pos` to `eos`; `n2 < 0` means unbounded.
Returns `pos` when fewer than `n1` characters match. -/
def scan_of (buf : Buf) (pos eos : Nat) (n1 : Nat) (n2 : Int) (pr : Char → Bool) : Nat :=
  scan_of_go buf eos n1 n2 pr pos (eos - pos + 1) pos 0

/-- The single-character form of `scan_of`. -/
def scan_of_c (buf : Buf) (pos eos : Nat) (n1 : Nat) (n2 : Int) (c : Char) : Nat :=
  scan_of buf pos eos n1 n2 (fun x => x == c)

/-- Reverse scan: move left from `pos` while the previous character
matches, never below `bos`. -/
def rscan_of (buf : Buf) (bos : Nat) (pr : Char → Bool) : Nat → Nat
  | 0 => 0
  | p+1 => if bos ≤ p ∧ pr (chAt buf p) then rscan_of buf bos pr p else p+1

/-- The single-character form of `rscan_of`. -/
def rscan_of_c (buf : Buf) (bos : Nat) (c : Char) (pos : Nat) : Nat :=
  rscan_of buf bos (fun x => x == c) pos

/-- Loop body of `scan_quoted` for the nested `<...>` case (no further
nesting happens inside it, which breaks the mutual recursion of the
source, where the nested call is to the same function with `lquote`
equal to the angle bracket). -/
def scan_quoted_angle_go (buf : Buf) (eos : Nat) (esc : Char) (pr : Char → Bool)
    (pos : Nat) : Nat → Nat → Nat → Nat
  | 0, _, _ => pos
  | fuel+1, p, level =>
    if level = 0 then p
    else if ¬ (p < eos ∧ pr (chAt buf p)) then pos
    else if chAt buf p = esc ∧ p + 1 < eos ∧
        (chAt buf (p+1) = esc ∨ chAt buf (p+1) = '>' ∨ chAt buf (p+1) = '<') then
      scan_quoted_angle_go buf eos esc pr pos fuel (p+2) level
    else if chAt buf p = '>' then
      scan_quoted_angle_go buf eos esc pr pos fuel (p+1) (level-1)
    else if chAt buf p = '<' then
      scan_quoted_angle_go buf eos esc pr pos fuel (p+1) (level+1)
    else
      scan_quoted_angle_go buf eos esc pr pos fuel (p+1) level

/-- `scan_quoted` specialised to `<...>`. -/
def scan_quoted_angle (buf : Buf) (pos eos : Nat) (esc : Char) (pr : Char → Bool) : Nat :=
  if pos < eos ∧ chAt buf pos = '<' then
    scan_quoted_angle_go buf eos esc pr pos (eos - pos + 2) (pos+1) 1
  else pos

/-- Loop body of `scan_quoted`.  When `lquote` is a parenthesis, an
interior `<` runs the angle-bracket scan; a failed angle scan makes the
C++ loop spin forever, here the fuel runs out and the scan fails. -/
def scan_quoted_go (buf : Buf) (eos : Nat) (lq rq esc : Char) (pr : Char → Bool)
    (pos : Nat) : Nat → Nat → Nat → Nat
  | 0, _, _ => pos
  | fuel+1, p, level =>
    if level = 0 then p
    else if ¬ (p < eos ∧ pr (chAt buf p)) then pos
    else if chAt buf p = esc ∧ p + 1 < eos ∧
        (chAt buf (p+1) = esc ∨ chAt buf (p+1) = rq ∨ chAt buf (p+1) = lq) then
      scan_quoted_go buf eos lq rq esc pr pos fuel (p+2) level
    else if lq = '(' ∧ chAt buf p = '<' then
      scan_quoted_go buf eos lq rq esc pr pos fuel
        (scan_quoted_angle buf p eos esc pr) level
    else if chAt buf p = rq then
      scan_quoted_go buf eos lq rq esc pr pos fuel (p+1) (level-1)
    else if chAt buf p = lq then
      scan_quoted_go buf eos lq rq esc pr pos fuel (p+1) (level+1)
    else
      scan_quoted_go buf eos lq rq esc pr pos fuel (p+1) level

/-- scan a quoted region `lq ... rq`, possibly nested and escaped;
returns `pos` on failure. -/
def scan_quoted (buf : Buf) (pos eos : Nat) (lq rq esc : Char) (pr : Char → Bool) : Nat :=
  if pos < eos ∧ chAt buf pos = lq then
    scan_quoted_go buf eos lq rq esc pr pos (eos - pos + 2) (pos+1) 1
  else pos

/-- First index at or after `i` (below `eos`) whose character satisfies
`pr`; `eos` when there is none. -/
def find_from_go (buf : Buf) (eos : Nat) (pr : Char → Bool) : Nat → Nat → Nat
  | 0, i => i
  | fuel+1, i =>
    if i < eos then
      if pr (chAt buf i) then i else find_from_go buf eos pr fuel (i+1)
    else eos

/-- `std::find` and `std::find_first_of` over a buffer range. -/
def find_from (buf : Buf) (pos eos : Nat) (pr : Char → Bool) : Nat :=
  find_from_go buf eos pr (eos - pos + 1) pos

/-- Does `pat` occur verbatim at index `i`? -/
def match_at (buf : Buf) (i : Nat) (pat : Buf) : Bool :=
  (buf.drop i).take pat.length == pat

/-- Loop body of `list_search`. -/
def search_go (buf : Buf) (eos : Nat) (pat : Buf) : Nat → Nat → Nat
  | 0, i => i
  | fuel+1, i =>
    if i + pat.length ≤ eos then
      if match_at buf i pat then i else search_go buf eos pat fuel (i+1)
    else eos

/-- `std::search`: first occurrence of `pat` inside `[pos, eos)`, or
`eos` when there is none. -/
def list_search (buf : Buf) (pos eos : Nat) (pat : Buf) : Nat :=
  search_go buf eos pat (eos - pos + 1) pos

/-- decode a reference-style link id: lowercase ASCII, decode backslash
escapes, collapse whitespace runs to one space. -/
def decode_linkid_go : Nat → Buf → Buf
  | 0, _ => []
  | _, [] => []
  | fuel+1, c :: rest =>
    if 'A' ≤ c ∧ c ≤ 'Z' then
      Char.ofNat (c.toNat + 32) :: decode_linkid_go fuel rest
    else if c = '\\' ∧ rest ≠ [] ∧ ismdescapable (rest.headD (Char.ofNat 0)) then
      rest.headD (Char.ofNat 0) :: decode_linkid_go fuel rest.tail
    else if ismdwhite c then
      ' ' :: decode_linkid_go fuel (rest.dropWhile ismdwhite)
    else
      c :: decode_linkid_go fuel rest

def decode_linkid (s : Buf) : Buf :=
  decode_linkid_go (s.length + 1) s

/-- unescape backslash escapes. -/
def unescape_backslash : Buf → Buf
  | [] => []
  | [c] => [c]
  | c :: d :: rest =>
    if c = '\\' ∧ ismdescapable d then d :: unescape_backslash rest
    else c :: unescape_backslash (d :: rest)

/- parse_block - BLOCK parser -/

/-- four-column tab: four spaces, or up to three spaces and a tab. -/
def scan_tab (buf : Buf) (pos eos : Nat) : Nat :=
  let p1 := scan_of_c buf pos eos 0 3 ' '
  let p2 := scan_of_c buf p1 eos 1 1 ' '
  let p3 := scan_of_c buf p1 eos 1 1 '\t'
  if p2 - pos = 4 then p2 else if p1 < p3 then p3 else pos

/-- up to three spaces (no tab stop). -/
def scan_tab_not (buf : Buf) (pos eos : Nat) : Nat :=
  scan_of_c buf pos eos 0 3 ' '

/-- Loop of `scan_hrule`: count dashes among spaces. -/
def scan_hrule_go (buf : Buf) (eos : Nat) (dash : Char) : Nat → Nat → Nat → (Nat × Nat)
  | 0, p, n => (p, n)
  | fuel+1, p, n =>
    if p < eos ∧ (ismdspace (chAt buf p) ∨ chAt buf p = dash) then
      scan_hrule_go buf eos dash fuel (p+1) (if chAt buf p = dash then n+1 else n)
    else (p, n)

/-- horizontal rule: after up to three spaces, three or more identical
`*`, `_` or `-` separated by spaces, up to the end of the line. -/
def scan_hrule (buf : Buf) (pos eos : Nat) : Nat :=
  let p1 := scan_tab_not buf pos eos
  if p1 < eos ∧ (chAt buf p1 = '*' ∨ chAt buf p1 = '_' ∨ chAt buf p1 = '-') then
    let dash := chAt buf p1
    let pn := scan_hrule_go buf eos dash (eos - p1 + 1) p1 0
    if pn.2 < 3 ∨ ¬ (pn.1 ≥ eos ∨ chAt buf pn.1 = '\n') then pos else pn.1
  else pos

/-- list marker: `*`, `+` or `-` plus a space, or digits plus `.` plus a
space; returns the position just after the marker character. -/
def scan_listmark (buf : Buf) (pos eos : Nat) : Nat :=
  let p1 := scan_tab_not buf pos eos
  if p1 ≥ eos then pos
  else if chAt buf p1 = '*' ∨ chAt buf p1 = '+' ∨ chAt buf p1 = '-' then
    let p2 := p1 + 1
    let p3 := scan_of buf p2 eos 1 1 ismdspace
    if p2 < p3 then p2 else pos
  else if ismddigit (chAt buf p1) then
    let p2 := scan_of buf p1 eos 1 (-1) ismddigit
    let p3 := scan_of_c buf p2 eos 1 1 '.'
    let p4 := scan_of buf p3 eos 1 1 ismdspace
    if p2 < p3 ∧ p3 < p4 then p3 else pos
  else pos

/-- Default token for an end-iterator dereference (the C++ source reads
fields of the end iterator in a few places; the values are never
printed). -/
def dfltTok : Tok := ⟨BLANK, [], 0, 0⟩

/-- The line token at an index. -/
def lineAt (lines : List Tok) (i : Nat) : Tok := lines.getD i dfltTok

/-- skip consecutive `BLANK` line tokens. -/
def parse_blank_go (lines : List Tok) : Nat → Nat → Nat
  | 0, i => i
  | fuel+1, i =>
    if i < lines.length ∧ (lineAt lines i).kind = BLANK then
      parse_blank_go lines fuel (i+1)
    else i

def parse_blank (lines : List Tok) (dot : Nat) : Nat :=
  parse_blank_go lines (lines.length - dot + 1) dot

def parse_hrule (lines : List Tok) (dot : Nat) (out : List Tok) : Nat × List Tok :=
  let t := lineAt lines dot
  let p1 := scan_hrule t.buf t.b t.e
  if p1 = t.b then (dot, out)
  else (dot + 1, out ++ [⟨HRULE, t.buf, t.b, t.e⟩])

def parse_seheading (lines : List Tok) (dot : Nat) (out : List Tok) : Nat × List Tok :=
  let line2 := dot + 1
  if line2 ≥ lines.length then (dot, out)
  else
    let t := lineAt lines dot
    let t2 := lineAt lines line2
    let p1 := scan_tab_not t.buf t.b t.e
    if ¬ (p1 < t.e ∧ ismdgraph (chAt t.buf p1)) then (dot, out)
    else
      let p2 := scan_tab_not t2.buf t2.b t2.e
      if ¬ (p2 < t2.e ∧ (chAt t2.buf p2 = '=' ∨ chAt t2.buf p2 = '-')) then (dot, out)
      else
        let dash := chAt t2.buf p2
        let p3 := scan_of_c t2.buf p2 t2.e 0 (-1) dash
        let p4 := scan_of t2.buf p3 t2.e 0 (-1) ismdspace
        if ¬ (p4 ≥ t2.e ∨ chAt t2.buf p4 = '\n') then (dot, out)
        else
          let stag := if dash = '=' then SHEADING1 else SHEADING2
          let etag := if dash = '=' then EHEADING1 else EHEADING2
          (line2 + 1, out ++ [⟨stag, t.buf, p1, p1⟩, ⟨INLINE, t.buf, p1, t.e⟩,
            ⟨etag, t.buf, t.e, t.e⟩])

/-- start marker for a heading of level `n` (1–6). -/
def heading_stag (n : Nat) : Nat :=
  if n = 1 then SHEADING1 else if n = 2 then SHEADING2 else if n = 3 then SHEADING3
  else if n = 4 then SHEADING4 else if n = 5 then SHEADING5 else SHEADING6

/-- end marker for a heading of level `n` (1–6). -/
def heading_etag (n : Nat) : Nat :=
  if n = 1 then EHEADING1 else if n = 2 then EHEADING2 else if n = 3 then EHEADING3
  else if n = 4 then EHEADING4 else if n = 5 then EHEADING5 else EHEADING6

def parse_atxheading (lines : List Tok) (dot : Nat) (out : List Tok) : Nat × List Tok :=
  let t := lineAt lines dot
  let p1 := scan_tab_not t.buf t.b t.e
  let p2 := scan_of_c t.buf p1 t.e 1 (-1) '#'
  if p2 = p1 then (dot, out)
  else
    let n := if p2 - p1 > 6 then 6 else p2 - p1
    let p3 := scan_of t.buf p2 t.e 0 (-1) ismdspace
    let p4a := rscan_of t.buf p3 ismdwhite t.e
    let p4b := rscan_of_c t.buf p3 '#' p4a
    let p4 := rscan_of t.buf p3 ismdspace p4b
    if p3 = p4 then (dot, out)
    else
      (dot + 1, out ++ [⟨heading_stag n, t.buf, p3, p3⟩, ⟨INLINE, t.buf, p3, p4⟩,
        ⟨heading_etag n, t.buf, p4, p4⟩])

/-- Loop of `parse_listitem`: adjacent `LINE` tokens without a marker. -/
def parse_listitem_go (lines : List Tok) : Nat → Nat → List Tok → Nat × List Tok
  | 0, i, out => (i, out)
  | fuel+1, i, out =>
    if i < lines.length ∧ (lineAt lines i).kind = LINE then
      let t := lineAt lines i
      let p2 := scan_listmark t.buf t.b t.e
      if p2 ≠ t.b then (i, out)
      else parse_listitem_go lines fuel (i+1) (out ++ [⟨INLINE, t.buf, t.b, t.e⟩])
    else (i, out)

def parse_listitem (lines : List Tok) (dot : Nat) (out : List Tok) : Nat × List Tok :=
  let t := lineAt lines dot
  let p1 := scan_tab_not t.buf t.b t.e
  if ¬ (p1 < t.e ∧ ismdgraph (chAt t.buf p1)) then (dot, out)
  else
    parse_listitem_go lines (lines.length - dot + 1) (dot + 1)
      (out ++ [⟨INLINE, t.buf, p1, t.e⟩])

/-- Loop of `parse_paragraph`: adjacent `LINE` tokens. -/
def parse_paragraph_go (lines : List Tok) : Nat → Nat → List Tok → Nat × List Tok
  | 0, i, out => (i, out)
  | fuel+1, i, out =>
    if i < lines.length ∧ (lineAt lines i).kind = LINE then
      let t := lineAt lines i
      parse_paragraph_go lines fuel (i+1) (out ++ [⟨INLINE, t.buf, t.b, t.e⟩])
    else (i, out)

def parse_paragraph (lines : List Tok) (dot : Nat) (out : List Tok) : Nat × List Tok :=
  let t := lineAt lines dot
  let p1 := scan_tab_not t.buf t.b t.e
  if ¬ (p1 < t.e ∧ ismdgraph (chAt t.buf p1)) then (dot, out)
  else
    let r := parse_paragraph_go lines (lines.length - dot + 1) (dot + 1)
      (out ++ [⟨SPARAGRAPH, t.buf, p1, p1⟩, ⟨INLINE, t.buf, p1, t.e⟩])
    let tEnd := lineAt lines r.1
    (r.1, r.2 ++ [⟨EPARAGRAPH, tEnd.buf, tEnd.b, tEnd.b⟩])

def parse_tabcode_line (lines : List Tok) (dot : Nat) (out : List Tok) : Nat × List Tok :=
  let t := lineAt lines dot
  let p := scan_tab t.buf t.b t.e
  if p = t.b then (dot, out)
  else (dot + 1, out ++ [⟨CODE, t.buf, p, t.e⟩])

def parse_tabcode_blank (lines : List Tok) (dot : Nat) (out : List Tok) : Nat × List Tok :=
  let line2 := parse_blank lines dot
  if ¬ (line2 < lines.length ∧ (lineAt lines line2).kind = LINE) then (dot, out)
  else
    let t2 := lineAt lines line2
    let p2 := scan_tab t2.buf t2.b t2.e
    if p2 = t2.b then (dot, out)
    else
      (line2, out ++ (List.range (line2 - dot)).map (fun k =>
        let t := lineAt lines (dot + k); ⟨CODE, t.buf, t.b, t.e⟩))

/-- Loop of `parse_tabcode`. -/
def parse_tabcode_go (lines : List Tok) : Nat → Nat → List Tok → Nat × List Tok
  | 0, i, out => (i, out)
  | fuel+1, i, out =>
    if i < lines.length then
      let k := (lineAt lines i).kind
      let r := if k = LINE then parse_tabcode_line lines i out
               else if k = BLANK then parse_tabcode_blank lines i out
               else (i, out)
      if r.1 = i then (i, out)
      else parse_tabcode_go lines fuel r.1 r.2
    else (i, out)

def parse_tabcode (lines : List Tok) (dot : Nat) (out : List Tok) : Nat × List Tok :=
  let t := lineAt lines dot
  let p1 := scan_tab t.buf t.b t.e
  if p1 = t.b then (dot, out)
  else
    let r := parse_tabcode_go lines (lines.length - dot + 1) (dot + 1)
      (out ++ [⟨SPRE, t.buf, p1, p1⟩, ⟨CODE, t.buf, p1, t.e⟩])
    let tEnd := lineAt lines r.1
    (r.1, r.2 ++ [⟨EPRE, tEnd.buf, tEnd.e, tEnd.e⟩])

def parse_blockquote_line (lines : List Tok) (dot : Nat) (block : List Tok)
    (lazyline : Bool) : Nat × List Tok × Bool :=
  let t := lineAt lines dot
  let p1 := scan_tab_not t.buf t.b t.e
  let p2 := scan_of_c t.buf p1 t.e 0 1 '>'
  let p3 := scan_of_c t.buf p2 t.e 0 1 ' '
  let p4 := scan_of t.buf p3 t.e 0 (-1) ismdspace
  let block' :=
    if p4 ≥ t.e ∨ chAt t.buf p4 = '\n' then block ++ [⟨BLANK, t.buf, p4, t.e⟩]
    else
      (if lazyline ∧ p1 ≠ p2 then block ++ [⟨BLANK, t.buf, p3, p3⟩] else block) ++
        [⟨LINE, t.buf, p3, t.e⟩]
  (dot + 1, block', decide (p1 = p2))

def parse_blockquote_blank (lines : List Tok) (dot : Nat) (block : List Tok)
    (lazyline : Bool) : Nat × List Tok × Bool :=
  let line2 := parse_blank lines dot
  if ¬ (line2 < lines.length ∧ (lineAt lines line2).kind = LINE) then (dot, block, lazyline)
  else
    let t2 := lineAt lines line2
    let p1 := scan_tab_not t2.buf t2.b t2.e
    let p2 := scan_of_c t2.buf p1 t2.e 1 1 '>'
    if p1 = p2 then (dot, block, lazyline)
    else
      (line2, block ++ (List.range (line2 - dot)).map (fun k => lineAt lines (dot + k)),
        false)

/-- Loop of `parse_blockquote`. -/
def parse_blockquote_go (lines : List Tok) : Nat → Nat → List Tok → Bool → Nat × List Tok
  | 0, i, block, _ => (i, block)
  | fuel+1, i, block, lazyline =>
    if i < lines.length then
      let k := (lineAt lines i).kind
      let r := if k = LINE then parse_blockquote_line lines i block lazyline
               else if k = BLANK then parse_blockquote_blank lines i block lazyline
               else (i, block, lazyline)
      if r.1 = i then (i, block)
      else parse_blockquote_go lines fuel r.1 r.2.1 r.2.2
    else (i, block)

def parse_blockquote (rec : List Tok → Option (List Tok)) (lines : List Tok)
    (dot : Nat) (out : List Tok) : Option (Nat × List Tok) :=
  let t := lineAt lines dot
  let p1 := scan_tab_not t.buf t.b t.e
  let p2 := scan_of_c t.buf p1 t.e 1 1 '>'
  if p1 = p2 then some (dot, out)
  else
    let r := parse_blockquote_go lines (lines.length - dot + 1) dot
      [⟨SBLOCKQUOTE, t.buf, p2, p2⟩] false
    let tEnd := lineAt lines r.1
    match rec (r.2 ++ [⟨EBLOCKQUOTE, tEnd.buf, tEnd.e, tEnd.e⟩]) with
    | none => none
    | some sub => some (r.1, out ++ sub)

def parse_list_line (lines : List Tok) (dot : Nat) (block : List Tok)
    (_indicator : Char) : Nat × List Tok :=
  let t := lineAt lines dot
  let p1 := scan_listmark t.buf t.b t.e
  if p1 = t.b then
    let p2 := scan_tab t.buf t.b t.e
    (dot + 1, block ++ [⟨LINE, t.buf, p2, t.e⟩])
  else
    let p2 := scan_of t.buf p1 t.e 1 (-1) ismdspace
    (dot + 1, block ++ [⟨ELITEM, t.buf, p2, p2⟩, ⟨SLITEM, t.buf, p2, p2⟩,
      ⟨LINE, t.buf, p2, t.e⟩])

def parse_list_blank (lines : List Tok) (dot : Nat) (block : List Tok)
    (_indicator : Char) : Nat × List Tok :=
  let line2 := parse_blank lines dot
  if ¬ (line2 < lines.length ∧ (lineAt lines line2).kind = LINE) then (dot, block)
  else
    let t2 := lineAt lines line2
    let p1 := scan_hrule t2.buf t2.b t2.e
    if p1 ≠ t2.b then (dot, block)
    else
      let p2 := scan_listmark t2.buf t2.b t2.e
      let p3 := scan_tab t2.buf t2.b t2.e
      if p3 ≠ t2.b then
        (line2, block ++ (List.range (line2 - dot)).map (fun k => lineAt lines (dot + k)))
      else if p2 = t2.b then (dot, block)
      else (line2, block)

/-- Loop of `parse_list`. -/
def parse_list_go (lines : List Tok) (indicator : Char) :
    Nat → Nat → List Tok → Nat × List Tok
  | 0, i, block => (i, block)
  | fuel+1, i, block =>
    if i < lines.length then
      let k := (lineAt lines i).kind
      let r := if k = LINE then parse_list_line lines i block indicator
               else if k = BLANK then parse_list_blank lines i block indicator
               else (i, block)
      if r.1 = i then (i, block)
      else parse_list_go lines indicator fuel r.1 r.2
    else (i, block)

def parse_list (rec : List Tok → Option (List Tok)) (lines : List Tok)
    (dot : Nat) (out : List Tok) : Option (Nat × List Tok) :=
  let t := lineAt lines dot
  let p1 := scan_listmark t.buf t.b t.e
  if p1 = t.b then some (dot, out)
  else
    let indicator := chAt t.buf (p1 - 1)
    let stag := if indicator = '.' then SOLIST else SULIST
    let etag := if indicator = '.' then EOLIST else EULIST
    let p2 := scan_of t.buf p1 t.e 1 (-1) ismdspace
    let r := parse_list_go lines indicator (lines.length - dot + 1) (dot + 1)
      [⟨stag, t.buf, p2, p2⟩, ⟨SLITEM, t.buf, p2, p2⟩, ⟨LINE, t.buf, p2, t.e⟩]
    let tEnd := lineAt lines r.1
    match rec (r.2 ++ [⟨ELITEM, tEnd.buf, tEnd.b, tEnd.b⟩, ⟨etag, tEnd.buf, tEnd.b, tEnd.b⟩]) with
    | none => none
    | some sub => some (r.1, out ++ sub)

/-- Loop of `parse_block`: try each block rule in order on `LINE`
tokens, pass other tokens through. -/
def parse_block_go (rec : List Tok → Option (List Tok)) (lines : List Tok) :
    Nat → Nat → Bool → List Tok → Option (List Tok)
  | 0, _, _, _ => none
  | lfuel+1, dot, listitem, out =>
    if dot < lines.length then
      let t := lineAt lines dot
      let listitem1 := if t.kind = SLITEM then true else listitem
      if t.kind = LINE then
        let r1 := parse_hrule lines dot out
        if r1.1 ≠ dot then parse_block_go rec lines lfuel r1.1 listitem1 r1.2 else
        let r2 := parse_tabcode lines dot out
        if r2.1 ≠ dot then parse_block_go rec lines lfuel r2.1 listitem1 r2.2 else
        match parse_blockquote rec lines dot out with
        | none => none
        | some r3 =>
        if r3.1 ≠ dot then parse_block_go rec lines lfuel r3.1 listitem1 r3.2 else
        let r4 := parse_atxheading lines dot out
        if r4.1 ≠ dot then parse_block_go rec lines lfuel r4.1 listitem1 r4.2 else
        match parse_list rec lines dot out with
        | none => none
        | some r5 =>
        if r5.1 ≠ dot then parse_block_go rec lines lfuel r5.1 listitem1 r5.2 else
        let r6 := parse_seheading lines dot out
        if r6.1 ≠ dot then parse_block_go rec lines lfuel r6.1 listitem1 r6.2 else
        let r7 := if listitem1 then parse_listitem lines dot out
                  else parse_paragraph lines dot out
        if r7.1 ≠ dot then parse_block_go rec lines lfuel r7.1 false r7.2
        else parse_block_go rec lines lfuel (dot + 1) false (out ++ [t])
      else
        parse_block_go rec lines lfuel (dot + 1) listitem1 (out ++ [t])
    else some out

/-- The block parser; fuel bounds the block-quote/list recursion depth. -/
def parse_block : Nat → List Tok → Option (List Tok)
  | 0, _ => none
  | fuel+1, lines => parse_block_go (parse_block fuel) lines (lines.length + 1) 0 false []

/- split_lines - BLOCK tokenizer -/

/-- spaces, a newline, then a blank line or end of input. -/
def check_blockend (buf : Buf) (pos eos : Nat) : Nat :=
  let p1 := scan_of buf pos eos 0 (-1) ismdspace
  let p2 := scan_of_c buf p1 eos 1 1 '\n'
  let p3 := scan_of buf p2 eos 0 (-1) ismdspace
  let p4 := scan_of_c buf p3 eos 1 1 '\n'
  if eos ≤ p4 ∨ (p1 < p2 ∧ p3 < p4) then p2 else pos

/-- The closing-fence pattern: a newline and three backquotes. -/
def fence_pat : Buf := '\n' :: [backquote, backquote, backquote]

/-- Loop of `parse_blockcode`: search for a closing fence followed by a
block end. -/
def parse_blockcode_go (buf : Buf) (pos eos p1 p2 cbegin : Nat) (out : List Tok) :
    Nat → Nat → Nat × List Tok
  | 0, _ => (pos, out)
  | fuel+1, p3 =>
    if p3 < eos then
      let p4 := list_search buf p3 eos fence_pat
      if p4 = eos then (pos, out)
      else
        let p3' := p4 + fence_pat.length
        let p5 := check_blockend buf p3' eos
        if p5 ≥ eos ∨ p3' < p5 then
          (p5, out ++ [⟨SPRE, buf, p1, p2⟩, ⟨CODE, buf, cbegin, p4⟩,
            ⟨EPRE, buf, p4, p4⟩])
        else parse_blockcode_go buf pos eos p1 p2 cbegin out fuel p3'
    else (pos, out)

/-- Fenced code block at a line boundary. -/
def parse_blockcode (buf : Buf) (bos pos eos : Nat) (out : List Tok) : Nat × List Tok :=
  if pos ≥ bos + 2 ∧ chAt buf (pos - 2) ≠ '\n' then (pos, out)
  else if pos ≥ bos + 1 ∧ chAt buf (pos - 1) ≠ '\n' then (pos, out)
  else
    let p1 := scan_of_c buf pos eos 3 3 backquote
    if p1 = pos then (pos, out)
    else
      let p2 := scan_of buf p1 eos 0 (-1) ismdprint
      let p3 := scan_of_c buf p2 eos 1 1 '\n'
      if p3 = p2 then (pos, out)
      else parse_blockcode_go buf pos eos p1 p2 (p3 + 1) out (eos - pos + 1) p3

/-- Hypertext comment `<!-- ... -->`. -/
def scan_htmlcomment (buf : Buf) (pos eos : Nat) : Nat :=
  let p1 := scan_of_c buf pos eos 1 1 '<'
  let p2 := scan_of_c buf p1 eos 1 1 '!'
  let p3 := scan_of_c buf p2 eos 2 2 '-'
  if ¬ (pos < p1 ∧ p1 < p2 ∧ p2 < p3) then pos
  else
    let p4 := list_search buf p3 eos "-->".data
    if p4 = eos then pos else p4 + 3

/-- One tag attribute, with quoted or unquoted value. -/
def scan_htmlattr (buf : Buf) (pos eos : Nat) : Nat :=
  let p1 := scan_of buf pos eos 1 (-1) ismdwhite
  let p2 := scan_of buf p1 eos 1 (-1) ishtname
  if ¬ (pos < p1 ∧ p1 < p2) then pos
  else
    let p3 := scan_of buf p2 eos 0 (-1) ismdwhite
    let p4 := scan_of_c buf p3 eos 1 1 '='
    if p4 = p3 then p2
    else
      let p5 := scan_of buf p4 eos 0 (-1) ismdwhite
      let p6 :=
        if p5 < eos ∧ (chAt buf p5 = '"' ∨ chAt buf p5 = squote ∨ chAt buf p5 = backquote)
        then scan_quoted buf p5 eos (chAt buf p5) (chAt buf p5) '\\' ismdany
        else scan_of buf p5 eos 1 (-1) ishtattr
      if p6 = p5 then pos else p6

/-- Loop of `scan_htmltag` over the attributes. -/
def scan_htmlattr_go (buf : Buf) (eos : Nat) : Nat → Nat → Nat
  | 0, p => p
  | fuel+1, p =>
    if p < eos then
      let p5 := scan_htmlattr buf p eos
      if p5 = p then p else scan_htmlattr_go buf eos fuel p5
    else p

/-- A hypertext tag or comment; returns the end position (the start
position on failure) and the tag name. -/
def scan_htmltag (buf : Buf) (pos eos : Nat) : Nat × Buf :=
  let pcom := scan_htmlcomment buf pos eos
  if pos < pcom then (pcom, "!COMMENT".data)
  else
    let p1 := scan_of_c buf pos eos 1 1 '<'
    let p2 := scan_of_c buf p1 eos 0 1 '/'
    let p3 := scan_of buf p2 eos 1 (-1) ishtname
    if ¬ (pos < p1 ∧ p2 < p3) then (pos, [])
    else
      let tagname := (buf.drop p1).take (p3 - p1)
      let p4 := scan_htmlattr_go buf eos (eos - p3 + 1) p3
      let p6 := scan_of buf p4 eos 0 (-1) ismdwhite
      let p7 := scan_of_c buf p6 eos 0 1 '/'
      let p8 := scan_of_c buf p7 eos 1 1 '>'
      if p8 = p7 then (pos, tagname) else (p8, tagname)

/-- The block-level tag names. -/
def blocktag : Buf :=
  (" blockquote del div dl fieldset figure form h1 h2 h3 h4 h5 h6" ++
   " hr iframe ins noscript math ol p pre script table ul !COMMENT ").data

/-- Does `pat` occur inside `s` (`std::wstring::find`)? -/
def has_substring (s pat : Buf) : Bool :=
  list_search s 0 s.length pat < s.length

/-- Loop of `parse_blockhtml`: search for the closing tag followed by a
block end. -/
def parse_blockhtml_go (buf : Buf) (pos eos : Nat) (pat2 : Buf) (out : List Tok) :
    Nat → Nat → Nat × List Tok
  | 0, _ => (pos, out)
  | fuel+1, p1 =>
    if p1 < eos then
      let p2 := list_search buf p1 eos pat2
      if p2 = eos then (pos, out)
      else
        let p3 := scan_of buf (p2 + pat2.length) eos 0 (-1) ismdwhite
        let p1' := scan_of_c buf p3 eos 1 1 '>'
        if p1' = p3 then (pos, out)
        else
          let p5 := check_blockend buf p1' eos
          if p5 ≥ eos ∨ p1' < p5 then (p5, out ++ [⟨HTML, buf, pos, p5⟩])
          else parse_blockhtml_go buf pos eos pat2 out fuel p1'
    else (pos, out)

/-- Raw hypertext block at a line boundary. -/
def parse_blockhtml (buf : Buf) (bos pos eos : Nat) (out : List Tok) : Nat × List Tok :=
  if pos ≥ bos + 2 ∧ chAt buf (pos - 2) ≠ '\n' then (pos, out)
  else if pos ≥ bos + 1 ∧ chAt buf (pos - 1) ≠ '\n' then (pos, out)
  else
    let r := scan_htmltag buf pos eos
    let p1 := r.1
    let tagname := r.2
    if p1 = pos then (pos, out)
    else if ¬ has_substring blocktag (' ' :: (tagname ++ [' '])) then (pos, out)
    else if tagname = "hr".data ∨ tagname = "!COMMENT".data ∨ chAt buf (p1 - 2) = '/' then
      let p3 := check_blockend buf p1 eos
      if p3 ≥ eos ∨ p1 < p3 then (p3, out ++ [⟨HTML, buf, pos, p3⟩]) else (pos, out)
    else
      parse_blockhtml_go buf pos eos ('<' :: '/' :: tagname) out (eos - pos + 1) p1

/-- Reference-definition identifier `[id]:`. -/
def scan_refdef_id (buf : Buf) (pos eos : Nat) : Nat × Buf :=
  let p1 := scan_tab_not buf pos eos
  let p2 := scan_quoted buf p1 eos '[' ']' '\\' ismdprint
  if p1 < p2 ∧ chAt buf (p1 + 1) = ']' then (pos, [])
  else
    let p3 := scan_of_c buf p2 eos 1 1 ':'
    let p4 := scan_of buf p3 eos 1 (-1) ismdspace
    if ¬ (p1 < p2 ∧ p2 < p3 ∧ p3 < p4) then (pos, [])
    else (p4, decode_linkid ((buf.drop (p1 + 1)).take ((p2 - 1) - (p1 + 1))))

/-- Reference-definition uri, optionally `<`-bracketed. -/
def scan_refdef_uri (buf : Buf) (pos eos : Nat) : Nat × Buf :=
  let p3 := scan_quoted buf pos eos '<' '>' '\\' ismdprint
  let r : Nat × Nat × Nat :=
    if pos < p3 then (pos + 1, p3 - 1, p3)
    else
      let q := scan_of buf pos eos 1 (-1) ismdgraph
      (pos, q, q)
  if r.1 ≥ r.2.1 then (pos, [])
  else (r.2.2, (buf.drop r.1).take (r.2.1 - r.1))

/-- Reference-definition title, on the same or the following line. -/
def scan_refdef_title (buf : Buf) (pos eos : Nat) : Nat × Buf :=
  let p1 := scan_of buf pos eos 0 (-1) ismdspace
  let p2a := scan_of_c buf p1 eos 1 1 '\n'
  let p2 := if p1 < p2a then scan_of buf p2a eos 0 (-1) ismdspace else p2a
  if pos < p2 ∧ p2 < eos then
    let c := chAt buf p2
    if c = '"' ∨ c = squote ∨ c = backquote ∨ c = '(' then
      let qq := if c = '(' then ')' else c
      let p4 := scan_of buf p2 eos 0 (-1) ismdprint
      let p3 := rscan_of buf p2 ismdspace p4
      if p3 - p2 > 2 ∧ chAt buf (p3 - 1) = qq then
        (p4, (buf.drop (p2 + 1)).take ((p3 - 1) - (p2 + 1)))
      else (pos, [])
    else (pos, [])
  else (pos, [])

/-- Reference-link definition line; inserts into the dictionary. -/
def parse_refdef (buf : Buf) (pos eos : Nat) (dict : Refdict) : Nat × Refdict :=
  let rid := scan_refdef_id buf pos eos
  let p1 := rid.1
  if p1 = pos ∨ chAt rid.2 0 = '^' then (pos, dict)
  else
    let ruri := scan_refdef_uri buf p1 eos
    let p2 := ruri.1
    if p2 = pos then (pos, dict)
    else
      let rtitle := scan_refdef_title buf p2 eos
      let p4 := scan_of buf rtitle.1 eos 0 (-1) ismdspace
      let p5 := scan_of_c buf p4 eos 1 1 '\n'
      if p5 < eos ∧ p4 = p5 then (pos, dict)
      else (p5, dict_insert dict ⟨rid.2, ruri.2, rtitle.2⟩)

/-- Loop of `split_lines`: fenced code, raw hypertext and reference
definitions first, then one token per physical line.  A character that
none of the scans can consume leaves the position unchanged, and (as in
the C++ source, which then loops forever) the fuel runs out. -/
def split_lines_go (input : Buf) : Nat → Nat → List Tok → Refdict →
    Option (List Tok × Refdict)
  | 0, _, _, _ => none
  | fuel+1, p0, out, dict =>
    if p0 < input.length then
      let r1 := parse_blockcode input 0 p0 input.length out
      if r1.1 > p0 then split_lines_go input fuel r1.1 r1.2 dict else
      let r2 := parse_blockhtml input 0 p0 input.length out
      if r2.1 > p0 then split_lines_go input fuel r2.1 r2.2 dict else
      let r3 := parse_refdef input p0 input.length dict
      if r3.1 > p0 then split_lines_go input fuel r3.1 out r3.2 else
      let p2 := scan_of input p0 input.length 0 (-1) ismdspace
      let p3 := scan_of input p2 input.length 0 (-1) ismdprint
      let p4 := scan_of_c input p3 input.length 1 1 '\n'
      if p2 = p3 then
        split_lines_go input fuel p4 (out ++ [⟨BLANK, input, p3, p4⟩]) dict
      else
        split_lines_go input fuel p4 (out ++ [⟨LINE, input, p0, p4⟩]) dict
    else some (out, dict)

/-- The line tokenizer (pass 1). -/
def split_lines (fuel : Nat) (input : Buf) : Option (List Tok × Refdict) :=
  split_lines_go input fuel 0 [] []

/- parse_inline - INLINE tokenizer and parser -/

/-- Append a `TEXT` token, coalescing with an adjacent previous `TEXT`
token (same buffer, touching offsets). -/
def parse_text (buf : Buf) (tb te : Nat) (out : List Tok) : List Tok :=
  if tb ≥ te then out
  else
    match out.getLast? with
    | some t =>
      if t.kind = TEXT ∧ t.buf = buf ∧ t.e = tb then
        out.dropLast ++ [{ t with e := te }]
      else out ++ [⟨TEXT, buf, tb, te⟩]
    | none => out ++ [⟨TEXT, buf, tb, te⟩]

/-- Rewrite the kind of the token at an index (out of range: no change). -/
def set_tok_kind (out : List Tok) (i : Nat) (k : Nat) : List Tok :=
  match out[i]? with
  | some t => out.set i { t with kind := k }
  | none => out

/-- Is a frame of the given class open anywhere on the nest stack? -/
def nest_exists (nest : List Nest) (n : Nat) : Bool :=
  nest.any fun f =>
    decide ((n = 0 ∧ f.n = 0) ∨ (n = 1 ∧ (f.n = 1 ∨ f.n = 3)) ∨
      (n = 2 ∧ (f.n = 2 ∨ f.n = 3)) ∨ (n = 3 ∧ (f.n = 1 ∨ f.n = 2 ∨ f.n = 3)))

/-- Emphasis pairing for a run of length 1 or 2 (`patch_emphasis`).
The nest stack is kept top-first. -/
def patch_emphasis (embegin emend : Nat) (leftwhite rightwhite : Bool) (buf : Buf)
    (out : List Tok) (nest : List Nest) : List Tok × List Nest :=
  let n1 := emend - embegin
  let n2 := 3 - n1
  let sem1 := if n1 = 1 then SEM else SSTRONG
  let eem1 := if n1 = 1 then EEM else ESTRONG
  let sem2 := if n2 = 1 then SEM else SSTRONG
  let already := nest_exists nest n1
  if ¬ already then
    if ¬ rightwhite then
      (out ++ [⟨sem1, buf, embegin, emend⟩], ⟨out.length, n1⟩ :: nest)
    else (out ++ [⟨TEXT, buf, embegin, emend⟩], nest)
  else
    match nest with
    | [] => (out ++ [⟨TEXT, buf, embegin, emend⟩], nest)
    | top :: rest =>
      if top.n = n1 ∨ top.n = 3 then
        let stok := (out[top.pos]?).getD dfltTok
        let smark := chAt stok.buf stok.b
        if ¬ leftwhite ∧ smark = chAt buf embegin then
          let out1 := out ++ [⟨eem1, buf, embegin, emend⟩]
          match rest with
          | top2 :: rest2 =>
            if top2.n = 3 then
              let t1 := (out1[top2.pos]?).getD dfltTok
              let out2 := out1.set top2.pos { t1 with kind := sem2, e := t1.b + n2 }
              let t2 := (out2[top2.pos + 1]?).getD dfltTok
              let out3 := out2.set (top2.pos + 1) { t2 with kind := sem1 }
              (out3, ⟨top2.pos, n2⟩ :: rest2)
            else (out1, rest)
          | [] => (out1, rest)
        else (out ++ [⟨TEXT, buf, embegin, emend⟩], nest)
      else (out ++ [⟨TEXT, buf, embegin, emend⟩], nest)

/-- Emphasis pairing for a run of length 3 (`patch_emphasis_three`).
Opening pushes two frames recording the same token index (that of the
`SSTRONG` marker) and a zero-width `SEM`. -/
def patch_emphasis_three (embegin emend : Nat) (leftwhite rightwhite : Bool) (buf : Buf)
    (out : List Tok) (nest : List Nest) : List Tok × List Nest :=
  let already := nest_exists nest 3
  if ¬ already then
    if ¬ rightwhite then
      (out ++ [⟨SSTRONG, buf, embegin, emend⟩, ⟨SEM, buf, embegin, embegin⟩],
        ⟨out.length, 3⟩ :: ⟨out.length, 3⟩ :: nest)
    else (parse_text buf embegin emend out, nest)
  else
    match nest with
    | top :: top2 :: rest =>
      if top.n > 0 ∧ top2.n > 0 then
        let stok := (out[top.pos]?).getD dfltTok
        let smark := chAt stok.buf stok.b
        if leftwhite ∨ smark ≠ chAt buf embegin then
          (parse_text buf embegin emend out, nest)
        else if top.n ≠ 2 then
          (out ++ [⟨EEM, buf, embegin, emend⟩, ⟨ESTRONG, buf, embegin, emend⟩], rest)
        else
          (out ++ [⟨ESTRONG, buf, embegin, emend⟩, ⟨EEM, buf, embegin, emend⟩], rest)
      else (parse_text buf embegin emend out, nest)
    | _ => (parse_text buf embegin emend out, nest)

/-- Two or more spaces before a newline make a hard break. -/
def parse_space (buf : Buf) (pos eos : Nat) (out : List Tok) : List Tok × Nat :=
  let p1 := scan_of_c buf pos eos 1 (-1) ' '
  let p2 := scan_of_c buf p1 eos 1 1 '\n'
  if p1 - pos ≥ 2 ∧ p1 < p2 then (out ++ [⟨BREAK, buf, pos, p2⟩], p2)
  else (parse_text buf pos p2 out, p2)

/-- Backslash escape (deferred unescape: the pair is kept as `TEXT`). -/
def parse_escape (buf : Buf) (pos eos : Nat) (out : List Tok) : List Tok × Nat :=
  let p1 := scan_of_c buf pos eos 1 1 '\\'
  let p2 := scan_of buf p1 eos 1 1 ismdescapable
  if p1 = p2 then (parse_text buf pos p1 out, p1)
  else (parse_text buf pos p2 out, p2)

/-- Inline code span: `n` backquotes up to the next run of `n`
backquotes, interior whitespace stripped. -/
def parse_inlinecode (buf : Buf) (pos eos : Nat) (out : List Tok) : List Tok × Nat :=
  let p1 := scan_of_c buf pos eos 1 (-1) backquote
  let p2 := scan_of buf p1 eos 0 (-1) ismdwhite
  let pat := (buf.drop pos).take (p1 - pos)
  let p3 := list_search buf p2 eos pat
  if p3 = eos then (parse_text buf pos p2 out, p2)
  else
    let p4 := scan_of_c buf (p3 + (p1 - pos)) eos 0 (-1) backquote
    let p3a := p4 - (p1 - pos)
    let p3b := rscan_of buf p2 ismdwhite p3a
    (out ++ [⟨SCODE, buf, p2, p2⟩, ⟨CODE, buf, p2, p3b⟩, ⟨ECODE, buf, p3b, p3b⟩], p4)

/-- Emphasis run dispatch: degrade to `TEXT`, or run the pairing
automaton for runs of length 1–3. -/
def parse_emphasis (bos pos eos : Nat) (buf : Buf) (out : List Tok) (nest : List Nest) :
    List Tok × List Nest × Nat :=
  let p1 := scan_of_c buf pos eos 1 (-1) (chAt buf pos)
  let n := p1 - pos
  let leftwhite : Bool := pos == bos || ismdwhite (chAt buf (pos - 1))
  let rightwhite : Bool := p1 ≥ eos || ismdwhite (chAt buf p1) ||
    ((chAt buf p1 == '.' || chAt buf p1 == ',' || chAt buf p1 == ';' ||
      chAt buf p1 == ':') && (p1 + 1 ≥ eos || ismdwhite (chAt buf (p1 + 1))))
  if n > 3 ∨ (leftwhite ∧ rightwhite) then (parse_text buf pos p1 out, nest, p1)
  else if n = 1 ∨ n = 2 then
    let r := patch_emphasis pos p1 leftwhite rightwhite buf out nest
    (r.1, r.2, p1)
  else if n = 3 then
    let r := patch_emphasis_three pos p1 leftwhite rightwhite buf out nest
    (r.1, r.2, p1)
  else (out, nest, p1)

/-- Auto-link scheme test. -/
def match_uri (buf : Buf) (p e : Nat) : Bool :=
  ["https://", "http://", "ftp://", "ftps://", "mailto:"].any fun s =>
    s.data.length ≤ e - p && match_at buf p s.data

/-- Angle bracket: raw inline tag, auto-link, or literal text. -/
def parse_angle (pos eos : Nat) (buf : Buf) (out : List Tok) : List Tok × Nat :=
  let r := scan_htmltag buf pos eos
  if pos < r.1 then (out ++ [⟨HTML, buf, pos, r.1⟩], r.1)
  else
    let p2 := scan_quoted buf pos eos '<' '>' '\\' ismdprint
    if p2 - pos > 2 then
      if match_uri buf (pos + 1) (p2 - 1) then
        (out ++ [⟨SABEGIN, buf, pos, pos⟩, ⟨URI, buf, pos + 1, p2 - 1⟩,
          ⟨SAEND, buf, p2, p2⟩, ⟨TEXT, buf, pos + 1, p2 - 1⟩, ⟨EA, buf, p2, p2⟩], p2)
      else
        let out1 := parse_text buf pos p2 out
        let p3 := scan_of_c buf pos eos 1 (-1) '<'
        (parse_text buf pos p3 out1, p3)
    else
      let p3 := scan_of_c buf pos eos 1 (-1) '<'
      (parse_text buf pos p3 out, p3)

/-- Reference-bracket part `[id]` (or the alt range when absent). -/
def parse_link_bracket (buf : Buf) (pos eos altb alte : Nat) (attr : List Tok) :
    Nat × List Tok :=
  let p1 := scan_of buf pos eos 0 (-1) ismdwhite
  let p2 := scan_quoted buf p1 eos '[' ']' '\\' ismdany
  if p2 - p1 > 2 then (p2, attr ++ [⟨LINKID, buf, p1 + 1, p2 - 1⟩])
  else (p2, attr ++ [⟨LINKID, buf, altb, alte⟩])

/-- Loop that looks for a title-opening quote preceded by whitespace. -/
def find_quote_go (buf : Buf) (p5 : Nat) (qq : Char) : Nat → Nat → Nat
  | 0, p4 => p4
  | fuel+1, p4 =>
    if p4 < p5 ∧ ¬ ismdwhite (chAt buf (p4 - 1)) then
      find_quote_go buf p5 qq fuel (find_from buf (p4 + 1) p5 (fun c => c == qq))
    else p4

/-- Inline-link paren part `(uri "title")`. -/
def parse_link_paren (buf : Buf) (pos eos : Nat) (attr : List Tok) : Nat × List Tok :=
  let p6 := scan_quoted buf pos eos '(' ')' '\\' ismdany
  if pos = p6 then (pos, attr)
  else
    let p1 := pos + 1
    let p5 := rscan_of buf p1 ismdwhite (p6 - 1)
    let p2 :=
      if chAt buf p1 = '<' then
        let q := scan_quoted buf p1 p5 '<' '>' '\\' ismdany
        if p1 = q then p1 + 1 else q - 1
      else p1 + 1
    let p34 :=
      if chAt buf (p5 - 1) = '"' ∨ chAt buf (p5 - 1) = squote then
        let qq := chAt buf (p5 - 1)
        let p4 := find_quote_go buf p5 qq (p5 - p2 + 2)
          (find_from buf p2 p5 (fun c => c == qq))
        (rscan_of buf p2 ismdwhite p4, p4)
      else (p5, p5)
    let p3 := p34.1
    let p4 := p34.2
    let attr1 :=
      if p3 - p1 > 1 ∧ chAt buf p1 = '<' ∧ chAt buf (p3 - 1) = '>' then
        attr ++ [⟨URI, buf, p1 + 1, p3 - 1⟩]
      else attr ++ [⟨URI, buf, p1, p3⟩]
    let attr2 :=
      if p5 - p4 > 1 ∧ chAt buf p4 = chAt buf (p5 - 1) ∧
          (chAt buf (p5 - 1) = '"' ∨ chAt buf (p5 - 1) = squote) then
        attr1 ++ [⟨TITLE, buf, p4 + 1, p5 - 1⟩]
      else attr1
    (p6, attr2)

/-- Assemble a link token sequence. -/
def parse_make_link (cbegin cend : Nat) (buf : Buf) (inner attr out : List Tok) :
    List Tok × Nat :=
  (out ++ [⟨SABEGIN, buf, cbegin, cbegin⟩] ++ attr ++ [⟨SAEND, buf, cbegin, cbegin⟩] ++
    inner ++ [⟨EA, buf, cend, cend⟩], cend)

/-- Resolve a reference id through the dictionary; on success the
attribute list is replaced by the entry's uri and title. -/
def parse_fetch_reference_link (dict : Refdict) (attr : List Tok) : Option (List Tok) :=
  let a0 := (attr[0]?).getD dfltTok
  let linkid := decode_linkid a0.slice
  match dict_find dict linkid with
  | none => none
  | some rf =>
    some ([⟨URI, rf.uri, 0, rf.uri.length⟩] ++
      (if rf.title ≠ [] then [⟨TITLE, rf.title, 0, rf.title.length⟩] else []))

/-- Demote the frames above the link sentinel to `TEXT`. -/
def clear_nonzero : List Tok → List Nest → List Tok × List Nest
  | inner, [] => (inner, [])
  | inner, f :: rest =>
    if f.n ≠ 0 then clear_nonzero (set_tok_kind inner f.pos TEXT) rest
    else (inner, f :: rest)

/-- Bracketed link; `rec` is the inline loop at the remaining fuel.
A sentinel frame of class 0 guards the nest stack while the bracket
interior is parsed into a fresh sequence. -/
def parse_link (rec : Nat → Nat → List Tok → List Nest → Option (Nat × List Tok × List Nest))
    (bos pos eos : Nat) (buf : Buf) (out : List Tok) (dict : Refdict) (nest : List Nest) :
    Option (List Tok × List Nest × Nat) :=
  let nest0 : List Nest := ⟨out.length, 0⟩ :: nest
  let p1 := scan_of_c buf pos eos 1 1 '['
  if pos = p1 then some (out, nest0, pos)
  else
    match rec p1 eos [] nest0 with
    | none => none
    | some rinner =>
      let p2 := rinner.1
      let cleared := clear_nonzero rinner.2.1 rinner.2.2
      let inner := cleared.1
      let p3 := scan_of_c buf p2 eos 1 1 ']'
      let nest3 := cleared.2.tail
      let already := nest_exists nest3 0
      if p1 = p2 ∨ p2 = p3 then some (parse_text buf pos p1 out, nest3, p1)
      else
        let rp := parse_link_paren buf p3 eos []
        if ¬ already ∧ p3 < rp.1 then
          let r := parse_make_link pos rp.1 buf inner rp.2 out
          some (r.1, nest3, r.2)
        else
          let rb := parse_link_bracket buf p3 eos p1 p2 rp.2
          match (if ¬ already then parse_fetch_reference_link dict rb.2 else none) with
          | some attr2 =>
            let r := parse_make_link pos rb.1 buf inner attr2 out
            some (r.1, nest3, r.2)
          | none =>
            let out1 := parse_text buf pos p1 out
            match rec p1 p2 out1 nest3 with
            | none => none
            | some rfail =>
              some (parse_text buf p2 rb.1 rfail.2.1, rfail.2.2, rb.1)

/-- Assemble an image token sequence. -/
def parse_make_image (pos : Nat) (buf : Buf) (inner attr out : List Tok) :
    List Tok × Nat :=
  (out ++ [⟨IMGBEGIN, buf, pos, pos⟩] ++ attr ++ inner ++ [⟨IMGEND, buf, pos, pos⟩], pos)

/-- Image `![alt](...)` or `![alt][id]`; the alt range is kept as plain
text.  When no `[` follows the `!` the function returns its argument
position unchanged (and the caller makes no progress). -/
def parse_image (pos eos : Nat) (buf : Buf) (out : List Tok) (dict : Refdict) :
    List Tok × Nat :=
  let p1 := scan_of_c buf pos eos 1 1 '!'
  let p2 := scan_of_c buf p1 eos 1 1 '['
  if pos = p1 ∨ p1 = p2 then (out, pos)
  else
    let p3 := scan_quoted buf p1 eos '[' ']' '\\' ismdany
    if p1 = p3 then (parse_text buf pos p2 out, p2)
    else
      let inner : List Tok := [⟨ALT, buf, p2, p3 - 1⟩]
      let rp := parse_link_paren buf p3 eos []
      if p3 < rp.1 then parse_make_image rp.1 buf inner rp.2 out
      else
        let rb := parse_link_bracket buf p3 eos p2 (p3 - 1) rp.2
        match parse_fetch_reference_link dict rb.2 with
        | some attr2 => parse_make_image rb.1 buf inner attr2 out
        | none => (parse_text buf pos rb.1 out, rb.1)

/-- The characters which stop a plain-text run. -/
def inline_ccls : Buf := [' ', '\\', backquote, '*', '_', '<', '!', '[', ']']

/-- The inline scanning loop: dispatch on the current character until
the end of the range or a `]`. -/
def parse_inline_loop (dict : Refdict) (buf : Buf) (bos : Nat) :
    Nat → Nat → Nat → List Tok → List Nest → Option (Nat × List Tok × List Nest)
  | 0, _, _, _, _ => none
  | fuel+1, pos, eos, out, nest =>
    if pos < eos ∧ chAt buf pos ≠ ']' then
      let c := chAt buf pos
      if c = ' ' then
        let r := parse_space buf pos eos out
        parse_inline_loop dict buf bos fuel r.2 eos r.1 nest
      else if c = '\\' then
        let r := parse_escape buf pos eos out
        parse_inline_loop dict buf bos fuel r.2 eos r.1 nest
      else if c = backquote then
        let r := parse_inlinecode buf pos eos out
        parse_inline_loop dict buf bos fuel r.2 eos r.1 nest
      else if c = '*' ∨ c = '_' then
        let r := parse_emphasis bos pos eos buf out nest
        parse_inline_loop dict buf bos fuel r.2.2 eos r.1 r.2.1
      else if c = '<' then
        let r := parse_angle pos eos buf out
        parse_inline_loop dict buf bos fuel r.2 eos r.1 nest
      else if c = '[' then
        match parse_link (fun p e o n => parse_inline_loop dict buf bos fuel p e o n)
            bos pos eos buf out dict nest with
        | none => none
        | some r => parse_inline_loop dict buf bos fuel r.2.2 eos r.1 r.2.1
      else if c = '!' then
        let r := parse_image pos eos buf out dict
        parse_inline_loop dict buf bos fuel r.2 eos r.1 nest
      else
        let p2 := find_from buf pos eos (fun x => inline_ccls.contains x)
        parse_inline_loop dict buf bos fuel p2 eos (parse_text buf pos p2 out) nest
    else some (pos, out, nest)

/-- Demote the start markers recorded by the remaining frames to `TEXT`. -/
def clear_nest (out : List Tok) : List Nest → List Tok
  | [] => out
  | f :: rest => clear_nest (set_tok_kind out f.pos TEXT) rest

/-- Driver of `parse_inline`: run the loop over the whole source, a `]`
at the outermost level is emitted as text. -/
def parse_inline_go (dict : Refdict) (src : Buf) :
    Nat → Nat → List Tok → List Nest → Option (List Tok × List Nest)
  | 0, _, _, _ => none
  | fuel+1, pos, out, nest =>
    if pos < src.length then
      match parse_inline_loop dict src 0 fuel pos src.length out nest with
      | none => none
      | some r =>
        if r.1 = pos ∧ chAt src r.1 = ']' then
          parse_inline_go dict src fuel (r.1 + 1) (parse_text src r.1 (r.1 + 1) r.2.1) r.2.2
        else parse_inline_go dict src fuel r.1 r.2.1 r.2.2
    else some (out, nest)

/-- The inline parser: tokenize one inline source, then rewrite the
start markers of unmatched frames to `TEXT`. -/
def parse_inline (dict : Refdict) (fuel : Nat) (src : Buf) : Option (List Tok) :=
  match parse_inline_go dict src fuel 0 [] [] with
  | none => none
  | some r => some (clear_nest r.1 r.2)

/- print_inline - INLINE output builder -/

/-- Character class of the entity automaton. -/
def entity_ccls (c : Char) : Nat :=
  if '0' ≤ c ∧ c ≤ '9' then 1
  else if ('A' ≤ c ∧ c ≤ 'F') ∨ ('a' ≤ c ∧ c ≤ 'f') then 2
  else if ('G' ≤ c ∧ c ≤ 'Z') ∨ ('g' ≤ c ∧ c ≤ 'z') then 3
  else if c = '#' then 4
  else if c = ';' then 5
  else 0

/-- Transition table of the entity automaton (9 accepts, 0 rejects). -/
def entity_tbl (state ccls : Nat) : Nat :=
  if state = 1 then (if ccls = 2 ∨ ccls = 3 then 2 else if ccls = 4 then 3 else 0)
  else if state = 2 then
    (if ccls = 1 ∨ ccls = 2 ∨ ccls = 3 then 2 else if ccls = 5 then 9 else 0)
  else if state = 3 then (if ccls = 1 then 4 else 0)
  else if state = 4 then (if ccls = 1 then 4 else if ccls = 5 then 9 else 0)
  else if state = 5 then (if ccls = 1 ∨ ccls = 2 then 6 else 0)
  else if state = 6 then (if ccls = 1 ∨ ccls = 2 then 6 else if ccls = 5 then 9 else 0)
  else 0

/-- Run of the entity automaton. -/
def check_html5entity_go (buf : Buf) (e : Nat) : Nat → Nat → Nat → Option Nat
  | 0, _, _ => none
  | fuel+1, s, state =>
    if s < e then
      let c := chAt buf s
      let st := if state = 3 ∧ c = 'x' then 5 else entity_tbl state (entity_ccls c)
      if st = 0 then none
      else if st = 9 then some (s + 1)
      else check_html5entity_go buf e fuel (s + 1) st
    else none

/-- Does a well-formed numeric or named entity start at `s0`?  On
success the position one past the `;` is returned. -/
def check_html5entity (buf : Buf) (s0 e : Nat) : Option Nat :=
  if s0 < e ∧ chAt buf s0 = '&' then
    check_html5entity_go buf e (e - s0 + 1) (s0 + 1) 1
  else none

/-- UTF-8 bytes of one code point. -/
def utf8_encode_char (c : Char) : List Nat :=
  let n := c.toNat
  if n < 128 then [n]
  else if n < 2048 then [192 + n / 64, 128 + n % 64]
  else if n < 65536 then [224 + n / 4096, 128 + (n / 64) % 64, 128 + n % 64]
  else [240 + n / 262144, 128 + (n / 4096) % 64, 128 + (n / 64) % 64, 128 + n % 64]

/-- Transcode to the byte representation (`encode_utf8`). -/
def encode_utf8 (s : Buf) : List Nat :=
  (s.map utf8_encode_char).flatten

/-- Transcode bytes back to code points (`decode_utf8`). -/
def decode_utf8_go : Nat → List Nat → Buf
  | 0, _ => []
  | _, [] => []
  | fuel+1, b :: rest =>
    if b < 128 then Char.ofNat b :: decode_utf8_go fuel rest
    else if b < 224 then
      match rest with
      | b2 :: rest2 => Char.ofNat ((b % 32) * 64 + b2 % 64) :: decode_utf8_go fuel rest2
      | [] => []
    else if b < 240 then
      match rest with
      | b2 :: b3 :: rest3 =>
        Char.ofNat ((b % 16) * 4096 + (b2 % 64) * 64 + b3 % 64) :: decode_utf8_go fuel rest3
      | _ => []
    else
      match rest with
      | b2 :: b3 :: b4 :: rest4 =>
        Char.ofNat ((b % 8) * 262144 + (b2 % 64) * 4096 + (b3 % 64) * 64 + b4 % 64) ::
          decode_utf8_go fuel rest4
      | _ => []

def decode_utf8 (bytes : List Nat) : Buf :=
  decode_utf8_go (bytes.length + 1) bytes

/-- General-text escaping over a buffer range: `&` becomes an entity
unless it already starts one; angle brackets and quotes become
entities. -/
def print_escape_html_go (buf : Buf) (e : Nat) : Nat → Nat → Buf → Buf
  | 0, _, acc => acc
  | fuel+1, s, acc =>
    if s < e then
      let c := chAt buf s
      if c = '&' then
        match check_html5entity buf s e with
        | some s1 =>
          print_escape_html_go buf e fuel s1 (acc ++ (buf.drop s).take (s1 - s))
        | none => print_escape_html_go buf e fuel (s + 1) (acc ++ "&amp;".data)
      else if c = '<' then print_escape_html_go buf e fuel (s + 1) (acc ++ "&lt;".data)
      else if c = '>' then print_escape_html_go buf e fuel (s + 1) (acc ++ "&gt;".data)
      else if c = '"' then print_escape_html_go buf e fuel (s + 1) (acc ++ "&quot;".data)
      else if c = squote then print_escape_html_go buf e fuel (s + 1) (acc ++ "&#39;".data)
      else print_escape_html_go buf e fuel (s + 1) (acc ++ [c])
    else acc

def print_with_escape_html (buf : Buf) (s e : Nat) (acc : Buf) : Buf :=
  print_escape_html_go buf e (e - s + 1) s acc

/-- General-text escaping of a whole string. -/
def escape_html_str (s : Buf) (acc : Buf) : Buf :=
  print_with_escape_html s 0 s.length acc

/-- Code escaping: every one of the five characters unconditionally. -/
def escape_htmlall_char (c : Char) : Buf :=
  if c = '&' then "&amp;".data
  else if c = '<' then "&lt;".data
  else if c = '>' then "&gt;".data
  else if c = '"' then "&quot;".data
  else if c = squote then "&#39;".data
  else [c]

def print_with_escape_htmlall (buf : Buf) (s e : Nat) (acc : Buf) : Buf :=
  acc ++ ((((buf.drop s).take (e - s)).map escape_htmlall_char).flatten)

/-- The bytes kept verbatim by uri escaping. -/
def safe_uri_byte (c : Nat) : Bool :=
  ismdalnum (Char.ofNat c) || "-_.,:;*+=()/~?#".data.contains (Char.ofNat c)

/-- Uri escaping over the byte representation. -/
def escape_uri_go : Nat → List Nat → List Nat
  | 0, _ => []
  | _, [] => []
  | fuel+1, c :: rest =>
    if safe_uri_byte c then c :: escape_uri_go fuel rest
    else if c = 37 ∧ 2 ≤ rest.length ∧
        ismdxdigit (Char.ofNat (rest.getD 0 0)) ∧
        ismdxdigit (Char.ofNat (rest.getD 1 0)) then
      c :: escape_uri_go fuel rest
    else if 4 ≤ rest.length ∧ (c :: rest.take 4) = "&amp;".data.map Char.toNat then
      c :: escape_uri_go fuel rest
    else if c = 38 then
      "&amp;".data.map Char.toNat ++ escape_uri_go fuel rest
    else
      let hi := (c / 16) % 16
      let lo := c % 16
      37 :: (if hi < 10 then hi + 48 else hi + 55) ::
        (if lo < 10 then lo + 48 else lo + 55) :: escape_uri_go fuel rest

/-- Uri escaping: transcode to bytes, keep safe bytes, existing percent
triplets and existing `&amp;`, expand lone `&`, percent-encode the
rest, transcode back. -/
def print_with_escape_uri (s : Buf) (acc : Buf) : Buf :=
  let o := encode_utf8 s
  acc ++ decode_utf8 (escape_uri_go (o.length + 1) o)

/-- Print the head of a link or image: attributes with uri, alt and
title escaping; returns the index of the marker printed last. -/
def print_innerlink (toks : List Tok) (i : Nat) (acc : Buf) : Buf × Nat :=
  let t0 := toks.getD i dfltTok
  let skind := t0.kind
  let acc1 := acc ++ kindname skind
  let i1 := i + 1
  let t1 := toks.getD i1 dfltTok
  let r1 : Buf × Nat × Option Tok :=
    if t1.kind = URI then
      let acc2 := print_with_escape_uri (unescape_backslash t1.slice) acc1
      let i2 := i1 + 1
      let t2 := toks.getD i2 dfltTok
      if t2.kind = TITLE then (acc2, i2 + 1, some t2) else (acc2, i2, none)
    else (acc1, i1, none)
  let r2 : Buf × Nat :=
    if skind = IMGBEGIN then
      let tA := toks.getD r1.2.1 dfltTok
      (escape_html_str (unescape_backslash tA.slice) (r1.1 ++ kindname tA.kind), r1.2.1 + 1)
    else (r1.1, r1.2.1)
  let acc3 :=
    match r1.2.2 with
    | some tt =>
      if tt.b < tt.e then escape_html_str (unescape_backslash tt.slice) (r2.1 ++ kindname TITLE)
      else r2.1
    | none => r2.1
  let tF := toks.getD r2.2 dfltTok
  (acc3 ++ kindname tF.kind, r2.2)

/-- Collect the slices of a run of adjacent `TEXT` tokens. -/
def text_run (toks : List Tok) : Nat → Nat → Buf → Nat × Buf
  | 0, i, s => (i, s)
  | fuel+1, i, s =>
    if i < toks.length ∧ (toks.getD i dfltTok).kind = TEXT then
      let t := toks.getD i dfltTok
      text_run toks fuel (i + 1) (if t.b < t.e then s ++ t.slice else s)
    else (i, s)

/-- Walk the inline token sequence and print each token. -/
def print_inline_go (toks : List Tok) : Nat → Nat → Buf → Buf
  | 0, _, acc => acc
  | fuel+1, i, acc =>
    if i < toks.length then
      let t := toks.getD i dfltTok
      if BREAK ≤ t.kind then print_inline_go toks fuel (i + 1) (acc ++ kindname t.kind)
      else if t.kind = CODE then
        print_inline_go toks fuel (i + 1) (print_with_escape_htmlall t.buf t.b t.e acc)
      else if t.kind = HTML then print_inline_go toks fuel (i + 1) (acc ++ t.slice)
      else if t.kind = SABEGIN ∨ t.kind = IMGBEGIN then
        let r := print_innerlink toks i acc
        print_inline_go toks fuel (r.2 + 1) r.1
      else if t.kind = TEXT then
        let r := text_run toks (toks.length - i + 1) i []
        print_inline_go toks fuel r.1 (escape_html_str (unescape_backslash r.2) acc)
      else print_inline_go toks fuel (i + 1) acc
    else acc

def print_inline (toks : List Tok) : Buf :=
  print_inline_go toks (toks.length + 1) 0 []

/- print_block - BLOCK output builder -/

/-- Print a run of adjacent `CODE` tokens; the final newline of the
last one is elided when another token follows. -/
def code_run (toks : List Tok) : Nat → Nat → Buf → Nat × Buf
  | 0, i, acc => (i, acc)
  | fuel+1, i, acc =>
    if i < toks.length ∧ (toks.getD i dfltTok).kind = CODE then
      let t := toks.getD i dfltTok
      let acc' :=
        if i + 1 < toks.length ∧ (toks.getD (i + 1) dfltTok).kind ≠ CODE ∧
            t.b < t.e - 1 ∧ chAt t.buf (t.e - 1) = '\n' then
          print_with_escape_htmlall t.buf t.b (t.e - 1) acc
        else print_with_escape_htmlall t.buf t.b t.e acc
      code_run toks fuel (i + 1) acc'
    else (i, acc)

/-- Collect the slices of a run of adjacent `INLINE` tokens. -/
def inline_run (toks : List Tok) : Nat → Nat → Buf → Nat × Buf
  | 0, i, s => (i, s)
  | fuel+1, i, s =>
    if i < toks.length ∧ (toks.getD i dfltTok).kind = INLINE then
      inline_run toks fuel (i + 1) (s ++ (toks.getD i dfltTok).slice)
    else (i, s)

/-- Walk the block token sequence: blank-run separators, literal
markers, raw hypertext, code runs, and inline runs handed to the
inline parser. -/
def print_block_go (ifuel : Nat) (dict : Refdict) (toks : List Tok) :
    Nat → Nat → Buf → Option Buf
  | 0, _, _ => none
  | lfuel+1, i, acc =>
    if i < toks.length then
      let t := toks.getD i dfltTok
      if t.kind = BLANK then
        let j := parse_blank toks i
        let acc' := if j < toks.length then acc ++ ['\n'] else acc
        print_block_go ifuel dict toks lfuel j acc'
      else if HRULE ≤ t.kind then
        let acc0 :=
          if (t.kind = SOLIST ∨ t.kind = SULIST) ∧ 2 ≤ i ∧
              (toks.getD (i - 1) dfltTok).kind = INLINE then acc ++ ['\n']
          else acc
        print_block_go ifuel dict toks lfuel (i + 1) (acc0 ++ kindname t.kind)
      else if t.kind = HTML then
        print_block_go ifuel dict toks lfuel (i + 1) (acc ++ t.slice)
      else if t.kind = CODE then
        let r := code_run toks (toks.length - i + 1) i acc
        print_block_go ifuel dict toks lfuel r.1 r.2
      else if t.kind = INLINE then
        let r := inline_run toks (toks.length - i + 1) i []
        let src := if r.2.getLast? = some '\n' then r.2.dropLast else r.2
        match parse_inline dict ifuel src with
        | none => none
        | some itoks => print_block_go ifuel dict toks lfuel r.1 (acc ++ print_inline itoks)
      else print_block_go ifuel dict toks lfuel (i + 1) acc
    else some acc

/-- The output writer (pass 3 driver): leading blanks are skipped, then
the walk begins. -/
def print_block (ifuel : Nat) (toks : List Tok) (dict : Refdict) : Option Buf :=
  print_block_go ifuel dict toks (toks.length + 1) (parse_blank toks 0) []

/-- The whole pipeline at a given fuel. -/
def markdownFuel (fuel : Nat) (input : Buf) : Option Buf :=
  match split_lines fuel input with
  | none => none
  | some r =>
    match parse_block fuel r.1 with
    | none => none
    | some toks => print_block fuel toks r.2

/-- The translator entry point: a pure function of the input text.
`none` reports that the C++ source does not terminate within the
(generous) fuel. -/
def translate (input : Buf) : Option Buf :=
  markdownFuel (input.length + 2) input

/- helpers and claim-side models used by the theorems -/

/-- Parse one inline source and print the resulting tokens. -/
def inline_out (dict : Refdict) (src : Buf) : Option Buf :=
  match parse_inline dict (src.length + 2) src with
  | none => none
  | some toks => some (print_inline toks)

/-- Modelled from the spec (§4.3, Image): on failure of an image
construct, emit the `!` alone as text and retry the bracket as a link.
This is what the spec prescribes; the source instead emits the whole
construct as text (`parse_image`), and the two are compared. -/
def spec_image_retry (dict : Refdict) (fuel : Nat) (pos eos : Nat) (buf : Buf)
    (out : List Tok) (nest : List Nest) : Option (List Tok × List Nest × Nat) :=
  parse_link (fun p e o n => parse_inline_loop dict buf 0 fuel p e o n) 0 (pos + 1) eos buf
    (parse_text buf pos (pos + 1) out) dict nest

/-- Claim-side emphasis whitespace context: the run starts at the buffer
start, or is preceded by whitespace. -/
def spec_leftwhite (bos pos : Nat) (buf : Buf) : Prop :=
  pos = bos ∨ ismdwhite (chAt buf (pos - 1))

/-- Claim-side emphasis whitespace context on the right: end of input,
whitespace, or one of `.,;:` followed by whitespace or end of input. -/
def spec_rightwhite (p1 eos : Nat) (buf : Buf) : Prop :=
  p1 ≥ eos ∨ ismdwhite (chAt buf p1) ∨
    ((chAt buf p1 = '.' ∨ chAt buf p1 = ',' ∨ chAt buf p1 = ';' ∨ chAt buf p1 = ':') ∧
      (p1 + 1 ≥ eos ∨ ismdwhite (chAt buf (p1 + 1))))

instance (bos pos : Nat) (buf : Buf) : Decidable (spec_leftwhite bos pos buf) := by
  unfold spec_leftwhite; exact inferInstance

instance (p1 eos : Nat) (buf : Buf) : Decidable (spec_rightwhite p1 eos buf) := by
  unfold spec_rightwhite; exact inferInstance

/-- Claim-side ATX-heading content trim: strip trailing whitespace, then
trailing `#`, then trailing spaces. -/
def spec_atx_trim (content : Buf) : Buf :=
  ((((content.reverse.dropWhile ismdwhite).dropWhile (fun c => c == '#')).dropWhile
    ismdspace)).reverse

/-- Claim-side ATX-heading recognition on one line: after up to three
leading spaces, one or more `#`, optional spaces, and content nonempty
after the trailing trim; the level is the `#` count capped at six. -/
def spec_atx (line : Buf) : Option (Nat × Buf) :=
  let k := min 3 (line.takeWhile (fun c => c == ' ')).length
  let rest := line.drop k
  let count := (rest.takeWhile (fun c => c == '#')).length
  if count = 0 then none
  else
    let content := spec_atx_trim ((rest.drop count).dropWhile ismdspace)
    if content = [] then none
    else some (min count 6, content)

/-- Claim-side named entity body: a letter followed by alphanumerics. -/
def spec_named_body (b : Buf) : Bool :=
  match b with
  | [] => false
  | c :: rest =>
    (('A' ≤ c && c ≤ 'Z') || ('a' ≤ c && c ≤ 'z')) && rest.all ismdalnum

/-- Claim-side numeric entity body: `#` digits, or `#x` hex digits. -/
def spec_numeric_body (b : Buf) : Bool :=
  match b with
  | '#' :: 'x' :: hs => ¬ hs.isEmpty && hs.all ismdxdigit
  | '#' :: ds => ¬ ds.isEmpty && ds.all ismddigit
  | _ => false

/-- Claim-side well-formed entity body. -/
def spec_entity_body (b : Buf) : Bool :=
  spec_named_body b || spec_numeric_body b

/-- Claim-side general-text escaping, written from the words of the
claim: `&` becomes `&amp;` unless it begins a well-formed numeric or
named entity, which passes through verbatim; `<`, `>`, `"`, `'` become
entities; everything else passes through unchanged. -/
def spec_escape_html : Nat → Buf → Buf
  | 0, _ => []
  | _, [] => []
  | fuel+1, c :: rest =>
    if c = '&' then
      let i := rest.findIdx (fun d => d == ';')
      if i < rest.length ∧ spec_entity_body (rest.take i) then
        ('&' :: rest.take i ++ [';']) ++ spec_escape_html fuel (rest.drop (i + 1))
      else "&amp;".data ++ spec_escape_html fuel rest
    else if c = '<' then "&lt;".data ++ spec_escape_html fuel rest
    else if c = '>' then "&gt;".data ++ spec_escape_html fuel rest
    else if c = '"' then "&quot;".data ++ spec_escape_html fuel rest
    else if c = squote then "&#39;".data ++ spec_escape_html fuel rest
    else c :: spec_escape_html fuel rest

/-- Inputs made only of spaces, tabs and newlines. -/
def blank_only (s : Buf) : Prop :=
  ∀ c ∈ s, c = ' ' ∨ c = '\t' ∨ c = '\n'

instance (s : Buf) : Decidable (blank_only s) := by
  unfold blank_only; exact inferInstance

/- theorems settling the claims -/

/-- Claim C1: the translation is deterministic — `translate` is a pure
function of the input buffer alone, so equal inputs give equal
outputs; the embedding carries no state besides the input. -/
theorem C1_translate_deterministic (s t : Buf) (h : s = t) :
    translate s = translate t := by
  rw [h]

/-- Witness for C1 at a concrete input. -/
theorem C1_translate_deterministic_witness :
    "a*b\n".data = "a*b\n".data ∧
      translate "a*b\n".data = translate "a*b\n".data :=
  ⟨rfl, C1_translate_deterministic "a*b\n".data "a*b\n".data rfl⟩

/-- Claim C3: `translate` maps `***bold italic***\n` to exactly
`<p><strong><em>bold italic</em></strong></p>\n`. -/
theorem C3_triple_emphasis_example :
    translate "***bold italic***\n".data =
      some "<p><strong><em>bold italic</em></strong></p>\n".data := by
  decide

/-- Claim C2 (code bug): on the unclosed triple run `***a` the inline
parser returns with an empty nest stack, but the zero-width `SEM`
emitted with the triple opener survives: both frames of a triple record
the index of the `SSTRONG` token, so the cleanup rewrites that slot
twice and never the `SEM` at the next slot.  One `SEM` and no `EEM`
remain, and the whole translation prints an unmatched `<em>`. -/
theorem C2_unclosed_triple_leaves_unmatched_sem :
    parse_inline [] 6 "***a".data =
      some [⟨TEXT, "***a".data, 0, 3⟩, ⟨SEM, "***a".data, 0, 0⟩,
        ⟨TEXT, "***a".data, 3, 4⟩] ∧
    ((parse_inline [] 6 "***a".data).getD []).countP (fun t => t.kind == SEM) = 1 ∧
    ((parse_inline [] 6 "***a".data).getD []).countP (fun t => t.kind == EEM) = 0 ∧
    translate "***a\n".data = some "<p>***<em>a</p>\n".data := by
  decide

/-- Counterexample to claim C4 as stated: the line `#foo\n` has no
space after the `#`, yet `parse_atxheading` recognises it and the whole
translation emits a heading. -/
theorem C4_counterexample_atx_without_space :
    parse_atxheading [⟨LINE, "#foo\n".data, 0, 5⟩] 0 [] =
      (1, [⟨SHEADING1, "#foo\n".data, 1, 1⟩, ⟨INLINE, "#foo\n".data, 1, 4⟩,
        ⟨EHEADING1, "#foo\n".data, 4, 4⟩]) ∧
    translate "#foo\n".data = some "<h1>foo</h1>\n".data := by
  decide

/-- Counterexample to claim C5 as stated: on the failing image
`![*a*]` (empty dictionary) the parser emits one `TEXT` token covering
the whole construct, which differs from the spec-modelled behaviour
(`!` alone as text, bracket retried as a link) both in tokens and in
printed output. -/
theorem C5_counterexample_image_failure :
    parse_image 0 6 "![*a*]".data [] [] = ([⟨TEXT, "![*a*]".data, 0, 6⟩], 6) ∧
    spec_image_retry [] 8 0 6 "![*a*]".data [] [] =
      some ([⟨TEXT, "![*a*]".data, 0, 2⟩, ⟨SEM, "![*a*]".data, 2, 3⟩,
        ⟨TEXT, "![*a*]".data, 3, 4⟩, ⟨EEM, "![*a*]".data, 4, 5⟩,
        ⟨TEXT, "![*a*]".data, 5, 6⟩], [], 6) ∧
    print_inline [⟨TEXT, "![*a*]".data, 0, 6⟩] = "![*a*]".data ∧
    print_inline [⟨TEXT, "![*a*]".data, 0, 2⟩, ⟨SEM, "![*a*]".data, 2, 3⟩,
        ⟨TEXT, "![*a*]".data, 3, 4⟩, ⟨EEM, "![*a*]".data, 4, 5⟩,
        ⟨TEXT, "![*a*]".data, 5, 6⟩] = "![<em>a</em>]".data := by
  decide

/-- Counterexample to claim C6 as stated: for the dictionary entry
`b ↦ (u)v, t)` the reference link `[a][b]` resolves, but substituting
the uri and title into the inline template `[a](uri "title")` gives a
different output, because the unbracketed `)` ends the paren scan
early. -/
theorem C6_counterexample_unrepresentable_uri :
    inline_out [⟨"b".data, "u)v".data, "t".data⟩] "[a][b]".data =
      some "<a href=\"u)v\" title=\"t\">a</a>".data ∧
    inline_out [⟨"b".data, "u)v".data, "t".data⟩] "[a](u)v \"t\")".data =
      some "<a href=\"u\">a</a>v &quot;t&quot;)".data ∧
    inline_out [⟨"b".data, "u)v".data, "t".data⟩] "[a][b]".data ≠
      inline_out [⟨"b".data, "u)v".data, "t".data⟩] "[a](u)v \"t\")".data := by
  decide

/-- With no `[` after the `!`, `parse_image` makes no progress. -/
theorem parse_image_hi_stuck (out : List Tok) (dict : Refdict) :
    parse_image 2 3 "Hi!".data out dict = (out, 2) := rfl

/-- The inline loop repeats the same state at the `!` of `Hi!` forever:
it returns no result at any fuel. -/
theorem loop_hi_stuck (dict : Refdict) :
    ∀ (f : Nat) (out : List Tok) (nest : List Nest),
      parse_inline_loop dict "Hi!".data 0 f 2 3 out nest = none := by
  intro f
  induction f with
  | zero => intro out nest; rfl
  | succ f ih =>
    intro out nest
    show parse_inline_loop dict "Hi!".data 0 f 2 3 out nest = none
    exact ih out nest

/-- The inline loop on `Hi!` from the start reaches the stuck state. -/
theorem loop_hi_start (dict : Refdict) (f : Nat) (out : List Tok) (nest : List Nest) :
    parse_inline_loop dict "Hi!".data 0 f 0 3 out nest = none := by
  cases f with
  | zero => rfl
  | succ f =>
    show parse_inline_loop dict "Hi!".data 0 f 2 3 (parse_text "Hi!".data 0 2 out) nest = none
    exact loop_hi_stuck dict f _ nest

/-- The whole inline parser diverges on `Hi!` for every fuel. -/
theorem parse_inline_hi (dict : Refdict) (g : Nat) :
    parse_inline dict g "Hi!".data = none := by
  cases g with
  | zero => rfl
  | succ g =>
    unfold parse_inline parse_inline_go
    have h3 : "Hi!".data.length = 3 := rfl
    rw [h3, loop_hi_start dict g [] []]
    rfl

/-- Tokenizing `Hi!\n` needs two fuel steps and gives one line. -/
theorem split_hi (f : Nat) :
    split_lines (f + 2) "Hi!\n".data = some ([⟨LINE, "Hi!\n".data, 0, 4⟩], []) := rfl

/-- The block pass wraps the line in a paragraph. -/
theorem block_hi (f : Nat) :
    parse_block (f + 2) [⟨LINE, "Hi!\n".data, 0, 4⟩] =
      some [⟨SPARAGRAPH, "Hi!\n".data, 0, 0⟩, ⟨INLINE, "Hi!\n".data, 0, 4⟩,
        ⟨EPARAGRAPH, [], 0, 0⟩] := rfl

/-- The writer blocks on the inline run `Hi!` at every fuel. -/
theorem pb_hi (f lf : Nat) (acc : Buf) :
    print_block_go (f + 2) [] [⟨SPARAGRAPH, "Hi!\n".data, 0, 0⟩,
      ⟨INLINE, "Hi!\n".data, 0, 4⟩, ⟨EPARAGRAPH, [], 0, 0⟩] (lf + 1) 1 acc = none := by
  show (match parse_inline [] (f + 2) "Hi!".data with
        | none => (none : Option Buf)
        | some itoks => print_block_go (f + 2) [] [⟨SPARAGRAPH, "Hi!\n".data, 0, 0⟩,
            ⟨INLINE, "Hi!\n".data, 0, 4⟩, ⟨EPARAGRAPH, [], 0, 0⟩] lf 2
            (acc ++ print_inline itoks)) = none
  rw [parse_inline_hi [] (f + 2)]

/-- Claim C9 (code bug): the translator fails to produce any output on
the well-formed input `Hi!\n` — `parse_image` returns its argument
position when the `!` is not followed by `[`, so the inline loop never
progresses, at any fuel. -/
theorem C9_translate_diverges_on_bang (fuel : Nat) :
    markdownFuel fuel "Hi!\n".data = none := by
  match fuel with
  | 0 => rfl
  | 1 => rfl
  | (f + 2) =>
    show print_block_go (f + 2) [] [⟨SPARAGRAPH, "Hi!\n".data, 0, 0⟩,
      ⟨INLINE, "Hi!\n".data, 0, 4⟩, ⟨EPARAGRAPH, [], 0, 0⟩] 3 1 "<p>".data = none
    exact pb_hi f 2 "<p>".data

/-- Claim C8: a run of identical `*` or `_` characters met by the
inline parser degrades to literal (coalesced) `TEXT`, leaving the nest
stack unchanged, when the run is longer than 3 or has whitespace on
both sides, where the right side also counts as whitespace before one
of `.,;:` followed by whitespace or end of input. -/
theorem C8_emphasis_run_degrades_to_text (buf : Buf) (bos pos eos : Nat)
    (out : List Tok) (nest : List Nest)
    (hpos : pos < eos) (hc : chAt buf pos = '*' ∨ chAt buf pos = '_')
    (hdeg : scan_of_c buf pos eos 1 (-1) (chAt buf pos) - pos > 3 ∨
      (spec_leftwhite bos pos buf ∧
        spec_rightwhite (scan_of_c buf pos eos 1 (-1) (chAt buf pos)) eos buf)) :
    parse_emphasis bos pos eos buf out nest =
      (parse_text buf pos (scan_of_c buf pos eos 1 (-1) (chAt buf pos)) out, nest,
        scan_of_c buf pos eos 1 (-1) (chAt buf pos)) := by
  simp only [parse_emphasis]
  rw [if_pos]
  rcases hdeg with h | ⟨hl, hr⟩
  · exact Or.inl h
  · refine Or.inr ⟨?_, ?_⟩
    · simp only [Bool.or_eq_true, decide_eq_true_eq, beq_iff_eq]
      simp only [spec_leftwhite] at hl
      tauto
    · simp only [Bool.or_eq_true, Bool.and_eq_true, decide_eq_true_eq, beq_iff_eq]
      simp only [spec_rightwhite, ge_iff_le] at hr
      tauto

/-- Witness for C8: the run ` ** ` (whitespace on both sides). -/
theorem C8_emphasis_run_degrades_to_text_witness :
    (1 < 4 ∧ (chAt " ** ".data 1 = '*' ∨ chAt " ** ".data 1 = '_') ∧
      (scan_of_c " ** ".data 1 4 1 (-1) (chAt " ** ".data 1) - 1 > 3 ∨
        (spec_leftwhite 0 1 " ** ".data ∧
          spec_rightwhite (scan_of_c " ** ".data 1 4 1 (-1) (chAt " ** ".data 1)) 4
            " ** ".data))) ∧
    parse_emphasis 0 1 4 " ** ".data [] [] =
      (parse_text " ** ".data 1 (scan_of_c " ** ".data 1 4 1 (-1) (chAt " ** ".data 1)) [],
        [], scan_of_c " ** ".data 1 4 1 (-1) (chAt " ** ".data 1)) :=
  ⟨⟨by decide, by decide, by decide⟩,
    C8_emphasis_run_degrades_to_text " ** ".data 0 1 4 [] [] (by decide) (by decide)
      (by decide)⟩

/- characterisations of the scanning primitives -/

/-- A scan whose first character fails returns its start. -/
theorem scan_of_no_first (buf : Buf) (pos eos : Nat) (n1 : Nat) (n2 : Int)
    (pr : Char → Bool) (h : ¬ (pos < eos ∧ pr (chAt buf pos) = true)) :
    scan_of buf pos eos n1 n2 pr = pos := by
  unfold scan_of scan_of_go
  simp [h]

/-- Invariant of the scan loop: it returns `pos`, or a position between
the cursor and `eos` having scanned only matching characters. -/
theorem scan_of_go_spec (buf : Buf) (eos : Nat) (n1 : Nat) (n2 : Int)
    (pr : Char → Bool) (pos : Nat) :
    ∀ (fuel p i : Nat), p ≤ eos → eos < p + fuel →
      scan_of_go buf eos n1 n2 pr pos fuel p i = pos ∨
        (p ≤ scan_of_go buf eos n1 n2 pr pos fuel p i ∧
          scan_of_go buf eos n1 n2 pr pos fuel p i ≤ eos ∧
          ∀ j, p ≤ j → j < scan_of_go buf eos n1 n2 pr pos fuel p i →
            pr (chAt buf j) = true) := by
  intro fuel
  induction fuel with
  | zero => intro p i hp hf; omega
  | succ fuel ih =>
    intro p i hp hf
    unfold scan_of_go
    split
    · split
      · rename_i hcond
        rcases ih (p + 1) (i + 1) (by omega) (by omega) with h | ⟨h1, h2, h3⟩
        · exact Or.inl h
        · refine Or.inr ⟨by omega, h2, ?_⟩
          intro j hj1 hj2
          rcases Nat.eq_or_lt_of_le hj1 with rfl | hj
          · exact hcond.2
          · exact h3 j (by omega) hj2
      · split
        · exact Or.inl rfl
        · exact Or.inr ⟨le_rfl, hp, by omega⟩
    · exact Or.inr ⟨le_rfl, hp, by omega⟩

/-- Bounds and matched-prefix property of `scan_of`. -/
theorem scan_of_spec (buf : Buf) (pos eos : Nat) (n1 : Nat) (n2 : Int)
    (pr : Char → Bool) (h : pos ≤ eos) :
    pos ≤ scan_of buf pos eos n1 n2 pr ∧ scan_of buf pos eos n1 n2 pr ≤ eos ∧
      ∀ j, pos ≤ j → j < scan_of buf pos eos n1 n2 pr → pr (chAt buf j) = true := by
  unfold scan_of
  rcases scan_of_go_spec buf eos n1 n2 pr pos (eos - pos + 1) pos 0 h (by omega) with
    heq | ⟨h1, h2, h3⟩
  · rw [heq]
    exact ⟨le_rfl, h, by omega⟩
  · exact ⟨h1, h2, h3⟩

/-- With `n1 = 0` and unbounded `n2`, the scan stops at the first
non-matching character. -/
theorem scan0_stop (buf : Buf) (pos eos : Nat) (pr : Char → Bool) :
    ∀ (fuel p i : Nat), eos < p + fuel →
      scan_of_go buf eos 0 (-1) pr pos fuel p i < eos →
      pr (chAt buf (scan_of_go buf eos 0 (-1) pr pos fuel p i)) = false := by
  intro fuel
  induction fuel with
  | zero =>
    intro p i hf hlt
    unfold scan_of_go at hlt
    omega
  | succ fuel ih =>
    intro p i hf hlt
    rw [scan_of_go] at hlt ⊢
    have hc : ((-1 : Int) < 0 ∨ (i : Int) < -1) := by omega
    rw [if_pos hc] at hlt ⊢
    by_cases hm : p < eos ∧ pr (chAt buf p) = true
    · rw [if_pos hm] at hlt ⊢
      exact ih (p + 1) (i + 1) (by omega) hlt
    · rw [if_neg hm] at hlt ⊢
      have h0 : ¬ i < 0 := by omega
      rw [if_neg h0] at hlt ⊢
      rcases Decidable.not_and_iff_or_not.mp hm with h | h
      · omega
      · simpa using h

/-- The `n1 = 0`, unbounded scan: value form of the stop property. -/
theorem scan0_spec (buf : Buf) (pos eos : Nat) (pr : Char → Bool) (h : pos ≤ eos) :
    pos ≤ scan_of buf pos eos 0 (-1) pr ∧ scan_of buf pos eos 0 (-1) pr ≤ eos ∧
      (∀ j, pos ≤ j → j < scan_of buf pos eos 0 (-1) pr → pr (chAt buf j) = true) ∧
      (scan_of buf pos eos 0 (-1) pr < eos →
        pr (chAt buf (scan_of buf pos eos 0 (-1) pr)) = false) := by
  rcases scan_of_spec buf pos eos 0 (-1) pr h with ⟨h1, h2, h3⟩
  exact ⟨h1, h2, h3, scan0_stop buf pos eos pr (eos - pos + 1) pos 0 (by omega)⟩

/-- The optional-single-character scans (`n2 = 1`, `n1 ≤ 1`). -/
theorem scan_one_eq (buf : Buf) (pos eos : Nat) (n1 : Nat) (pr : Char → Bool)
    (hn : n1 ≤ 1) :
    scan_of buf pos eos n1 1 pr =
      if pos < eos ∧ pr (chAt buf pos) = true then pos + 1 else pos := by
  by_cases h : pos < eos ∧ pr (chAt buf pos) = true
  · rw [if_pos h]
    unfold scan_of
    have hf : eos - pos + 1 = (eos - pos - 1) + 1 + 1 := by omega
    rw [hf]
    unfold scan_of_go
    rw [if_pos (by omega : ((1 : Int) < 0 ∨ ((0 : Nat) : Int) < 1)), if_pos h]
    unfold scan_of_go
    rw [if_neg (by omega : ¬ ((1 : Int) < 0 ∨ ((1 : Nat) : Int) < 1))]
  · rw [if_neg h]
    exact scan_of_no_first buf pos eos n1 1 pr h

/-- Once the minimum is reached, `n1` no longer matters. -/
theorem scan_of_go_n1_irrel (buf : Buf) (eos : Nat) (n1 : Nat) (n2 : Int)
    (pr : Char → Bool) (pos : Nat) :
    ∀ (fuel p i : Nat), n1 ≤ i →
      scan_of_go buf eos n1 n2 pr pos fuel p i =
        scan_of_go buf eos 0 n2 pr pos fuel p i := by
  intro fuel
  induction fuel with
  | zero => intro p i _; rfl
  | succ fuel ih =>
    intro p i hi
    unfold scan_of_go
    split
    · split
      · exact ih (p + 1) (i + 1) (by omega)
      · rw [if_neg (by omega : ¬ i < n1), if_neg (by omega : ¬ i < 0)]
    · rfl

/-- The at-least-one unbounded scan agrees with the unbounded scan when
the first character matches. -/
theorem scan1_eq_scan0 (buf : Buf) (pos eos : Nat) (pr : Char → Bool)
    (h : pos < eos ∧ pr (chAt buf pos) = true) :
    scan_of buf pos eos 1 (-1) pr = scan_of buf pos eos 0 (-1) pr := by
  unfold scan_of
  have hf : eos - pos + 1 = (eos - pos - 1) + 1 + 1 := by omega
  rw [hf]
  conv =>
    lhs
    rw [scan_of_go]
  conv =>
    rhs
    rw [scan_of_go]
  rw [if_pos (by omega : ((-1 : Int) < 0 ∨ ((0 : Nat) : Int) < -1)), if_pos h,
    if_pos (by omega : ((-1 : Int) < 0 ∨ ((0 : Nat) : Int) < -1)), if_pos h]
  exact scan_of_go_n1_irrel buf eos 1 (-1) pr pos (eos - pos - 1 + 1) (pos + 1) 1 le_rfl

/-- Bounds of the reverse scan. -/
theorem rscan_of_spec (buf : Buf) (bos : Nat) (pr : Char → Bool) :
    ∀ p, bos ≤ p →
      bos ≤ rscan_of buf bos pr p ∧ rscan_of buf bos pr p ≤ p ∧
        (∀ j, rscan_of buf bos pr p ≤ j → j < p → pr (chAt buf j) = true) ∧
        (bos < rscan_of buf bos pr p →
          pr (chAt buf (rscan_of buf bos pr p - 1)) = false) := by
  intro p
  induction p with
  | zero =>
    intro hb
    unfold rscan_of
    exact ⟨hb, le_rfl, by omega, by omega⟩
  | succ p ih =>
    intro hb
    unfold rscan_of
    by_cases h : bos ≤ p ∧ pr (chAt buf p) = true
    · rw [if_pos h]
      rcases ih h.1 with ⟨h1, h2, h3, h4⟩
      refine ⟨h1, by omega, ?_, h4⟩
      intro j hj1 hj2
      rcases Nat.lt_succ_iff_lt_or_eq.mp hj2 with hj | rfl
      · exact h3 j hj1 hj
      · exact h.2
    · rw [if_neg h]
      refine ⟨hb, le_rfl, by omega, ?_⟩
      intro hlt
      rcases Decidable.not_and_iff_or_not.mp h with hc | hc
      · omega
      · simpa using hc

theorem chAt_mem (s : Buf) (p : Nat) (hp : p < s.length) : chAt s p ∈ s := by
  unfold chAt
  rw [List.getD_eq_getElem s _ hp]
  exact List.getElem_mem hp

theorem scan_quoted_nomatch (buf : Buf) (pos eos : Nat) (lq rq esc : Char)
    (pr : Char → Bool) (hc : ¬ (pos < eos ∧ chAt buf pos = lq)) :
    scan_quoted buf pos eos lq rq esc pr = pos := by
  unfold scan_quoted
  rw [if_neg hc]

theorem parse_blockcode_nomatch (buf : Buf) (bos pos eos : Nat) (out : List Tok)
    (hc : ¬ (pos < eos ∧ chAt buf pos = backquote)) :
    parse_blockcode buf bos pos eos out = (pos, out) := by
  unfold parse_blockcode
  split
  · rfl
  split
  · rfl
  have h1 : scan_of_c buf pos eos 3 3 backquote = pos := by
    unfold scan_of_c
    apply scan_of_no_first
    simpa using hc
  simp [h1]

theorem scan_htmlcomment_nolt (buf : Buf) (pos eos : Nat)
    (hc : ¬ (pos < eos ∧ chAt buf pos = '<')) :
    scan_htmlcomment buf pos eos = pos := by
  unfold scan_htmlcomment
  have h1 : scan_of_c buf pos eos 1 1 '<' = pos := by
    unfold scan_of_c
    apply scan_of_no_first
    simpa using hc
  simp [h1]

theorem scan_htmltag_nolt (buf : Buf) (pos eos : Nat)
    (hc : ¬ (pos < eos ∧ chAt buf pos = '<')) :
    scan_htmltag buf pos eos = (pos, []) := by
  unfold scan_htmltag
  rw [scan_htmlcomment_nolt buf pos eos hc]
  have h1 : scan_of_c buf pos eos 1 1 '<' = pos := by
    unfold scan_of_c
    apply scan_of_no_first
    simpa using hc
  simp [h1]

theorem parse_blockhtml_nomatch (buf : Buf) (bos pos eos : Nat) (out : List Tok)
    (hc : ¬ (pos < eos ∧ chAt buf pos = '<')) :
    parse_blockhtml buf bos pos eos out = (pos, out) := by
  unfold parse_blockhtml
  split
  · rfl
  split
  · rfl
  rw [scan_htmltag_nolt buf pos eos hc]
  simp

theorem scan_refdef_id_fail (buf : Buf) (pos eos : Nat)
    (hqc : ¬ (scan_tab_not buf pos eos < eos ∧
      chAt buf (scan_tab_not buf pos eos) = '[')) :
    scan_refdef_id buf pos eos = (pos, []) := by
  unfold scan_refdef_id
  simp [scan_quoted_nomatch buf (scan_tab_not buf pos eos) eos '[' ']' '\\' ismdprint hqc]

theorem parse_refdef_fail (buf : Buf) (pos eos : Nat) (dict : Refdict)
    (hqc : ¬ (scan_tab_not buf pos eos < eos ∧
      chAt buf (scan_tab_not buf pos eos) = '[')) :
    parse_refdef buf pos eos dict = (pos, dict) := by
  unfold parse_refdef
  rw [scan_refdef_id_fail buf pos eos hqc]
  simp

theorem split_lines_go_blank (s : Buf) (hb : blank_only s) :
    ∀ (fuel p : Nat) (out : List Tok) (dict : Refdict), p ≤ s.length →
      s.length < p + fuel →
      ∃ rest, split_lines_go s fuel p out dict = some (out ++ rest, dict) ∧
        ∀ t ∈ rest, t.kind = BLANK := by
  intro fuel
  induction fuel with
  | zero => intro p out dict hp hf; omega
  | succ fuel ih =>
    intro p out dict hp hf
    rw [split_lines_go]
    by_cases hlt : p < s.length
    · rw [if_pos hlt]
      have hcp := hb (chAt s p) (chAt_mem s p hlt)
      have h1 : parse_blockcode s 0 p s.length out = (p, out) := by
        apply parse_blockcode_nomatch
        rintro ⟨-, hq⟩
        rcases hcp with h | h | h <;> rw [h] at hq <;> exact absurd hq (by decide)
      have h2 : parse_blockhtml s 0 p s.length out = (p, out) := by
        apply parse_blockhtml_nomatch
        rintro ⟨-, hq⟩
        rcases hcp with h | h | h <;> rw [h] at hq <;> exact absurd hq (by decide)
      have h3 : parse_refdef s p s.length dict = (p, dict) := by
        apply parse_refdef_fail
        rintro ⟨hq1, hq2⟩
        have hcq := hb (chAt s (scan_tab_not s p s.length))
          (chAt_mem s (scan_tab_not s p s.length) hq1)
        rcases hcq with h | h | h <;> rw [h] at hq2 <;> exact absurd hq2 (by decide)
      simp only [h1, h2, h3, gt_iff_lt, lt_self_iff_false, if_false]
      obtain ⟨hs1, hs2, -, hs4⟩ := scan0_spec s p s.length ismdspace (le_of_lt hlt)
      set p2 := scan_of s p s.length 0 (-1) ismdspace with hp2
      have hnl : ¬ (p2 < s.length ∧ ismdprint (chAt s p2) = true) := by
        rintro ⟨hq1, hq2⟩
        have hc2 := hb (chAt s p2) (chAt_mem s p2 hq1)
        have hstop := hs4 hq1
        rcases hc2 with h | h | h
        · rw [h] at hstop; exact absurd hstop (by decide)
        · rw [h] at hstop; exact absurd hstop (by decide)
        · rw [h] at hq2; exact absurd hq2 (by decide)
      have h4 : scan_of s p2 s.length 0 (-1) ismdprint = p2 :=
        scan_of_no_first s p2 s.length 0 (-1) ismdprint hnl
      have h5 : scan_of_c s p2 s.length 1 1 '\n' =
          if p2 < s.length ∧ (chAt s p2 == '\n') = true then p2 + 1 else p2 :=
        scan_one_eq s p2 s.length 1 (fun x => x == '\n') le_rfl
      simp only [h4, eq_self_iff_true, if_true, ite_true]
      rw [h5]
      by_cases hend : p2 < s.length
      · have hc2 := hb (chAt s p2) (chAt_mem s p2 hend)
        have hstop := hs4 hend
        have hnl2 : chAt s p2 = '\n' := by
          rcases hc2 with h | h | h
          · rw [h] at hstop; exact absurd hstop (by decide)
          · rw [h] at hstop; exact absurd hstop (by decide)
          · exact h
        rw [if_pos ⟨hend, by simp [hnl2]⟩]
        obtain ⟨rest, hrest, hall⟩ := ih (p2 + 1) (out ++ [⟨BLANK, s, p2, p2 + 1⟩]) dict
          (by omega) (by omega)
        refine ⟨⟨BLANK, s, p2, p2 + 1⟩ :: rest, ?_, ?_⟩
        · rw [hrest]
          simp
        · intro t ht
          rcases List.mem_cons.mp ht with rfl | ht
          · rfl
          · exact hall t ht
      · rw [if_neg (fun hcc => hend hcc.1)]
        obtain ⟨rest, hrest, hall⟩ := ih p2 (out ++ [⟨BLANK, s, p2, p2⟩]) dict
          (by omega) (by omega)
        refine ⟨⟨BLANK, s, p2, p2⟩ :: rest, ?_, ?_⟩
        · rw [hrest]
          simp
        · intro t ht
          rcases List.mem_cons.mp ht with rfl | ht
          · rfl
          · exact hall t ht
    · rw [if_neg hlt]
      exact ⟨[], by simp, by simp⟩

theorem parse_block_go_blank (rec : List Tok → Option (List Tok)) (lines : List Tok)
    (hb : ∀ t ∈ lines, t.kind = BLANK) :
    ∀ (lfuel dot : Nat) (listitem : Bool) (out : List Tok), dot ≤ lines.length →
      lines.length < dot + lfuel →
      parse_block_go rec lines lfuel dot listitem out = some (out ++ lines.drop dot) := by
  intro lfuel
  induction lfuel with
  | zero => intro dot listitem out hd hf; omega
  | succ lfuel ih =>
    intro dot listitem out hd hf
    rw [parse_block_go]
    by_cases hlt : dot < lines.length
    · rw [if_pos hlt]
      have hkind : (lineAt lines dot).kind = BLANK := by
        apply hb
        unfold lineAt
        rw [List.getD_eq_getElem lines _ hlt]
        exact List.getElem_mem hlt
      rw [if_neg (by rw [hkind]; decide), if_neg (by rw [hkind]; decide)]
      rw [ih (dot + 1) listitem (out ++ [lineAt lines dot]) (by omega) (by omega)]
      have hdrop : lines.drop dot = lineAt lines dot :: lines.drop (dot + 1) := by
        unfold lineAt
        rw [List.getD_eq_getElem lines _ hlt]
        exact List.drop_eq_getElem_cons hlt
      rw [hdrop]
      simp
    · rw [if_neg hlt]
      have : lines.drop dot = [] := List.drop_eq_nil_of_le (by omega)
      rw [this]
      simp

theorem parse_block_blank (fuel : Nat) (lines : List Tok)
    (hb : ∀ t ∈ lines, t.kind = BLANK) :
    parse_block (fuel + 1) lines = some lines := by
  rw [parse_block]
  have := parse_block_go_blank (parse_block fuel) lines hb (lines.length + 1) 0 false []
    (by omega) (by omega)
  rw [this]
  simp

theorem parse_blank_go_all (toks : List Tok) (hb : ∀ t ∈ toks, t.kind = BLANK) :
    ∀ (fuel i : Nat), i ≤ toks.length → toks.length < i + fuel →
      parse_blank_go toks fuel i = toks.length := by
  intro fuel
  induction fuel with
  | zero => intro i hi hf; omega
  | succ fuel ih =>
    intro i hi hf
    rw [parse_blank_go]
    by_cases hlt : i < toks.length
    · have hkind : (lineAt toks i).kind = BLANK := by
        apply hb
        unfold lineAt
        rw [List.getD_eq_getElem toks _ hlt]
        exact List.getElem_mem hlt
      rw [if_pos ⟨hlt, hkind⟩]
      exact ih (i + 1) (by omega) (by omega)
    · rw [if_neg (fun hcc => hlt hcc.1)]
      omega

theorem print_block_blank (ifuel : Nat) (toks : List Tok) (dict : Refdict)
    (hb : ∀ t ∈ toks, t.kind = BLANK) :
    print_block ifuel toks dict = some [] := by
  unfold print_block parse_blank
  rw [parse_blank_go_all toks hb (toks.length - 0 + 1) 0 (by omega) (by omega)]
  rw [print_block_go]
  rw [if_neg (by omega)]

/-- Claim C10: the empty input, and every input made only of spaces,
tabs and newlines, translates to the empty output. -/
theorem C10_blank_input_empty_output (s : Buf) (h : blank_only s) :
    translate s = some [] := by
  unfold translate markdownFuel
  obtain ⟨rest, hsplit, hall⟩ := split_lines_go_blank s h (s.length + 2) 0 [] []
    (by omega) (by omega)
  unfold split_lines
  rw [hsplit]
  simp only [List.nil_append]
  rw [show s.length + 2 = (s.length + 1) + 1 from rfl]
  rw [parse_block_blank (s.length + 1) rest hall]
  show print_block (s.length + 1 + 1) rest [] = some []
  exact print_block_blank (s.length + 1 + 1) rest [] hall

/-- Witness for C10 at a concrete blank input. -/
theorem C10_blank_input_empty_output_witness :
    blank_only " \n\t\n\n ".data ∧ translate " \n\t\n\n ".data = some [] :=
  ⟨by decide, C10_blank_input_empty_output " \n\t\n\n ".data (by decide)⟩

/- list-level bridges between the scans and takeWhile/dropWhile -/

theorem chAt_drop (l : Buf) (n j : Nat) : chAt (l.drop n) j = chAt l (n + j) := by
  unfold chAt
  rw [List.getD_eq_getElem?_getD, List.getD_eq_getElem?_getD, List.getElem?_drop]

theorem takeWhile_prefix_prop (pr : Char → Bool) :
    ∀ (l : Buf) (j : Nat), j < (l.takeWhile pr).length → pr (chAt l j) = true := by
  intro l
  induction l with
  | nil => intro j hj; simp at hj
  | cons c rest ih =>
    intro j hj
    rw [List.takeWhile_cons] at hj
    by_cases hpr : pr c = true
    · rw [if_pos hpr] at hj
      simp only [List.length_cons] at hj
      cases j with
      | zero => simpa [chAt]
      | succ j => simpa [chAt] using ih j (by omega)
    · rw [if_neg hpr] at hj
      simp at hj

theorem takeWhile_stop_prop (pr : Char → Bool) :
    ∀ (l : Buf), (l.takeWhile pr).length < l.length →
      pr (chAt l ((l.takeWhile pr).length)) = false := by
  intro l
  induction l with
  | nil => intro h; simp at h
  | cons c rest ih =>
    intro h
    rw [List.takeWhile_cons] at h ⊢
    by_cases hpr : pr c = true
    · rw [if_pos hpr] at h ⊢
      simp only [List.length_cons] at h ⊢
      simpa [chAt] using ih (by omega)
    · rw [if_neg hpr]
      simpa [chAt] using hpr

theorem takeWhile_len_le (pr : Char → Bool) (l : Buf) :
    (l.takeWhile pr).length ≤ l.length :=
  List.length_le_of_sublist (List.takeWhile_sublist pr)

theorem takeWhile_pos_iff (pr : Char → Bool) (l : Buf) :
    0 < (l.takeWhile pr).length ↔ (0 < l.length ∧ pr (chAt l 0) = true) := by
  cases l with
  | nil => simp
  | cons c rest =>
    rw [List.takeWhile_cons]
    by_cases hpr : pr c = true
    · rw [if_pos hpr]
      simp only [List.length_cons, chAt, List.getD_cons_zero]
      simp [hpr]
    · rw [if_neg hpr]
      simp only [List.length_nil, chAt, List.getD_cons_zero]
      simp [hpr]

theorem dropWhile_eq_drop (pr : Char → Bool) :
    ∀ (l : Buf), l.dropWhile pr = l.drop (l.takeWhile pr).length := by
  intro l
  induction l with
  | nil => rfl
  | cons c rest ih =>
    rw [List.dropWhile_cons, List.takeWhile_cons]
    by_cases hpr : pr c = true
    · rw [if_pos hpr, if_pos hpr]
      simpa using ih
    · rw [if_neg hpr, if_neg hpr]
      simp

/-- The stop position of a forward run is unique. -/
theorem scan_unique (pos eos q1 q2 : Nat) (P : Nat → Bool)
    (a1 : pos ≤ q1) (a2 : q1 ≤ eos) (a3 : ∀ j, pos ≤ j → j < q1 → P j = true)
    (a4 : q1 < eos → P q1 = false)
    (b1 : pos ≤ q2) (b2 : q2 ≤ eos) (b3 : ∀ j, pos ≤ j → j < q2 → P j = true)
    (b4 : q2 < eos → P q2 = false) : q1 = q2 := by
  rcases lt_trichotomy q1 q2 with h | h | h
  · have := b3 q1 a1 h
    have := a4 (by omega)
    simp_all
  · exact h
  · have := a3 q2 b1 h
    have := b4 (by omega)
    simp_all

/-- The unbounded zero-minimum scan is the takeWhile length. -/
theorem scan0_eq (buf : Buf) (pos : Nat) (pr : Char → Bool) (h : pos ≤ buf.length) :
    scan_of buf pos buf.length 0 (-1) pr = pos + ((buf.drop pos).takeWhile pr).length := by
  obtain ⟨h1, h2, h3, h4⟩ := scan0_spec buf pos buf.length pr h
  set m := ((buf.drop pos).takeWhile pr).length with hm
  have hml : m ≤ buf.length - pos := by
    have := takeWhile_len_le pr (buf.drop pos)
    simpa [hm] using this
  apply scan_unique pos buf.length _ _ (fun j => pr (chAt buf j)) h1 h2 h3 h4
  · omega
  · omega
  · intro j hj1 hj2
    have := takeWhile_prefix_prop pr (buf.drop pos) (j - pos) (by omega)
    rwa [chAt_drop, Nat.add_sub_cancel' hj1] at this
  · intro hlt
    have := takeWhile_stop_prop pr (buf.drop pos) (by simp; omega)
    rwa [← hm, chAt_drop] at this

theorem chAt_take (l : Buf) (n i : Nat) (h : i < n) : chAt (l.take n) i = chAt l i := by
  unfold chAt
  rw [List.getD_eq_getElem?_getD, List.getD_eq_getElem?_getD, List.getElem?_take,
    if_pos h]

theorem chAt_reverse (l : Buf) (i : Nat) (h : i < l.length) :
    chAt l.reverse i = chAt l (l.length - 1 - i) := by
  unfold chAt
  rw [List.getD_eq_getElem?_getD, List.getD_eq_getElem?_getD, List.getElem?_reverse h]

/-- Invariant of the bounded zero-minimum scan. -/
theorem scan_of_go_bounded (buf : Buf) (eos : Nat) (k : Nat) (pr : Char → Bool)
    (pos : Nat) :
    ∀ (fuel p : Nat), pos ≤ p → p ≤ eos → eos < p + fuel → p - pos ≤ k →
      pos ≤ scan_of_go buf eos 0 (k : Int) pr pos fuel p (p - pos) ∧
      scan_of_go buf eos 0 (k : Int) pr pos fuel p (p - pos) ≤ eos ∧
      scan_of_go buf eos 0 (k : Int) pr pos fuel p (p - pos) - pos ≤ k ∧
      (∀ j, p ≤ j → j < scan_of_go buf eos 0 (k : Int) pr pos fuel p (p - pos) →
        pr (chAt buf j) = true) ∧
      (scan_of_go buf eos 0 (k : Int) pr pos fuel p (p - pos) < eos →
        scan_of_go buf eos 0 (k : Int) pr pos fuel p (p - pos) - pos < k →
        pr (chAt buf (scan_of_go buf eos 0 (k : Int) pr pos fuel p (p - pos))) = false) := by
  intro fuel
  induction fuel with
  | zero => intro p h1 h2 h3 h4; omega
  | succ fuel ih =>
    intro p h1 h2 h3 h4
    rw [scan_of_go]
    by_cases hk : ((k : Int) < 0 ∨ ((p - pos : Nat) : Int) < (k : Int))
    · rw [if_pos hk]
      have hik : p - pos < k := by omega
      by_cases hm : p < eos ∧ pr (chAt buf p) = true
      · rw [if_pos hm]
        have heq : p - pos + 1 = (p + 1) - pos := by omega
        rw [heq]
        obtain ⟨g1, g2, g3, g4, g5⟩ := ih (p + 1) (by omega) (by omega) (by omega) (by omega)
        refine ⟨by omega, g2, g3, ?_, g5⟩
        intro j hj1 hj2
        rcases Nat.eq_or_lt_of_le hj1 with rfl | hj
        · exact hm.2
        · exact g4 j (by omega) hj2
      · rw [if_neg hm, if_neg (by omega : ¬ p - pos < 0)]
        refine ⟨h1, h2, by omega, by omega, ?_⟩
        intro hlt _
        rcases Decidable.not_and_iff_or_not.mp hm with hc | hc
        · omega
        · simpa using hc
    · rw [if_neg hk]
      exact ⟨h1, h2, by omega, by omega, by omega⟩

/-- The bounded zero-minimum scan: takeWhile length capped at the bound. -/
theorem scan0k_eq (buf : Buf) (pos : Nat) (k : Nat) (pr : Char → Bool)
    (h : pos ≤ buf.length) :
    scan_of buf pos buf.length 0 (k : Int) pr =
      pos + min k ((buf.drop pos).takeWhile pr).length := by
  unfold scan_of
  have hgo := scan_of_go_bounded buf buf.length k pr pos (buf.length - pos + 1) pos
    le_rfl h (by omega) (by omega)
  rw [show pos - pos = 0 from by omega] at hgo
  obtain ⟨g1, g2, g3, g4, g5⟩ := hgo
  set q := scan_of_go buf buf.length 0 (k : Int) pr pos (buf.length - pos + 1) pos 0
    with hqdef
  set m := ((buf.drop pos).takeWhile pr).length with hm
  have hml : m ≤ buf.length - pos := by
    have := takeWhile_len_le pr (buf.drop pos)
    simp only [List.length_drop] at this
    omega
  rcases lt_trichotomy q (pos + min k m) with hcmp | hcmp | hcmp
  · exfalso
    have hstop := g5 (by omega) (by omega)
    have hall := takeWhile_prefix_prop pr (buf.drop pos) (q - pos) (by omega)
    rw [chAt_drop, Nat.add_sub_cancel' g1] at hall
    rw [hall] at hstop
    exact absurd hstop (by decide)
  · exact hcmp
  · exfalso
    have hall := g4 (pos + min k m) (by omega) hcmp
    by_cases hkm : k ≤ m
    · omega
    · have hmin : min k m = m := by omega
      rw [hmin] at hall
      have hstop := takeWhile_stop_prop pr (buf.drop pos)
        (by simp only [List.length_drop]; omega)
      rw [chAt_drop, ← hm] at hstop
      rw [hall] at hstop
      exact absurd hstop (by decide)

/-- The stop position of a backward run is unique. -/
theorem rrun_unique (lo p q1 q2 : Nat) (P : Nat → Bool)
    (a1 : lo ≤ q1) (a2 : q1 ≤ p) (a3 : ∀ j, q1 ≤ j → j < p → P j = true)
    (a4 : lo < q1 → P (q1 - 1) = false)
    (b1 : lo ≤ q2) (b2 : q2 ≤ p) (b3 : ∀ j, q2 ≤ j → j < p → P j = true)
    (b4 : lo < q2 → P (q2 - 1) = false) : q1 = q2 := by
  rcases lt_trichotomy q1 q2 with h | h | h
  · have := a3 (q2 - 1) (by omega) (by omega)
    have := b4 (by omega)
    simp_all
  · exact h
  · have := b3 (q1 - 1) (by omega) (by omega)
    have := a4 (by omega)
    simp_all

/-- The backward scan is the trailing matched run of the region. -/
theorem rscan_eq (l : Buf) (lo p : Nat) (pr : Char → Bool)
    (hlo : lo ≤ p) (hp : p ≤ l.length) :
    rscan_of l lo pr p =
      p - (((l.drop lo).take (p - lo)).reverse.takeWhile pr).length := by
  obtain ⟨a1, a2, a3, a4⟩ := rscan_of_spec l lo pr p hlo
  set region := (l.drop lo).take (p - lo) with hreg
  have hrl : region.length = p - lo := by
    simp [hreg]
    omega
  set m := (region.reverse.takeWhile pr).length with hm
  have hmle : m ≤ p - lo := by
    have := takeWhile_len_le pr region.reverse
    rw [List.length_reverse, hrl] at this
    omega
  have hregAt : ∀ i, i < p - lo → chAt region i = chAt l (lo + i) := by
    intro i hi
    rw [hreg, chAt_take _ _ _ hi, chAt_drop]
  apply rrun_unique lo p _ _ (fun j => pr (chAt l j)) a1 a2 a3 a4
  · omega
  · omega
  · intro j hj1 hj2
    have hmi : p - 1 - j < m := by omega
    have hx := takeWhile_prefix_prop pr region.reverse (p - 1 - j) hmi
    rw [chAt_reverse region (p - 1 - j) (by rw [hrl]; omega)] at hx
    rw [hrl] at hx
    rw [hregAt (p - lo - 1 - (p - 1 - j)) (by omega)] at hx
    rw [show lo + (p - lo - 1 - (p - 1 - j)) = j from by omega] at hx
    exact hx
  · intro hlt
    have hx := takeWhile_stop_prop pr region.reverse
      (by rw [List.length_reverse, hrl]; omega)
    rw [← hm] at hx
    rw [chAt_reverse region m (by rw [hrl]; omega)] at hx
    rw [hrl] at hx
    rw [hregAt (p - lo - 1 - m) (by omega)] at hx
    rw [show lo + (p - lo - 1 - m) = p - m - 1 from by omega] at hx
    exact hx

set_option maxHeartbeats 3000000 in
/-- Claim C4 (amended): full characterisation of ATX-heading
recognition: after up to three leading spaces, one or more `#` and
optional spaces, the line is a heading exactly when the content is
nonempty after the trailing trim, with level `min count 6` and the
trimmed content as the emitted INLINE slice. -/
theorem C4_atx_heading_characterisation
    (lines : List Tok) (dot : Nat) (out : List Tok) (line : Buf)
    (hline : lineAt lines dot = ⟨LINE, line, 0, line.length⟩) :
    (spec_atx line = none → parse_atxheading lines dot out = (dot, out)) ∧
    (∀ lvl content, spec_atx line = some (lvl, content) →
      ∃ p3 p4, parse_atxheading lines dot out = (dot + 1,
        out ++ [⟨heading_stag lvl, line, p3, p3⟩, ⟨INLINE, line, p3, p4⟩,
          ⟨heading_etag lvl, line, p4, p4⟩]) ∧
        Tok.slice ⟨INLINE, line, p3, p4⟩ = content) := by
  set n := line.length with hn
  set sp := (line.takeWhile (fun c => c == ' ')).length with hsp
  set k := min 3 sp with hk
  have hsp_le : sp ≤ n := takeWhile_len_le _ line
  have hk_le : k ≤ n := by omega
  have hp1 : scan_tab_not line 0 n = k := by
    unfold scan_tab_not scan_of_c
    have h3 := scan0k_eq line 0 3 (fun x => x == ' ') (by omega)
    rw [List.drop_zero] at h3
    rw [show ((3 : Nat) : Int) = (3 : Int) from rfl] at h3
    rw [← hn, ← hsp] at h3
    rw [h3]
    omega
  set cnt := ((line.drop k).takeWhile (fun c => c == '#')).length with hcnt
  have hcnt_le : cnt ≤ n - k := by
    have h := takeWhile_len_le (fun c => c == '#') (line.drop k)
    rw [List.length_drop, ← hn] at h
    omega
  have hcnt_iff : 0 < cnt ↔ (k < n ∧ (chAt line k == '#') = true) := by
    rw [hcnt, takeWhile_pos_iff, chAt_drop, Nat.add_zero, List.length_drop, ← hn]
    constructor
    · rintro ⟨h1, h2⟩
      exact ⟨by omega, h2⟩
    · rintro ⟨h1, h2⟩
      exact ⟨by omega, h2⟩
  unfold parse_atxheading
  rw [hline]
  simp only [hp1]
  by_cases hhash : k < n ∧ (chAt line k == '#') = true
  · -- at least one '#': the run has length cnt > 0
    have hcnt_pos : 0 < cnt := hcnt_iff.mpr hhash
    have hp2 : scan_of_c line k n 1 (-1) '#' = k + cnt := by
      unfold scan_of_c
      rw [hn, scan1_eq_scan0 line k line.length _ (by rw [← hn]; exact hhash),
        scan0_eq line k _ (by omega)]
    rw [hp2]
    rw [if_neg (by omega : ¬ k + cnt = k)]
    have harith : k + cnt - k = cnt := by omega
    rw [harith]
    set p2 := k + cnt with hp2d
    set sp2 := ((line.drop p2).takeWhile ismdspace).length with hsp2
    have hsp2_le : sp2 ≤ n - p2 := by
      have h := takeWhile_len_le ismdspace (line.drop p2)
      rw [List.length_drop, ← hn] at h
      omega
    have hp3 : scan_of line p2 n 0 (-1) ismdspace = p2 + sp2 := by
      rw [hn, scan0_eq line p2 _ (by omega), ← hsp2]
    rw [hp3]
    set p3 := p2 + sp2 with hp3d
    set content0 : Buf := ((line.drop k).drop cnt).dropWhile ismdspace with hcon0
    have hcon0_eq : content0 = line.drop p3 := by
      rw [hcon0, List.drop_drop, dropWhile_eq_drop, List.drop_drop]
    set m1 := ((line.drop p3).reverse.takeWhile ismdwhite).length with hm1
    have hm1_le : m1 ≤ n - p3 := by
      have h := takeWhile_len_le ismdwhite (line.drop p3).reverse
      rw [List.length_reverse, List.length_drop, ← hn] at h
      omega
    have hp4a : rscan_of line p3 ismdwhite n = n - m1 := by
      have hreg0 : (line.drop p3).take (n - p3) = line.drop p3 := by
        rw [hn, ← List.length_drop p3 line, List.take_length]
      rw [hn, rscan_eq line p3 line.length ismdwhite (by omega) le_rfl]
      rw [← hn, hreg0, ← hm1]
    rw [hp4a]
    set p4a := n - m1 with hp4ad
    have htrim1 : content0.reverse.dropWhile ismdwhite =
        ((line.drop p3).take (p4a - p3)).reverse := by
      rw [hcon0_eq, dropWhile_eq_drop, ← hm1, List.drop_reverse]
      rw [show (line.drop p3).length - m1 = p4a - p3 from by
        rw [List.length_drop, ← hn]; omega]
    set m2 := (((line.drop p3).take (p4a - p3)).reverse.takeWhile
      (fun c => c == '#')).length with hm2
    have hm2_le : m2 ≤ p4a - p3 := by
      have h := takeWhile_len_le (fun c => c == '#') ((line.drop p3).take (p4a - p3)).reverse
      rw [List.length_reverse, List.length_take] at h
      omega
    have hp4b : rscan_of_c line p3 '#' p4a = p4a - m2 := by
      unfold rscan_of_c
      rw [rscan_eq line p3 p4a _ (by omega) (by omega), ← hm2]
    rw [hp4b]
    set p4b := p4a - m2 with hp4bd
    have htrim2 : (content0.reverse.dropWhile ismdwhite).dropWhile (fun c => c == '#') =
        ((line.drop p3).take (p4b - p3)).reverse := by
      rw [htrim1, dropWhile_eq_drop, ← hm2, List.drop_reverse]
      rw [show ((line.drop p3).take (p4a - p3)).length - m2 = p4b - p3 from by
        rw [List.length_take, List.length_drop, ← hn]; omega]
      rw [List.take_take,
        show min (p4b - p3) (p4a - p3) = p4b - p3 from by omega]
    set m3 := (((line.drop p3).take (p4b - p3)).reverse.takeWhile ismdspace).length with hm3
    have hm3_le : m3 ≤ p4b - p3 := by
      have h := takeWhile_len_le ismdspace ((line.drop p3).take (p4b - p3)).reverse
      rw [List.length_reverse, List.length_take] at h
      omega
    have hp4 : rscan_of line p3 ismdspace p4b = p4b - m3 := by
      rw [rscan_eq line p3 p4b _ (by omega) (by omega), ← hm3]
    rw [hp4]
    set p4 := p4b - m3 with hp4d
    have htrim3 : ((content0.reverse.dropWhile ismdwhite).dropWhile
          (fun c => c == '#')).dropWhile ismdspace =
        ((line.drop p3).take (p4 - p3)).reverse := by
      rw [htrim2, dropWhile_eq_drop, ← hm3, List.drop_reverse]
      rw [show ((line.drop p3).take (p4b - p3)).length - m3 = p4 - p3 from by
        rw [List.length_take, List.length_drop, ← hn]; omega]
      rw [List.take_take,
        show min (p4 - p3) (p4b - p3) = p4 - p3 from by omega]
    have hcontent : spec_atx_trim content0 = (line.drop p3).take (p4 - p3) := by
      unfold spec_atx_trim
      rw [htrim3, List.reverse_reverse]
    have hspec : spec_atx line =
        (if ((line.drop p3).take (p4 - p3) : Buf) = [] then none
         else some (min cnt 6, (line.drop p3).take (p4 - p3))) := by
      unfold spec_atx
      simp only [← hsp, ← hk, ← hcnt, ← hcon0, hcontent]
      rw [if_neg (by omega : ¬ cnt = 0)]
    have hlen_content : ((line.drop p3).take (p4 - p3)).length = p4 - p3 := by
      rw [List.length_take, List.length_drop, ← hn]
      omega
    constructor
    · intro hnone
      rw [hspec] at hnone
      by_cases hempty : ((line.drop p3).take (p4 - p3) : Buf) = []
      · have hp34 : p3 = p4 := by
          rw [hempty] at hlen_content
          simp only [List.length_nil] at hlen_content
          omega
        rw [if_pos hp34]
      · rw [if_neg hempty] at hnone
        exact absurd hnone (by simp)
    · intro lvl content hsome
      rw [hspec] at hsome
      by_cases hempty : ((line.drop p3).take (p4 - p3) : Buf) = []
      · rw [if_pos hempty] at hsome
        exact absurd hsome (by simp)
      · rw [if_neg hempty] at hsome
        simp only [Option.some.injEq, Prod.mk.injEq] at hsome
        obtain ⟨hlvl, hcont⟩ := hsome
        have hp34 : ¬ p3 = p4 := by
          intro hq
          apply hempty
          rw [← hq]
          simp
        rw [if_neg hp34]
        have hif : (if cnt > 6 then 6 else cnt) = lvl := by
          rw [← hlvl]
          split <;> omega
        rw [hif]
        exact ⟨p3, p4, rfl, hcont⟩
  · -- no '#' after the indent: not a heading, and the spec agrees
    have hcnt0 : cnt = 0 := by
      by_contra hq
      exact hhash (hcnt_iff.mp (by omega))
    have hp2 : scan_of_c line k n 1 (-1) '#' = k := by
      unfold scan_of_c
      apply scan_of_no_first
      simpa using hhash
    rw [hp2, if_pos rfl]
    constructor
    · intro _
      rfl
    · intro lvl content hsome
      exfalso
      unfold spec_atx at hsome
      simp only [← hcnt, hcnt0] at hsome
      rw [if_pos trivial] at hsome
      exact Option.noConfusion hsome

/-- Witness for C4: the line "## foo" is recognised as a level-2 heading
with content "foo". -/
theorem C4_atx_heading_characterisation_witness :
    ∃ p3 p4, parse_atxheading [⟨LINE, "## foo".data, 0, "## foo".data.length⟩] 0 [] =
      (0 + 1, [] ++ [⟨heading_stag 2, "## foo".data, p3, p3⟩,
        ⟨INLINE, "## foo".data, p3, p4⟩,
        ⟨heading_etag 2, "## foo".data, p4, p4⟩]) ∧
      Tok.slice ⟨INLINE, "## foo".data, p3, p4⟩ = "foo".data :=
  (C4_atx_heading_characterisation [⟨LINE, "## foo".data, 0, "## foo".data.length⟩]
    0 [] "## foo".data rfl).2 2 "foo".data (by decide)

/-- Claim C5 (amended): when the image target fails to resolve (no
paren part, no dictionary entry), the code emits the whole scanned
construct, from the bang to the end of the reference-bracket scan, as
literal text; it does not retry the bracket as a link. -/
theorem C5_image_failure_emits_whole_construct
    (pos eos : Nat) (buf : Buf) (out : List Tok) (dict : Refdict) (p3 : Nat)
    (hbang : scan_of_c buf pos eos 1 1 '!' = pos + 1)
    (hbr : scan_of_c buf (pos + 1) eos 1 1 '[' = pos + 2)
    (hq : scan_quoted buf (pos + 1) eos '[' ']' '\\' ismdany = p3)
    (hne : pos + 1 ≠ p3)
    (hparen : ¬ p3 < (parse_link_paren buf p3 eos []).1)
    (href : parse_fetch_reference_link dict
      (parse_link_bracket buf p3 eos (pos + 2) (p3 - 1)
        (parse_link_paren buf p3 eos []).2).2 = none) :
    parse_image pos eos buf out dict =
      (parse_text buf pos
        (parse_link_bracket buf p3 eos (pos + 2) (p3 - 1)
          (parse_link_paren buf p3 eos []).2).1 out,
       (parse_link_bracket buf p3 eos (pos + 2) (p3 - 1)
         (parse_link_paren buf p3 eos []).2).1) := by
  unfold parse_image
  simp only [hbang, hbr, hq]
  rw [if_neg (by omega : ¬ (pos = pos + 1 ∨ pos + 1 = pos + 2))]
  rw [if_neg hne]
  rw [if_neg hparen]
  rw [href]

/-- Witness for C5: on `![a]` with an empty dictionary the image fails
and the whole construct `![a]` is emitted as text. -/
theorem C5_image_failure_emits_whole_construct_witness :
    (parse_fetch_reference_link ([] : Refdict)
      (parse_link_bracket "![a]".data 4 4 (0 + 2) (4 - 1)
        (parse_link_paren "![a]".data 4 4 []).2).2 = none) ∧
    parse_image 0 4 "![a]".data [] [] =
      (parse_text "![a]".data 0
        (parse_link_bracket "![a]".data 4 4 (0 + 2) (4 - 1)
          (parse_link_paren "![a]".data 4 4 []).2).1 [],
       (parse_link_bracket "![a]".data 4 4 (0 + 2) (4 - 1)
         (parse_link_paren "![a]".data 4 4 []).2).1) :=
  ⟨by decide, C5_image_failure_emits_whole_construct 0 4 "![a]".data [] [] 4
    (by decide) (by decide) (by decide) (by decide) (by decide) (by decide)⟩

/- character-class bridges for the entity automaton -/

theorem char_le_iff (a b : Char) : a ≤ b ↔ a.toNat ≤ b.toNat := Iff.rfl

theorem char_eq_iff (a b : Char) : a = b ↔ a.toNat = b.toNat := by
  constructor
  · intro h
    rw [h]
  · intro h
    apply Char.eq_of_val_eq
    apply UInt32.eq_of_toBitVec_eq
    apply BitVec.eq_of_toNat_eq
    exact h

theorem cn_0 : ('0' : Char).toNat = 48 := by decide
theorem cn_9 : ('9' : Char).toNat = 57 := by decide
theorem cn_A : ('A' : Char).toNat = 65 := by decide
theorem cn_F : ('F' : Char).toNat = 70 := by decide
theorem cn_G : ('G' : Char).toNat = 71 := by decide
theorem cn_Z : ('Z' : Char).toNat = 90 := by decide
theorem cn_a : ('a' : Char).toNat = 97 := by decide
theorem cn_f : ('f' : Char).toNat = 102 := by decide
theorem cn_g : ('g' : Char).toNat = 103 := by decide
theorem cn_z : ('z' : Char).toNat = 122 := by decide
theorem cn_semi : (';' : Char).toNat = 59 := by decide

theorem ccls_inv (c : Char) :
    (entity_ccls c = 1 → ('0' ≤ c ∧ c ≤ '9')) ∧
    (entity_ccls c = 2 → (('A' ≤ c ∧ c ≤ 'F') ∨ ('a' ≤ c ∧ c ≤ 'f'))) ∧
    (entity_ccls c = 3 → (('G' ≤ c ∧ c ≤ 'Z') ∨ ('g' ≤ c ∧ c ≤ 'z'))) ∧
    (entity_ccls c = 4 → c = '#') ∧
    (entity_ccls c = 5 → c = ';') := by
  unfold entity_ccls
  split_ifs with h1 h2 h3 h4 h5 <;>
    refine ⟨fun h => ?_, fun h => ?_, fun h => ?_, fun h => ?_, fun h => ?_⟩ <;>
    first | assumption | exact absurd h (by decide)

theorem ccls_digit (c : Char) (h : ismddigit c = true) : entity_ccls c = 1 := by
  unfold ismddigit at h
  simp only [Bool.and_eq_true, decide_eq_true_eq] at h
  unfold entity_ccls
  rw [if_pos h]

theorem ccls_alnum (c : Char) (h : ismdalnum c = true) :
    entity_ccls c = 1 ∨ entity_ccls c = 2 ∨ entity_ccls c = 3 := by
  unfold ismdalnum ismddigit at h
  simp only [Bool.or_eq_true, Bool.and_eq_true, decide_eq_true_eq] at h
  by_cases hd : '0' ≤ c ∧ c ≤ '9'
  · exact Or.inl (by unfold entity_ccls; rw [if_pos hd])
  · by_cases h2 : ('A' ≤ c ∧ c ≤ 'F') ∨ ('a' ≤ c ∧ c ≤ 'f')
    · exact Or.inr (Or.inl (by unfold entity_ccls; rw [if_neg hd, if_pos h2]))
    · refine Or.inr (Or.inr ?_)
      have h3 : ('G' ≤ c ∧ c ≤ 'Z') ∨ ('g' ≤ c ∧ c ≤ 'z') := by
        simp only [char_le_iff, char_eq_iff, cn_0, cn_9, cn_A, cn_F, cn_G, cn_Z,
          cn_a, cn_f, cn_g, cn_z] at *
        omega
      unfold entity_ccls
      rw [if_neg hd, if_neg h2, if_pos h3]

theorem ccls_xdigit (c : Char) (h : ismdxdigit c = true) :
    entity_ccls c = 1 ∨ entity_ccls c = 2 := by
  unfold ismdxdigit ismddigit at h
  simp only [Bool.or_eq_true, Bool.and_eq_true, decide_eq_true_eq] at h
  by_cases hd : '0' ≤ c ∧ c ≤ '9'
  · exact Or.inl (by unfold entity_ccls; rw [if_pos hd])
  · have h2 : ('A' ≤ c ∧ c ≤ 'F') ∨ ('a' ≤ c ∧ c ≤ 'f') := by
      simp only [char_le_iff, char_eq_iff, cn_0, cn_9, cn_A, cn_F,
        cn_a, cn_f] at *
      omega
    exact Or.inr (by unfold entity_ccls; rw [if_neg hd, if_pos h2])

theorem alnum_of_ccls2 (c : Char) (h : entity_ccls c = 2) : ismdalnum c = true := by
  have := ((ccls_inv c).2.1) h
  unfold ismdalnum ismddigit
  simp only [Bool.or_eq_true, Bool.and_eq_true, decide_eq_true_eq]
  simp only [char_le_iff, cn_A, cn_F, cn_Z, cn_a, cn_f, cn_z] at *
  omega

theorem alnum_of_ccls3 (c : Char) (h : entity_ccls c = 3) : ismdalnum c = true := by
  have := ((ccls_inv c).2.2.1) h
  unfold ismdalnum ismddigit
  simp only [Bool.or_eq_true, Bool.and_eq_true, decide_eq_true_eq]
  simp only [char_le_iff, cn_A, cn_G, cn_Z, cn_a, cn_g, cn_z] at *
  omega

theorem alnum_of_ccls1 (c : Char) (h : entity_ccls c = 1) : ismdalnum c = true := by
  have := ((ccls_inv c).1) h
  unfold ismdalnum ismddigit
  simp only [Bool.or_eq_true, Bool.and_eq_true, decide_eq_true_eq]
  simp only [char_le_iff, cn_0, cn_9] at *
  omega

theorem xdigit_of_ccls2 (c : Char) (h : entity_ccls c = 2) : ismdxdigit c = true := by
  have := ((ccls_inv c).2.1) h
  unfold ismdxdigit ismddigit
  simp only [Bool.or_eq_true, Bool.and_eq_true, decide_eq_true_eq]
  simp only [char_le_iff, cn_A, cn_F, cn_a, cn_f] at *
  omega

theorem digit_of_ccls1 (c : Char) (h : entity_ccls c = 1) : ismddigit c = true := by
  have := ((ccls_inv c).1) h
  unfold ismddigit
  simp only [Bool.and_eq_true, decide_eq_true_eq]
  exact this

theorem semi_of_ccls5 (c : Char) (h : entity_ccls c = 5) : c = ';' :=
  ((ccls_inv c).2.2.2.2) h

/- transition facts for the accepting loop states 2, 4, 6 -/

theorem tbl2_keep (c : Char) (h : ismdalnum c = true) :
    entity_tbl 2 (entity_ccls c) = 2 := by
  rcases ccls_alnum c h with h1 | h2 | h3
  · rw [h1]; decide
  · rw [h2]; decide
  · rw [h3]; decide

theorem tbl2_rej (c : Char) (h : ismdalnum c = false) (hs : c ≠ ';') :
    entity_tbl 2 (entity_ccls c) = 0 := by
  have hx1 : entity_ccls c ≠ 1 := fun hx => by
    rw [alnum_of_ccls1 c hx] at h; exact Bool.noConfusion h
  have hx2 : entity_ccls c ≠ 2 := fun hx => by
    rw [alnum_of_ccls2 c hx] at h; exact Bool.noConfusion h
  have hx3 : entity_ccls c ≠ 3 := fun hx => by
    rw [alnum_of_ccls3 c hx] at h; exact Bool.noConfusion h
  have hx5 : entity_ccls c ≠ 5 := fun hx => hs (semi_of_ccls5 c hx)
  unfold entity_tbl
  rw [if_neg (by decide : ¬ (2 : Nat) = 1), if_pos rfl,
    if_neg (by tauto : ¬ (entity_ccls c = 1 ∨ entity_ccls c = 2 ∨ entity_ccls c = 3)),
    if_neg hx5]

theorem tbl4_keep (c : Char) (h : ismddigit c = true) :
    entity_tbl 4 (entity_ccls c) = 4 := by
  rw [ccls_digit c h]; decide

theorem tbl4_rej (c : Char) (h : ismddigit c = false) (hs : c ≠ ';') :
    entity_tbl 4 (entity_ccls c) = 0 := by
  have hx1 : entity_ccls c ≠ 1 := fun hx => by
    rw [digit_of_ccls1 c hx] at h; exact Bool.noConfusion h
  have hx5 : entity_ccls c ≠ 5 := fun hx => hs (semi_of_ccls5 c hx)
  unfold entity_tbl
  rw [if_neg (by decide : ¬ (4 : Nat) = 1), if_neg (by decide : ¬ (4 : Nat) = 2),
    if_neg (by decide : ¬ (4 : Nat) = 3), if_pos rfl, if_neg hx1, if_neg hx5]

theorem tbl6_keep (c : Char) (h : ismdxdigit c = true) :
    entity_tbl 6 (entity_ccls c) = 6 := by
  rcases ccls_xdigit c h with h1 | h2
  · rw [h1]; decide
  · rw [h2]; decide

theorem tbl6_rej (c : Char) (h : ismdxdigit c = false) (hs : c ≠ ';') :
    entity_tbl 6 (entity_ccls c) = 0 := by
  have hx1 : entity_ccls c ≠ 1 := fun hx => by
    have hd := digit_of_ccls1 c hx
    unfold ismdxdigit at h
    rw [hd] at h
    simp at h
  have hx2 : entity_ccls c ≠ 2 := fun hx => by
    rw [xdigit_of_ccls2 c hx] at h; exact Bool.noConfusion h
  have hx5 : entity_ccls c ≠ 5 := fun hx => hs (semi_of_ccls5 c hx)
  unfold entity_tbl
  rw [if_neg (by decide : ¬ (6 : Nat) = 1), if_neg (by decide : ¬ (6 : Nat) = 2),
    if_neg (by decide : ¬ (6 : Nat) = 3), if_neg (by decide : ¬ (6 : Nat) = 4),
    if_neg (by decide : ¬ (6 : Nat) = 5), if_pos rfl,
    if_neg (by tauto : ¬ (entity_ccls c = 1 ∨ entity_ccls c = 2)), if_neg hx5]

theorem tbl_semi_accept (st : Nat) (hst : st = 2 ∨ st = 4 ∨ st = 6) :
    entity_tbl st (entity_ccls ';') = 9 := by
  rcases hst with rfl | rfl | rfl <;> decide

/- characterising the automaton run from an accepting loop state -/

theorem chAt_lt (buf : Buf) (s : Nat) (h : s < buf.length) :
    chAt buf s = buf[s] := by
  unfold chAt
  exact List.getD_eq_getElem buf _ h

theorem region_cons (buf : Buf) (s e : Nat) (hse : s < e) (hbuf : e ≤ buf.length) :
    (buf.drop s).take (e - s) = chAt buf s :: (buf.drop (s + 1)).take (e - (s + 1)) := by
  rw [List.drop_eq_getElem_cons (by omega : s < buf.length)]
  rw [show e - s = (e - (s + 1)) + 1 from by omega]
  rw [List.take_succ_cons]
  rw [chAt_lt buf s (by omega)]

theorem ent_keep (buf : Buf) (e : Nat) (st : Nat) (pr : Char → Bool)
    (hst : st = 2 ∨ st = 4 ∨ st = 6)
    (hkeep : ∀ c, pr c = true → entity_tbl st (entity_ccls c) = st)
    (hrej : ∀ c, pr c = false → c ≠ ';' → entity_tbl st (entity_ccls c) = 0)
    (hbuf : e ≤ buf.length) :
    ∀ fuel s, e - s < fuel →
      check_html5entity_go buf e fuel s st =
        (let reg := (buf.drop s).take (e - s)
         let i := reg.findIdx (fun d => d == ';')
         if i < reg.length ∧ (reg.take i).all pr then some (s + i + 1) else none) := by
  intro fuel
  induction fuel with
  | zero => intro s hs; omega
  | succ fuel ih =>
    intro s hs
    simp only [check_html5entity_go]
    by_cases hse : s < e
    · rw [if_pos hse]
      have hx3 : ¬ (st = 3 ∧ chAt buf s = 'x') := by
        rcases hst with rfl | rfl | rfl <;> simp
      rw [if_neg hx3]
      rw [region_cons buf s e hse hbuf]
      by_cases hc : chAt buf s = ';'
      · rw [hc, tbl_semi_accept st hst]
        rw [if_neg (by decide : ¬ (9 : Nat) = 0), if_pos rfl]
        simp only [List.findIdx_cons, beq_self_eq_true, cond_true, List.length_cons,
          List.take_zero, List.all_nil]
        rw [if_pos ⟨by omega, trivial⟩]
      · by_cases hp : pr (chAt buf s) = true
        · rw [hkeep _ hp]
          have hne0 : ¬ st = 0 := by rcases hst with rfl | rfl | rfl <;> decide
          have hne9 : ¬ st = 9 := by rcases hst with rfl | rfl | rfl <;> decide
          rw [if_neg hne0, if_neg hne9]
          rw [ih (s + 1) (by omega)]
          have hcb : (chAt buf s == ';') = false := by
            simp only [beq_eq_false_iff_ne, ne_eq]
            exact hc
          simp only [List.findIdx_cons, hcb, cond_false, List.length_cons,
            List.take_succ_cons, List.all_cons, hp, Bool.true_and]
          by_cases hcond : ((buf.drop (s + 1)).take (e - (s + 1))).findIdx
                (fun d => d == ';') <
              ((buf.drop (s + 1)).take (e - (s + 1))).length ∧
              (((buf.drop (s + 1)).take (e - (s + 1))).take
                (((buf.drop (s + 1)).take (e - (s + 1))).findIdx
                  (fun d => d == ';'))).all pr = true
          · rw [if_pos hcond, if_pos ⟨by omega, hcond.2⟩]
            rw [show s + 1 + ((buf.drop (s + 1)).take (e - (s + 1))).findIdx
                (fun d => d == ';') + 1 =
              s + (((buf.drop (s + 1)).take (e - (s + 1))).findIdx
                (fun d => d == ';') + 1) + 1 from by omega]
          · rw [if_neg hcond, if_neg (by
              intro hk
              exact hcond ⟨by omega, hk.2⟩)]
        · rw [hrej _ (Bool.eq_false_iff.mpr (fun hq => hp (by rw [hq]))) hc]
          rw [if_pos rfl]
          have hcb : (chAt buf s == ';') = false := by
            simp only [beq_eq_false_iff_ne, ne_eq]
            exact hc
          have hpb : pr (chAt buf s) = false := by
            cases hq : pr (chAt buf s)
            · rfl
            · exact absurd hq hp
          simp only [List.findIdx_cons, hcb, cond_false, List.length_cons,
            List.take_succ_cons, List.all_cons, hpb, Bool.false_and]
          rw [if_neg (by
            intro hk
            exact Bool.noConfusion hk.2)]
    · rw [if_neg hse]
      rw [show e - s = 0 from by omega]
      simp only [List.take_zero, List.findIdx_nil, List.length_nil, List.all_nil]
      rw [if_neg (by omega)]

/- remaining transition facts for states 1, 3 and 5 -/

theorem ccls_letter (c : Char)
    (h : ('A' ≤ c ∧ c ≤ 'Z') ∨ ('a' ≤ c ∧ c ≤ 'z')) :
    entity_ccls c = 2 ∨ entity_ccls c = 3 := by
  have hd : ¬ ('0' ≤ c ∧ c ≤ '9') := by
    simp only [char_le_iff, cn_0, cn_9, cn_A, cn_Z, cn_a, cn_z] at *
    omega
  by_cases h2 : ('A' ≤ c ∧ c ≤ 'F') ∨ ('a' ≤ c ∧ c ≤ 'f')
  · exact Or.inl (by unfold entity_ccls; rw [if_neg hd, if_pos h2])
  · have h3 : ('G' ≤ c ∧ c ≤ 'Z') ∨ ('g' ≤ c ∧ c ≤ 'z') := by
      simp only [char_le_iff, cn_A, cn_F, cn_G, cn_Z, cn_a, cn_f, cn_g, cn_z] at *
      omega
    exact Or.inr (by unfold entity_ccls; rw [if_neg hd, if_neg h2, if_pos h3])

theorem letter_of_ccls2 (c : Char) (h : entity_ccls c = 2) :
    ('A' ≤ c ∧ c ≤ 'Z') ∨ ('a' ≤ c ∧ c ≤ 'z') := by
  have := ((ccls_inv c).2.1) h
  simp only [char_le_iff, cn_A, cn_F, cn_Z, cn_a, cn_f, cn_z] at *
  omega

theorem letter_of_ccls3 (c : Char) (h : entity_ccls c = 3) :
    ('A' ≤ c ∧ c ≤ 'Z') ∨ ('a' ≤ c ∧ c ≤ 'z') := by
  have := ((ccls_inv c).2.2.1) h
  simp only [char_le_iff, cn_A, cn_G, cn_Z, cn_a, cn_g, cn_z] at *
  omega

theorem tbl1_letter (c : Char)
    (h : ('A' ≤ c ∧ c ≤ 'Z') ∨ ('a' ≤ c ∧ c ≤ 'z')) :
    entity_tbl 1 (entity_ccls c) = 2 := by
  rcases ccls_letter c h with h2 | h3
  · rw [h2]; decide
  · rw [h3]; decide

theorem tbl1_hash : entity_tbl 1 (entity_ccls '#') = 3 := by decide

theorem tbl1_rej (c : Char)
    (hl : ¬ (('A' ≤ c ∧ c ≤ 'Z') ∨ ('a' ≤ c ∧ c ≤ 'z')))
    (hh : c ≠ '#') :
    entity_tbl 1 (entity_ccls c) = 0 := by
  have hx2 : entity_ccls c ≠ 2 := fun hx => hl (letter_of_ccls2 c hx)
  have hx3 : entity_ccls c ≠ 3 := fun hx => hl (letter_of_ccls3 c hx)
  have hx4 : entity_ccls c ≠ 4 := fun hx => hh (((ccls_inv c).2.2.2.1) hx)
  unfold entity_tbl
  rw [if_pos rfl, if_neg (by tauto : ¬ (entity_ccls c = 2 ∨ entity_ccls c = 3)),
    if_neg hx4]

theorem tbl3_digit (c : Char) (h : ismddigit c = true) :
    entity_tbl 3 (entity_ccls c) = 4 := by
  rw [ccls_digit c h]; decide

theorem tbl3_rej (c : Char) (h : ismddigit c = false) :
    entity_tbl 3 (entity_ccls c) = 0 := by
  have hx1 : entity_ccls c ≠ 1 := fun hx => by
    rw [digit_of_ccls1 c hx] at h; exact Bool.noConfusion h
  unfold entity_tbl
  rw [if_neg (by decide : ¬ (3 : Nat) = 1), if_neg (by decide : ¬ (3 : Nat) = 2),
    if_pos rfl, if_neg hx1]

theorem tbl5_keep (c : Char) (h : ismdxdigit c = true) :
    entity_tbl 5 (entity_ccls c) = 6 := by
  rcases ccls_xdigit c h with h1 | h2
  · rw [h1]; decide
  · rw [h2]; decide

theorem tbl5_rej (c : Char) (h : ismdxdigit c = false) :
    entity_tbl 5 (entity_ccls c) = 0 := by
  have hx1 : entity_ccls c ≠ 1 := fun hx => by
    have hd := digit_of_ccls1 c hx
    unfold ismdxdigit at h
    rw [hd] at h
    simp at h
  have hx2 : entity_ccls c ≠ 2 := fun hx => by
    rw [xdigit_of_ccls2 c hx] at h; exact Bool.noConfusion h
  unfold entity_tbl
  rw [if_neg (by decide : ¬ (5 : Nat) = 1), if_neg (by decide : ¬ (5 : Nat) = 2),
    if_neg (by decide : ¬ (5 : Nat) = 3), if_neg (by decide : ¬ (5 : Nat) = 4),
    if_pos rfl, if_neg (by tauto : ¬ (entity_ccls c = 1 ∨ entity_ccls c = 2))]

/- spec-side entity-body helpers -/

theorem seb_nil : spec_entity_body [] = false := by decide

theorem spec_named_cons (c : Char) (t : Buf) :
    spec_named_body (c :: t) =
      ((('A' ≤ c && c ≤ 'Z') || ('a' ≤ c && c ≤ 'z')) && t.all ismdalnum) := rfl

theorem spec_numeric_not_hash (c : Char) (t : Buf) (h : c ≠ '#') :
    spec_numeric_body (c :: t) = false := by
  unfold spec_numeric_body
  split
  · next hs heq => injection heq with h1 _; exact absurd h1 h
  · next ds heq => injection heq with h1 _; exact absurd h1 h
  · rfl

theorem spec_numeric_hash_x (hs : Buf) :
    spec_numeric_body ('#' :: 'x' :: hs) = (¬ hs.isEmpty && hs.all ismdxdigit) := rfl

theorem spec_numeric_hash_nil : spec_numeric_body ['#'] = false := by decide

theorem spec_named_hash (t : Buf) : spec_named_body ('#' :: t) = false := by
  rw [spec_named_cons]
  rw [show ((('A' : Char) ≤ '#' && ('#' : Char) ≤ 'Z') ||
    (('a' : Char) ≤ '#' && ('#' : Char) ≤ 'z')) = false from by decide]
  rw [Bool.false_and]

theorem spec_numeric_hash_notx (c : Char) (t : Buf) (hx : c ≠ 'x') :
    spec_numeric_body ('#' :: c :: t) =
      (¬ (c :: t).isEmpty && (c :: t).all ismddigit) := by
  unfold spec_numeric_body
  split
  · next hs heq =>
    injection heq with _ h2
    injection h2 with h3 _
    exact absurd h3 hx
  · next ds heq =>
    injection heq with _ h2
    rw [h2]
  · next h1 h2 =>
    exact absurd rfl (h2 (c :: t))


/- characters in the accepted classes are never the semicolon -/

theorem alnum_ne_semi (c : Char) (h : ismdalnum c = true) : ¬ c = ';' := by
  intro hq
  rw [hq] at h
  exact absurd h (by decide)

theorem digit_ne_semi (c : Char) (h : ismddigit c = true) : ¬ c = ';' := by
  intro hq
  rw [hq] at h
  exact absurd h (by decide)

theorem xdigit_ne_semi (c : Char) (h : ismdxdigit c = true) : ¬ c = ';' := by
  intro hq
  rw [hq] at h
  exact absurd h (by decide)

theorem letter_ne_semi (c : Char)
    (h : ('A' ≤ c ∧ c ≤ 'Z') ∨ ('a' ≤ c ∧ c ≤ 'z')) : ¬ c = ';' := by
  intro hq
  rw [hq] at h
  rcases h with h | h <;> exact absurd h (by decide)

theorem letter_ne_hash (c : Char)
    (h : ('A' ≤ c ∧ c ≤ 'Z') ∨ ('a' ≤ c ∧ c ≤ 'z')) : ¬ c = '#' := by
  intro hq
  rw [hq] at h
  rcases h with h | h <;> exact absurd h (by decide)

theorem beq_semi_false (c : Char) (h : ¬ c = ';') : (c == ';') = false := by
  simp only [beq_eq_false_iff_ne, ne_eq]
  exact h

set_option maxHeartbeats 1000000 in
theorem check_entity_spec (buf : Buf) (e s0 : Nat) (hbuf : e ≤ buf.length)
    (hse : s0 < e) (hamp : chAt buf s0 = '&') :
    check_html5entity buf s0 e =
      (let rest := (buf.drop (s0 + 1)).take (e - (s0 + 1))
       let i := rest.findIdx (fun d => d == ';')
       if i < rest.length ∧ spec_entity_body (rest.take i) = true
       then some (s0 + 1 + i + 1) else none) := by
  unfold check_html5entity
  rw [if_pos ⟨hse, hamp⟩]
  simp only [check_html5entity_go]
  by_cases h1 : s0 + 1 < e
  · rw [if_pos h1]
    rw [if_neg (by simp : ¬ ((1 : Nat) = 3 ∧ chAt buf (s0 + 1) = 'x'))]
    rw [region_cons buf (s0 + 1) e h1 hbuf]
    by_cases hc1 : chAt buf (s0 + 1) = ';'
    · -- body would be empty: reject on both sides
      rw [hc1]
      rw [if_pos (by decide : entity_tbl 1 (entity_ccls (';' : Char)) = 0)]
      simp only [List.findIdx_cons, beq_self_eq_true, cond_true, List.take_zero, seb_nil]
      rw [if_neg (by simp)]
    · by_cases hl1 : ('A' ≤ chAt buf (s0 + 1) ∧ chAt buf (s0 + 1) ≤ 'Z') ∨
          ('a' ≤ chAt buf (s0 + 1) ∧ chAt buf (s0 + 1) ≤ 'z')
      · -- named entity: hand over to the loop state 2
        rw [tbl1_letter _ hl1]
        rw [if_neg (by decide : ¬ (2 : Nat) = 0), if_neg (by decide : ¬ (2 : Nat) = 9)]
        rw [ent_keep buf e 2 ismdalnum (Or.inl rfl) tbl2_keep tbl2_rej hbuf
          (e - s0) (s0 + 1 + 1) (by omega)]
        simp only [List.findIdx_cons, beq_semi_false _ hc1, cond_false,
          List.length_cons, List.take_succ_cons]
        simp only [spec_entity_body, spec_named_cons,
          spec_numeric_not_hash _ _ (letter_ne_hash _ hl1), Bool.or_false]
        simp only [show ((('A' : Char) ≤ chAt buf (s0 + 1) && chAt buf (s0 + 1) ≤ 'Z') ||
            (('a' : Char) ≤ chAt buf (s0 + 1) && chAt buf (s0 + 1) ≤ 'z')) = true from by
          simp only [Bool.or_eq_true, Bool.and_eq_true, decide_eq_true_eq]
          exact hl1, Bool.true_and]
        by_cases hcond : ((buf.drop (s0 + 1 + 1)).take (e - (s0 + 1 + 1))).findIdx
              (fun d => d == ';') <
            ((buf.drop (s0 + 1 + 1)).take (e - (s0 + 1 + 1))).length ∧
            (((buf.drop (s0 + 1 + 1)).take (e - (s0 + 1 + 1))).take
              (((buf.drop (s0 + 1 + 1)).take (e - (s0 + 1 + 1))).findIdx
                (fun d => d == ';'))).all ismdalnum = true
        · rw [if_pos hcond, if_pos ⟨by omega, hcond.2⟩]
          rw [show s0 + 1 + 1 + ((buf.drop (s0 + 1 + 1)).take (e - (s0 + 1 + 1))).findIdx
              (fun d => d == ';') + 1 =
            s0 + 1 + (((buf.drop (s0 + 1 + 1)).take (e - (s0 + 1 + 1))).findIdx
              (fun d => d == ';') + 1) + 1 from by omega]
        · rw [if_neg hcond, if_neg (fun hk => hcond ⟨by omega, hk.2⟩)]
      · by_cases hh1 : chAt buf (s0 + 1) = '#'
        · -- numeric entity: step through state 3
          rw [hh1, tbl1_hash]
          rw [if_neg (by decide : ¬ (3 : Nat) = 0), if_neg (by decide : ¬ (3 : Nat) = 9)]
          rw [show e - s0 = (e - s0 - 1) + 1 from by omega]
          simp only [check_html5entity_go]
          by_cases h2 : s0 + 1 + 1 < e
          · rw [if_pos h2]
            rw [region_cons buf (s0 + 1 + 1) e h2 hbuf]
            by_cases hx : chAt buf (s0 + 1 + 1) = 'x'
            · -- hexadecimal: step through state 5
              rw [if_pos (show True ∧ chAt buf (s0 + 1 + 1) = 'x' from ⟨trivial, hx⟩)]
              rw [if_neg (by decide : ¬ (5 : Nat) = 0), if_neg (by decide : ¬ (5 : Nat) = 9)]
              rw [show e - s0 - 1 = (e - s0 - 2) + 1 from by omega]
              simp only [check_html5entity_go]
              by_cases h3 : s0 + 1 + 1 + 1 < e
              · rw [if_pos h3]
                rw [if_neg (by simp : ¬ ((5 : Nat) = 3 ∧ chAt buf (s0 + 1 + 1 + 1) = 'x'))]
                rw [region_cons buf (s0 + 1 + 1 + 1) e h3 hbuf]
                by_cases hxd : ismdxdigit (chAt buf (s0 + 1 + 1 + 1)) = true
                · rw [tbl5_keep _ hxd]
                  rw [if_neg (by decide : ¬ (6 : Nat) = 0),
                    if_neg (by decide : ¬ (6 : Nat) = 9)]
                  rw [ent_keep buf e 6 ismdxdigit (Or.inr (Or.inr rfl)) tbl6_keep tbl6_rej
                    hbuf (e - s0 - 2) (s0 + 1 + 1 + 1 + 1) (by omega)]
                  rw [hx]
                  simp only [List.findIdx_cons, (show (('#' : Char) == ';') = false from by decide),
                    (show (('x' : Char) == ';') = false from by decide),
                    beq_semi_false _ (xdigit_ne_semi _ hxd), cond_false,
                    List.length_cons, List.take_succ_cons]
                  simp only [spec_entity_body, spec_named_hash, spec_numeric_hash_x,
                    Bool.false_or, List.isEmpty_cons, Bool.not_false, Bool.true_and,
                    List.all_cons, hxd]
                  by_cases hcond : ((buf.drop (s0 + 1 + 1 + 1 + 1)).take
                        (e - (s0 + 1 + 1 + 1 + 1))).findIdx (fun d => d == ';') <
                      ((buf.drop (s0 + 1 + 1 + 1 + 1)).take
                        (e - (s0 + 1 + 1 + 1 + 1))).length ∧
                      (((buf.drop (s0 + 1 + 1 + 1 + 1)).take
                        (e - (s0 + 1 + 1 + 1 + 1))).take
                        (((buf.drop (s0 + 1 + 1 + 1 + 1)).take
                          (e - (s0 + 1 + 1 + 1 + 1))).findIdx
                            (fun d => d == ';'))).all ismdxdigit = true
                  · rw [if_pos hcond, if_pos ⟨by omega, hcond.2⟩]
                    rw [show s0 + 1 + 1 + 1 + 1 + ((buf.drop (s0 + 1 + 1 + 1 + 1)).take
                        (e - (s0 + 1 + 1 + 1 + 1))).findIdx (fun d => d == ';') + 1 =
                      s0 + 1 + (((buf.drop (s0 + 1 + 1 + 1 + 1)).take
                        (e - (s0 + 1 + 1 + 1 + 1))).findIdx (fun d => d == ';') + 1 + 1 + 1)
                        + 1 from by omega]
                  · rw [if_neg hcond, if_neg (fun hk => hcond ⟨by omega, hk.2⟩)]
                · -- not a hex digit after `#x`
                  have hxd' : ismdxdigit (chAt buf (s0 + 1 + 1 + 1)) = false := by
                    cases hq : ismdxdigit (chAt buf (s0 + 1 + 1 + 1))
                    · rfl
                    · exact absurd hq hxd
                  rw [tbl5_rej _ hxd']
                  rw [if_pos rfl, hx]
                  by_cases hc3 : chAt buf (s0 + 1 + 1 + 1) = ';'
                  · rw [hc3]
                    simp only [List.findIdx_cons, (show (('#' : Char) == ';') = false from by decide),
                      (show (('x' : Char) == ';') = false from by decide),
                      beq_self_eq_true, cond_true, cond_false, List.length_cons,
                      List.take_succ_cons, List.take_zero]
                    rw [if_neg (by
                      intro hk
                      have := hk.2
                      rw [show spec_entity_body ['#', 'x'] = false from by decide] at this
                      exact Bool.noConfusion this)]
                  · simp only [List.findIdx_cons, (show (('#' : Char) == ';') = false from by decide),
                      (show (('x' : Char) == ';') = false from by decide),
                      beq_semi_false _ hc3, cond_false, List.length_cons,
                      List.take_succ_cons]
                    rw [if_neg (by
                      intro hk
                      have := hk.2
                      simp only [spec_entity_body, spec_named_hash, spec_numeric_hash_x,
                        Bool.false_or, List.isEmpty_cons, Bool.not_false, Bool.true_and,
                        List.all_cons, hxd', Bool.false_and] at this
                      simp at this)]
              · -- input ends right after `#x`
                rw [if_neg h3, hx]
                rw [show e - (s0 + 1 + 1 + 1) = 0 from by omega]
                simp only [List.take_zero, List.findIdx_cons, (show (('#' : Char) == ';') = false from by decide),
                  (show (('x' : Char) == ';') = false from by decide), cond_false,
                  List.findIdx_nil, List.length_cons, List.length_nil]
                rw [if_neg (by omega)]
            · -- decimal digits after `#`
              rw [if_neg (show ¬ (True ∧ chAt buf (s0 + 1 + 1) = 'x') from fun hq => hx hq.2)]
              by_cases hd2 : ismddigit (chAt buf (s0 + 1 + 1)) = true
              · rw [tbl3_digit _ hd2]
                rw [if_neg (by decide : ¬ (4 : Nat) = 0),
                  if_neg (by decide : ¬ (4 : Nat) = 9)]
                rw [ent_keep buf e 4 ismddigit (Or.inr (Or.inl rfl)) tbl4_keep tbl4_rej
                  hbuf (e - s0 - 1) (s0 + 1 + 1 + 1) (by omega)]
                simp only [List.findIdx_cons, (show (('#' : Char) == ';') = false from by decide),
                  beq_semi_false _ (digit_ne_semi _ hd2), cond_false,
                  List.length_cons, List.take_succ_cons]
                simp only [spec_entity_body, spec_named_hash,
                  spec_numeric_hash_notx _ _ hx, Bool.false_or, List.isEmpty_cons,
                  Bool.not_false, Bool.true_and, List.all_cons, hd2]
                by_cases hcond : ((buf.drop (s0 + 1 + 1 + 1)).take
                      (e - (s0 + 1 + 1 + 1))).findIdx (fun d => d == ';') <
                    ((buf.drop (s0 + 1 + 1 + 1)).take (e - (s0 + 1 + 1 + 1))).length ∧
                    (((buf.drop (s0 + 1 + 1 + 1)).take (e - (s0 + 1 + 1 + 1))).take
                      (((buf.drop (s0 + 1 + 1 + 1)).take (e - (s0 + 1 + 1 + 1))).findIdx
                        (fun d => d == ';'))).all ismddigit = true
                · rw [if_pos hcond, if_pos ⟨by omega, hcond.2⟩]
                  rw [show s0 + 1 + 1 + 1 + ((buf.drop (s0 + 1 + 1 + 1)).take
                      (e - (s0 + 1 + 1 + 1))).findIdx (fun d => d == ';') + 1 =
                    s0 + 1 + (((buf.drop (s0 + 1 + 1 + 1)).take
                      (e - (s0 + 1 + 1 + 1))).findIdx (fun d => d == ';') + 1 + 1)
                      + 1 from by omega]
                · rw [if_neg hcond, if_neg (fun hk => hcond ⟨by omega, hk.2⟩)]
              · -- not a digit after `#`
                have hd2' : ismddigit (chAt buf (s0 + 1 + 1)) = false := by
                  cases hq : ismddigit (chAt buf (s0 + 1 + 1))
                  · rfl
                  · exact absurd hq hd2
                rw [tbl3_rej _ hd2']
                rw [if_pos rfl]
                by_cases hc2 : chAt buf (s0 + 1 + 1) = ';'
                · rw [hc2]
                  simp only [List.findIdx_cons, (show (('#' : Char) == ';') = false from by decide), beq_self_eq_true,
                    cond_true, cond_false, List.length_cons, List.take_succ_cons,
                    List.take_zero]
                  rw [if_neg (by
                    intro hk
                    have := hk.2
                    rw [show spec_entity_body ['#'] = false from by decide] at this
                    exact Bool.noConfusion this)]
                · simp only [List.findIdx_cons, (show (('#' : Char) == ';') = false from by decide),
                    beq_semi_false _ hc2, cond_false, List.length_cons,
                    List.take_succ_cons]
                  rw [if_neg (by
                    intro hk
                    have := hk.2
                    simp only [spec_entity_body, spec_named_hash,
                      spec_numeric_hash_notx _ _ hx, Bool.false_or, List.isEmpty_cons,
                      Bool.not_false, Bool.true_and, List.all_cons, hd2',
                      Bool.false_and] at this
                    simp at this)]
          · -- input ends right after `#`
            rw [if_neg h2]
            rw [show e - (s0 + 1 + 1) = 0 from by omega]
            simp only [List.take_zero, List.findIdx_cons, (show (('#' : Char) == ';') = false from by decide),
              cond_false, List.findIdx_nil, List.length_cons, List.length_nil]
            rw [if_neg (by omega)]
        · -- the character after `&` starts no entity
          rw [tbl1_rej _ hl1 hh1]
          rw [if_pos rfl]
          simp only [List.findIdx_cons, beq_semi_false _ hc1, cond_false,
            List.length_cons, List.take_succ_cons]
          rw [if_neg (by
            intro hk
            have := hk.2
            simp only [spec_entity_body, spec_named_cons,
              spec_numeric_not_hash _ _ hh1, Bool.or_false] at this
            rw [show ((('A' : Char) ≤ chAt buf (s0 + 1) && chAt buf (s0 + 1) ≤ 'Z') ||
                (('a' : Char) ≤ chAt buf (s0 + 1) && chAt buf (s0 + 1) ≤ 'z')) = false from by
              cases hq : ((('A' : Char) ≤ chAt buf (s0 + 1) && chAt buf (s0 + 1) ≤ 'Z') ||
                  (('a' : Char) ≤ chAt buf (s0 + 1) && chAt buf (s0 + 1) ≤ 'z'))
              · rfl
              · exfalso
                apply hl1
                simpa [Bool.or_eq_true, Bool.and_eq_true, decide_eq_true_eq] using hq] at this
            rw [Bool.false_and] at this
            exact Bool.noConfusion this)]
  · rw [if_neg h1]
    rw [show e - (s0 + 1) = 0 from by omega]
    simp only [List.take_zero, List.findIdx_nil, List.length_nil, List.take_nil, seb_nil]
    rw [if_neg (by simp)]

theorem findIdx_elem_eq (l : List Char) (c : Char)
    (h : l.findIdx (fun d => d == c) < l.length) :
    l[l.findIdx (fun d => d == c)]? = some c := by
  rw [List.getElem?_eq_getElem h]
  have h2 : (l[l.findIdx (fun d => d == c)] == c) = true :=
    @List.findIdx_getElem _ (fun d => d == c) l h
  simp only [beq_iff_eq] at h2
  rw [h2]

set_option maxHeartbeats 1000000 in
theorem escape_loop_spec (buf : Buf) (e : Nat) (hbuf : e ≤ buf.length) :
    ∀ codefuel sf s acc, e - s < codefuel → e - s < sf →
      print_escape_html_go buf e codefuel s acc =
        acc ++ spec_escape_html sf ((buf.drop s).take (e - s)) := by
  intro codefuel
  induction codefuel with
  | zero =>
    intro sf s acc h _
    omega
  | succ fuel ih =>
    intro sf s acc hcf hsf
    simp only [print_escape_html_go]
    by_cases hse : s < e
    · rw [if_pos hse]
      rw [region_cons buf s e hse hbuf]
      cases sf with
      | zero => omega
      | succ sf' =>
        simp only [spec_escape_html]
        by_cases hamp : chAt buf s = '&'
        · rw [if_pos hamp, if_pos hamp]
          rw [check_entity_spec buf e s hbuf hse hamp]
          simp only []
          by_cases hcond : ((buf.drop (s + 1)).take (e - (s + 1))).findIdx
                (fun d => d == ';') <
              ((buf.drop (s + 1)).take (e - (s + 1))).length ∧
              spec_entity_body (((buf.drop (s + 1)).take (e - (s + 1))).take
                (((buf.drop (s + 1)).take (e - (s + 1))).findIdx
                  (fun d => d == ';'))) = true
          · rw [if_pos hcond, if_pos hcond]
            simp only []
            have hlen : ((buf.drop (s + 1)).take (e - (s + 1))).length = e - (s + 1) := by
              rw [List.length_take, List.length_drop]
              omega
            have hi : ((buf.drop (s + 1)).take (e - (s + 1))).findIdx
                (fun d => d == ';') < e - (s + 1) := by
              have h3 := hcond.1
              rw [hlen] at h3
              exact h3
            have hemit : (buf.drop s).take (s + 1 +
                ((buf.drop (s + 1)).take (e - (s + 1))).findIdx (fun d => d == ';') +
                1 - s) =
                chAt buf s :: ((buf.drop (s + 1)).take (e - (s + 1))).take
                  (((buf.drop (s + 1)).take (e - (s + 1))).findIdx
                    (fun d => d == ';')) ++ [';'] := by
              rw [show s + 1 + ((buf.drop (s + 1)).take (e - (s + 1))).findIdx
                  (fun d => d == ';') + 1 - s =
                (((buf.drop (s + 1)).take (e - (s + 1))).findIdx
                  (fun d => d == ';') + 1) + 1 from by omega]
              rw [List.drop_eq_getElem_cons (by omega : s < buf.length)]
              rw [← chAt_lt buf s (by omega)]
              rw [List.take_succ_cons]
              rw [show ((buf.drop (s + 1)).take
                  (((buf.drop (s + 1)).take (e - (s + 1))).findIdx
                    (fun d => d == ';') + 1)) =
                ((buf.drop (s + 1)).take (e - (s + 1))).take
                  (((buf.drop (s + 1)).take (e - (s + 1))).findIdx
                    (fun d => d == ';') + 1) from by
                rw [List.take_take]
                rw [show min (((buf.drop (s + 1)).take (e - (s + 1))).findIdx
                    (fun d => d == ';') + 1) (e - (s + 1)) =
                  ((buf.drop (s + 1)).take (e - (s + 1))).findIdx
                    (fun d => d == ';') + 1 from by omega]]
              rw [List.take_succ]
              rw [findIdx_elem_eq ((buf.drop (s + 1)).take (e - (s + 1))) ';' hcond.1]
              rfl
            rw [hemit]
            rw [ih sf' (s + 1 + ((buf.drop (s + 1)).take (e - (s + 1))).findIdx
                (fun d => d == ';') + 1)
              (acc ++ (chAt buf s :: ((buf.drop (s + 1)).take (e - (s + 1))).take
                (((buf.drop (s + 1)).take (e - (s + 1))).findIdx
                  (fun d => d == ';')) ++ [';']))
              (by omega) (by omega)]
            rw [show (buf.drop (s + 1 + ((buf.drop (s + 1)).take
                  (e - (s + 1))).findIdx (fun d => d == ';') + 1)).take
                (e - (s + 1 + ((buf.drop (s + 1)).take (e - (s + 1))).findIdx
                  (fun d => d == ';') + 1)) =
              ((buf.drop (s + 1)).take (e - (s + 1))).drop
                (((buf.drop (s + 1)).take (e - (s + 1))).findIdx
                  (fun d => d == ';') + 1) from by
              rw [List.drop_take]
              rw [List.drop_drop]
              rw [show s + 1 + (((buf.drop (s + 1)).take (e - (s + 1))).findIdx
                  (fun d => d == ';') + 1) =
                s + 1 + ((buf.drop (s + 1)).take (e - (s + 1))).findIdx
                  (fun d => d == ';') + 1 from by omega]
              rw [show e - (s + 1) - (((buf.drop (s + 1)).take (e - (s + 1))).findIdx
                  (fun d => d == ';') + 1) =
                e - (s + 1 + ((buf.drop (s + 1)).take (e - (s + 1))).findIdx
                  (fun d => d == ';') + 1) from by omega]]
            rw [hamp]
            simp only [List.append_assoc, List.cons_append, List.singleton_append,
              List.nil_append]
          · rw [if_neg hcond, if_neg hcond]
            simp only []
            rw [ih sf' (s + 1) (acc ++ "&amp;".data) (by omega) (by omega)]
            simp only [List.append_assoc]
        · rw [if_neg hamp, if_neg hamp]
          by_cases hlt : chAt buf s = '<'
          · rw [if_pos hlt, if_pos hlt]
            rw [ih sf' (s + 1) (acc ++ "&lt;".data) (by omega) (by omega)]
            simp only [List.append_assoc]
          · rw [if_neg hlt, if_neg hlt]
            by_cases hgt : chAt buf s = '>'
            · rw [if_pos hgt, if_pos hgt]
              rw [ih sf' (s + 1) (acc ++ "&gt;".data) (by omega) (by omega)]
              simp only [List.append_assoc]
            · rw [if_neg hgt, if_neg hgt]
              by_cases hq : chAt buf s = '"'
              · rw [if_pos hq, if_pos hq]
                rw [ih sf' (s + 1) (acc ++ "&quot;".data) (by omega) (by omega)]
                simp only [List.append_assoc]
              · rw [if_neg hq, if_neg hq]
                by_cases hsq : chAt buf s = squote
                · rw [if_pos hsq, if_pos hsq]
                  rw [ih sf' (s + 1) (acc ++ "&#39;".data) (by omega) (by omega)]
                  simp only [List.append_assoc]
                · rw [if_neg hsq, if_neg hsq]
                  rw [ih sf' (s + 1) (acc ++ [chAt buf s]) (by omega) (by omega)]
                  simp only [List.append_assoc, List.singleton_append,
                    List.cons_append, List.nil_append]
    · rw [if_neg hse]
      rw [show e - s = 0 from by omega]
      simp only [List.take_zero, spec_escape_html]
      cases sf with
      | zero => omega
      | succ sf' => simp only [spec_escape_html, List.append_nil]

/-- Claim C7: general-text escaping behaves as claimed: `&` becomes
`&amp;` unless it begins a well-formed numeric or named entity (passed
through verbatim up to its `;`), `<`, `>`, `"`, `'` become their
entities, and every other character passes through unchanged — the
code's escaping loop equals the claim-side recursive model. -/
theorem C7_general_text_escaping (s : Buf) :
    escape_html_str s [] = spec_escape_html (s.length + 1) s := by
  unfold escape_html_str print_with_escape_html
  rw [escape_loop_spec s s.length le_rfl (s.length - 0 + 1) (s.length + 1) 0 []
    (by omega) (by omega)]
  rw [List.nil_append, List.drop_zero, Nat.sub_zero, List.take_length]


/- positional access through appends, for assembled link sources -/

theorem chAt_append_left (l1 l2 : Buf) (j : Nat) (h : j < l1.length) :
    chAt (l1 ++ l2) j = chAt l1 j := by
  unfold chAt
  rw [List.getD_eq_getElem?_getD, List.getD_eq_getElem?_getD]
  rw [List.getElem?_append, if_pos h]

theorem chAt_append_right (l1 l2 : Buf) (j : Nat) :
    chAt (l1 ++ l2) (l1.length + j) = chAt l2 j := by
  unfold chAt
  rw [List.getD_eq_getElem?_getD, List.getD_eq_getElem?_getD]
  rw [List.getElem?_append, if_neg (by omega)]
  congr 2
  omega

theorem chAt_cons_succ (c : Char) (t : Buf) (j : Nat) :
    chAt (c :: t) (j + 1) = chAt t j := List.getD_cons_succ

theorem chAt_cons_zero (c : Char) (t : Buf) : chAt (c :: t) 0 = c := List.getD_cons_zero

theorem takeWhile_len_eq (pr : Char → Bool) :
    ∀ (l : Buf) (n : Nat), n ≤ l.length →
      (∀ j, j < n → pr (chAt l j) = true) →
      (n < l.length → pr (chAt l n) = false) →
      (l.takeWhile pr).length = n := by
  intro l
  induction l with
  | nil =>
    intro n hn _ _
    have h0 : n = 0 := by simpa using hn
    subst h0
    rfl
  | cons c t ih =>
    intro n hn hall hstop
    cases n with
    | zero =>
      have h0 := hstop (by simp)
      rw [chAt_cons_zero] at h0
      rw [List.takeWhile_cons, if_neg (by rw [h0]; exact Bool.noConfusion)]
      rfl
    | succ m =>
      have h0 := hall 0 (by omega)
      rw [chAt_cons_zero] at h0
      rw [List.takeWhile_cons, if_pos h0]
      rw [List.length_cons]
      rw [ih m (by simpa using hn)
        (fun j hj => by rw [← chAt_cons_succ c t j]; exact hall (j + 1) (by omega))
        (fun hm => by rw [← chAt_cons_succ c t m]; exact hstop (by simpa using hm))]

theorem find_from_go_spec (buf : Buf) (eos : Nat) (pr : Char → Bool)
    (hbuf : eos ≤ buf.length) :
    ∀ fuel i, i ≤ eos → eos - i < fuel →
      find_from_go buf eos pr fuel i =
        i + (((buf.drop i).take (eos - i)).takeWhile (fun c => ! pr c)).length := by
  intro fuel
  induction fuel with
  | zero => intro i _ h; omega
  | succ fuel ih =>
    intro i hi hf
    simp only [find_from_go]
    by_cases hie : i < eos
    · rw [if_pos hie]
      rw [region_cons buf i eos hie hbuf]
      by_cases hp : pr (chAt buf i) = true
      · rw [if_pos hp]
        rw [List.takeWhile_cons, if_neg (by rw [hp]; exact Bool.noConfusion)]
        rfl
      · rw [if_neg hp]
        rw [ih (i + 1) (by omega) (by omega)]
        rw [List.takeWhile_cons, if_pos (by
          cases hq : pr (chAt buf i)
          · rfl
          · exact absurd hq hp)]
        rw [List.length_cons]
        omega
    · rw [if_neg hie]
      rw [show eos - i = 0 from by omega]
      simp only [List.take_zero, List.takeWhile_nil, List.length_nil]
      omega

theorem find_from_spec (buf : Buf) (pos eos : Nat) (pr : Char → Bool)
    (hpe : pos ≤ eos) (hbuf : eos ≤ buf.length) :
    find_from buf pos eos pr =
      pos + (((buf.drop pos).take (eos - pos)).takeWhile (fun c => ! pr c)).length := by
  unfold find_from
  exact find_from_go_spec buf eos pr hbuf (eos - pos + 1) pos hpe (by omega)

theorem not_special (c : Char) (h : inline_ccls.contains c = false) :
    ¬ c = ' ' ∧ ¬ c = '\\' ∧ ¬ c = backquote ∧ ¬ c = '*' ∧ ¬ c = '_' ∧
      ¬ c = '<' ∧ ¬ c = '!' ∧ ¬ c = '[' ∧ ¬ c = ']' := by
  refine ⟨?_, ?_, ?_, ?_, ?_, ?_, ?_, ?_, ?_⟩ <;>
    (intro hq; rw [hq] at h; exact absurd h (by decide))

/-- On a plain run (no special characters) ended by `]`, the inline
loop emits one TEXT token and stops at the `]`. -/
theorem loop_label (dict : Refdict) (buf : Buf) (bos : Nat) (f pos k eos : Nat)
    (nest : List Nest)
    (hpk : pos < k) (hke : k < eos) (hbuf : eos ≤ buf.length)
    (hplain : ∀ j, pos ≤ j → j < k → inline_ccls.contains (chAt buf j) = false)
    (hstop : chAt buf k = ']') :
    parse_inline_loop dict buf bos (f + 1 + 1) pos eos [] nest =
      some (k, [⟨TEXT, buf, pos, k⟩], nest) := by
  obtain ⟨h1, h2, h3, h4, h5, h6, h7, h8, h9⟩ :=
    not_special (chAt buf pos) (hplain pos le_rfl hpk)
  unfold parse_inline_loop
  rw [if_pos ⟨by omega, h9⟩]
  rw [if_neg h1, if_neg h2, if_neg h3,
    if_neg (by tauto : ¬ (chAt buf pos = '*' ∨ chAt buf pos = '_')),
    if_neg h6, if_neg h8, if_neg h7]
  have hfind : find_from buf pos eos (fun x => inline_ccls.contains x) = k := by
    rw [find_from_spec buf pos eos _ (by omega) hbuf]
    rw [takeWhile_len_eq _ ((buf.drop pos).take (eos - pos)) (k - pos)
      (by rw [List.length_take, List.length_drop]; omega)
      (fun j hj => by
        show (! inline_ccls.contains (chAt ((buf.drop pos).take (eos - pos)) j)) = true
        rw [chAt_take _ _ _ (by omega), chAt_drop]
        rw [hplain (pos + j) (by omega) (by omega)]
        rfl)
      (fun hlt => by
        show (! inline_ccls.contains
          (chAt ((buf.drop pos).take (eos - pos)) (k - pos))) = false
        rw [chAt_take _ _ _ (by omega), chAt_drop]
        rw [show pos + (k - pos) = k from by omega, hstop]
        decide)]
    omega
  rw [hfind]
  have htext : parse_text buf pos k [] = [⟨TEXT, buf, pos, k⟩] := by
    unfold parse_text
    rw [if_neg (by omega)]
    rfl
  simp only [htext]
  unfold parse_inline_loop
  rw [if_neg (by
    intro hq
    exact hq.2 hstop)]

/-- Flat quoted region: `n` benign characters then the right quote. -/
theorem scan_quoted_go_flat (buf : Buf) (eos : Nat) (lq rq esc : Char)
    (pr : Char → Bool) (pos : Nat)
    (hrq_pr : pr rq = true) (hrq_esc : ¬ rq = esc) (hrq_angle : lq = '(' → ¬ rq = '<') :
    ∀ (n fuel p : Nat), n + 2 ≤ fuel → p + n < eos →
      (∀ j, j < n → pr (chAt buf (p + j)) = true ∧ ¬ chAt buf (p + j) = esc ∧
        ¬ chAt buf (p + j) = rq ∧ ¬ chAt buf (p + j) = lq ∧
        (lq = '(' → ¬ chAt buf (p + j) = '<')) →
      chAt buf (p + n) = rq →
      scan_quoted_go buf eos lq rq esc pr pos fuel p 1 = p + n + 1 := by
  intro n
  induction n with
  | zero =>
    intro fuel p hfuel hpe hw hrq
    rw [Nat.add_zero] at hrq hpe
    obtain ⟨f1, hf1⟩ : ∃ f1, fuel = f1 + 2 := ⟨fuel - 2, by omega⟩
    subst hf1
    unfold scan_quoted_go
    rw [if_neg (by decide : ¬ (1 : Nat) = 0)]
    rw [if_neg (by
      intro hq
      exact hq (⟨hpe, by rw [hrq]; exact hrq_pr⟩))]
    rw [if_neg (by
      intro hq
      rw [hrq] at hq
      exact hrq_esc hq.1)]
    rw [if_neg (by
      intro hq
      rw [hrq] at hq
      exact hrq_angle hq.1 hq.2)]
    rw [if_pos hrq]
    unfold scan_quoted_go
    rw [if_pos (by decide : (1 : Nat) - 1 = 0)]
  | succ m ih =>
    intro fuel p hfuel hpe hw hrq
    obtain ⟨f1, hf1⟩ : ∃ f1, fuel = f1 + 1 := ⟨fuel - 1, by omega⟩
    subst hf1
    obtain ⟨hw0pr, hw0esc, hw0rq, hw0lq, hw0lt⟩ := hw 0 (by omega)
    rw [Nat.add_zero] at hw0pr hw0esc hw0rq hw0lq hw0lt
    unfold scan_quoted_go
    rw [if_neg (by decide : ¬ (1 : Nat) = 0)]
    rw [if_neg (by
      intro hq
      exact hq (⟨by omega, hw0pr⟩))]
    rw [if_neg (fun hq => hw0esc hq.1)]
    rw [if_neg (fun hq => hw0lt hq.1 hq.2)]
    rw [if_neg hw0rq, if_neg hw0lq]
    rw [ih f1 (p + 1) (by omega) (by omega)
      (fun j hj => by
        rw [show p + 1 + j = p + (j + 1) from by omega]
        exact hw (j + 1) (by omega))
      (by rw [show p + 1 + m = p + (m + 1) from by omega]; exact hrq)]
    omega

/-- Flat quoted scan from the left quote. -/
theorem scan_quoted_flat (buf : Buf) (pos eos : Nat) (lq rq esc : Char)
    (pr : Char → Bool) (n : Nat)
    (hrq_pr : pr rq = true) (hrq_esc : ¬ rq = esc) (hrq_angle : lq = '(' → ¬ rq = '<')
    (hlq : chAt buf pos = lq) (hend : pos + n + 1 < eos)
    (hw : ∀ j, j < n → pr (chAt buf (pos + 1 + j)) = true ∧
      ¬ chAt buf (pos + 1 + j) = esc ∧ ¬ chAt buf (pos + 1 + j) = rq ∧
      ¬ chAt buf (pos + 1 + j) = lq ∧ (lq = '(' → ¬ chAt buf (pos + 1 + j) = '<'))
    (hrq : chAt buf (pos + 1 + n) = rq) :
    scan_quoted buf pos eos lq rq esc pr = pos + n + 2 := by
  unfold scan_quoted
  rw [if_pos ⟨by omega, hlq⟩]
  rw [scan_quoted_go_flat buf eos lq rq esc pr pos hrq_pr hrq_esc hrq_angle
    n (eos - pos + 2) (pos + 1) (by omega) (by omega) hw hrq]
  omega

/-- The reference bracket `[id]` over a flat id region. -/
theorem parse_link_bracket_flat (buf : Buf) (pos eos altb alte : Nat)
    (attr : List Tok) (n : Nat) (hn : 0 < n)
    (hlb : chAt buf pos = '[')
    (hend : pos + n + 1 < eos)
    (hw : ∀ j, j < n → ismdany (chAt buf (pos + 1 + j)) = true ∧
      ¬ chAt buf (pos + 1 + j) = '\\' ∧ ¬ chAt buf (pos + 1 + j) = ']' ∧
      ¬ chAt buf (pos + 1 + j) = '[')
    (hrb : chAt buf (pos + 1 + n) = ']') :
    parse_link_bracket buf pos eos altb alte attr =
      (pos + n + 2, attr ++ [⟨LINKID, buf, pos + 1, pos + n + 1⟩]) := by
  unfold parse_link_bracket
  have hp1 : scan_of buf pos eos 0 (-1) ismdwhite = pos := by
    apply scan_of_no_first
    intro hq
    rw [hlb] at hq
    exact absurd hq.2 (by decide)
  simp only [hp1]
  rw [scan_quoted_flat buf pos eos '[' ']' '\\' ismdany n (by decide) (by decide)
    (by intro hq; exact absurd hq (by decide)) hlb hend
    (fun j hj => by
      obtain ⟨w1, w2, w3, w4⟩ := hw j hj
      exact ⟨w1, w2, w3, w4, fun hq => absurd hq (by decide)⟩)
    hrb]
  rw [if_pos (by omega : pos + n + 2 - pos > 2)]
  rw [show pos + n + 2 - 1 = pos + n + 1 from by omega]

/-- The paren part `(uri)` with a flat uri and no title. -/
theorem parse_link_paren_notitle (buf : Buf) (p3 eos : Nat) (u : Nat)
    (hu : 0 < u) (heos : eos = p3 + u + 2) (hbuf : eos ≤ buf.length)
    (hp3 : chAt buf p3 = '(')
    (hrp : chAt buf (p3 + 1 + u) = ')')
    (huri : ∀ j, j < u → ismdany (chAt buf (p3 + 1 + j)) = true ∧
      ¬ chAt buf (p3 + 1 + j) = '(' ∧ ¬ chAt buf (p3 + 1 + j) = ')' ∧
      ¬ chAt buf (p3 + 1 + j) = '\\' ∧ ¬ chAt buf (p3 + 1 + j) = '<' ∧
      ¬ chAt buf (p3 + 1 + j) = '"' ∧ ¬ chAt buf (p3 + 1 + j) = squote ∧
      ismdwhite (chAt buf (p3 + 1 + j)) = false) :
    parse_link_paren buf p3 eos [] =
      (eos, [⟨URI, buf, p3 + 1, p3 + 1 + u⟩]) := by
  unfold parse_link_paren
  have hp6 : scan_quoted buf p3 eos '(' ')' '\\' ismdany = p3 + u + 2 := by
    apply scan_quoted_flat buf p3 eos '(' ')' '\\' ismdany u (by decide) (by decide)
      (fun _ => by decide) hp3 (by omega)
      (fun j hj => by
        obtain ⟨w1, w2, w3, w4, w5, _, _, _⟩ := huri j hj
        exact ⟨w1, w4, w3, w2, fun _ => w5⟩)
      hrp
  simp only [hp6]
  rw [if_neg (by omega : ¬ p3 = p3 + u + 2)]
  have hp5 : rscan_of buf (p3 + 1) ismdwhite (p3 + u + 2 - 1) = p3 + u + 1 := by
    rw [show p3 + u + 2 - 1 = (p3 + u) + 1 from by omega]
    unfold rscan_of
    rw [if_neg (by
      intro hq
      obtain ⟨_, _, _, _, _, _, _, w8⟩ := huri (u - 1) (by omega)
      rw [show p3 + 1 + (u - 1) = p3 + u from by omega] at w8
      rw [w8] at hq
      exact Bool.noConfusion hq.2)]
  simp only [hp5]
  obtain ⟨_, _, _, _, hu5, _, _, _⟩ := huri 0 hu
  rw [Nat.add_zero] at hu5
  rw [if_neg hu5]
  have hqneg : ¬ (chAt buf (p3 + u + 1 - 1) = '"' ∨
      chAt buf (p3 + u + 1 - 1) = squote) := by
    rw [show p3 + u + 1 - 1 = p3 + 1 + (u - 1) from by omega]
    obtain ⟨_, _, _, _, _, w6, w7, _⟩ := huri (u - 1) (by omega)
    intro hq
    rcases hq with hq | hq
    · exact w6 hq
    · exact w7 hq
  rw [if_neg hqneg]
  simp only []
  rw [if_neg (show ¬ (p3 + u + 1 - (p3 + u + 1, p3 + u + 1).2 > 1 ∧
      chAt buf (p3 + u + 1, p3 + u + 1).2 = chAt buf (p3 + u + 1 - 1) ∧
      (chAt buf (p3 + u + 1 - 1) = '"' ∨ chAt buf (p3 + u + 1 - 1) = squote))
    from fun hk => hqneg hk.2.2)]
  rw [if_neg (show ¬ ((p3 + u + 1, p3 + u + 1).1 - (p3 + 1) > 1 ∧
      chAt buf (p3 + 1) = '<' ∧
      chAt buf ((p3 + u + 1, p3 + u + 1).1 - 1) = '>')
    from fun hk => hu5 hk.2.1)]
  rw [List.nil_append]
  rw [show p3 + u + 1 = p3 + 1 + u from by omega, heos]

/- assembled link sources compared by claim C6 -/

/-- Reference-link source `[a][b]`. -/
def ref_src (a b : Buf) : Buf := '[' :: a ++ ']' :: '[' :: b ++ [']']

/-- Inline-link source `[a](uri "title")` (`[a](uri)` for an empty title). -/
def inl_src (a uri title : Buf) : Buf :=
  '[' :: a ++ ']' :: '(' :: uri ++
    (if title = [] then [')'] else ' ' :: '"' :: title ++ '"' :: [')'])

theorem ref_src_eq (a b : Buf) :
    ref_src a b = '[' :: (a ++ (']' :: '[' :: (b ++ [']']))) := by
  simp [ref_src]

theorem ref_src_len (a b : Buf) : (ref_src a b).length = a.length + b.length + 4 := by
  rw [ref_src_eq]
  simp
  omega

theorem ref_src_at0 (a b : Buf) : chAt (ref_src a b) 0 = '[' := by
  rw [ref_src_eq, chAt_cons_zero]

theorem ref_src_label (a b : Buf) (j : Nat) (hj : j < a.length) :
    chAt (ref_src a b) (1 + j) = chAt a j := by
  rw [ref_src_eq, show (1 : Nat) + j = j + 1 from by omega, chAt_cons_succ]
  rw [chAt_append_left _ _ _ hj]

theorem ref_src_rb1 (a b : Buf) : chAt (ref_src a b) (1 + a.length) = ']' := by
  rw [ref_src_eq, show (1 : Nat) + a.length = a.length + 1 from by omega, chAt_cons_succ]
  rw [show a.length = a.length + 0 from rfl, chAt_append_right]
  rfl

theorem ref_src_lb2 (a b : Buf) : chAt (ref_src a b) (2 + a.length) = '[' := by
  rw [ref_src_eq, show (2 : Nat) + a.length = (a.length + 1) + 1 from by omega,
    chAt_cons_succ]
  rw [chAt_append_right]
  rfl

theorem ref_src_id (a b : Buf) (j : Nat) (hj : j < b.length) :
    chAt (ref_src a b) (3 + a.length + j) = chAt b j := by
  have h1 : ref_src a b = ('[' :: a ++ [']', '[']) ++ (b ++ [']']) := by
    simp [ref_src]
  rw [h1]
  rw [show 3 + a.length + j = ('[' :: a ++ [']', '[']).length + j from by simp; omega]
  rw [chAt_append_right, chAt_append_left _ _ _ hj]

theorem ref_src_rb2 (a b : Buf) :
    chAt (ref_src a b) (3 + a.length + b.length) = ']' := by
  have h1 : ref_src a b = ('[' :: a ++ [']', '[']) ++ (b ++ [']']) := by
    simp [ref_src]
  rw [h1]
  rw [show 3 + a.length + b.length = ('[' :: a ++ [']', '[']).length + b.length from by
    simp; omega]
  rw [chAt_append_right]
  rw [show b.length = b.length + 0 from rfl, chAt_append_right]
  rfl

theorem ref_src_slice_label (a b : Buf) :
    ((ref_src a b).drop 1).take a.length = a := by
  rw [ref_src_eq]
  rw [show ('[' :: (a ++ (']' :: '[' :: (b ++ [']'])))).drop 1 =
    a ++ (']' :: '[' :: (b ++ [']'])) from rfl]
  exact List.take_left a _

theorem ref_src_slice_id (a b : Buf) :
    ((ref_src a b).drop (3 + a.length)).take b.length = b := by
  have h1 : ref_src a b = ('[' :: a ++ [']', '[']) ++ (b ++ [']']) := by
    simp [ref_src]
  rw [h1]
  rw [show 3 + a.length = ('[' :: a ++ [']', '[']).length + 0 from by simp; omega]
  rw [List.drop_append 0, List.drop_zero]
  exact List.take_left b _

/- generic facts about sources of the shape `[a]<tail>` -/

theorem gsrc_at0 (a tail : Buf) : chAt ('[' :: (a ++ (']' :: tail))) 0 = '[' :=
  chAt_cons_zero _ _

theorem gsrc_label (a tail : Buf) (j : Nat) (hj : j < a.length) :
    chAt ('[' :: (a ++ (']' :: tail))) (1 + j) = chAt a j := by
  rw [show (1 : Nat) + j = j + 1 from by omega, chAt_cons_succ]
  rw [chAt_append_left _ _ _ hj]

theorem gsrc_rb1 (a tail : Buf) :
    chAt ('[' :: (a ++ (']' :: tail))) (1 + a.length) = ']' := by
  rw [show (1 : Nat) + a.length = a.length + 1 from by omega, chAt_cons_succ]
  rw [show a.length = a.length + 0 from rfl, chAt_append_right]
  rfl

theorem gsrc_tail_at (a tail : Buf) (j : Nat) :
    chAt ('[' :: (a ++ (']' :: tail))) (2 + a.length + j) = chAt tail j := by
  rw [show 2 + a.length + j = (a.length + (1 + j)) + 1 from by omega, chAt_cons_succ]
  rw [chAt_append_right]
  rw [show (1 : Nat) + j = j + 1 from by omega, chAt_cons_succ]

theorem gsrc_slice_label (a tail : Buf) :
    (('[' :: (a ++ (']' :: tail))).drop 1).take a.length = a := by
  rw [show ('[' :: (a ++ (']' :: tail))).drop 1 = a ++ (']' :: tail) from rfl]
  exact List.take_left a _

theorem gsrc_slice_tail (a tail : Buf) (k n : Nat) :
    (('[' :: (a ++ (']' :: tail))).drop (2 + a.length + k)).take n =
      (tail.drop k).take n := by
  rw [show ('[' :: (a ++ (']' :: tail))).drop (2 + a.length + k) =
    (a ++ (']' :: tail)).drop (a.length + (1 + k)) from by
      rw [show 2 + a.length + k = (a.length + (1 + k)) + 1 from by omega]
      rfl]
  rw [List.drop_append]
  rw [show (1 : Nat) + k = k + 1 from by omega]
  rfl

theorem gsrc_len (a tail : Buf) :
    ('[' :: (a ++ (']' :: tail))).length = a.length + tail.length + 2 := by
  simp
  omega

/- the inline source in its two canonical shapes -/

theorem inl_src_eq_nt (a uri title : Buf) (h : title = []) :
    inl_src a uri title = '[' :: (a ++ (']' :: ('(' :: (uri ++ [')'])))) := by
  subst h
  simp [inl_src]

theorem inl_src_eq_t (a uri title : Buf) (h : ¬ title = []) :
    inl_src a uri title =
      '[' :: (a ++ (']' :: ('(' :: (uri ++
        (' ' :: '"' :: (title ++ ('"' :: [')']))))))) := by
  simp [inl_src, h]

set_option maxHeartbeats 1000000 in
/-- The paren part `(uri "title")` with flat uri and title. -/
theorem parse_link_paren_title (buf : Buf) (p3 eos : Nat) (u t : Nat)
    (hu : 0 < u) (ht : 0 < t)
    (heos : eos = p3 + u + t + 5) (hbuf : eos ≤ buf.length)
    (hp3 : chAt buf p3 = '(')
    (hsp : chAt buf (p3 + 1 + u) = ' ')
    (hq1 : chAt buf (p3 + 2 + u) = '"')
    (hq2 : chAt buf (p3 + 3 + u + t) = '"')
    (hrp : chAt buf (p3 + 4 + u + t) = ')')
    (huri : ∀ j, j < u → ismdany (chAt buf (p3 + 1 + j)) = true ∧
      ¬ chAt buf (p3 + 1 + j) = '(' ∧ ¬ chAt buf (p3 + 1 + j) = ')' ∧
      ¬ chAt buf (p3 + 1 + j) = '\\' ∧ ¬ chAt buf (p3 + 1 + j) = '<' ∧
      ¬ chAt buf (p3 + 1 + j) = '"' ∧ ¬ chAt buf (p3 + 1 + j) = squote ∧
      ismdwhite (chAt buf (p3 + 1 + j)) = false)
    (htit : ∀ j, j < t → ismdany (chAt buf (p3 + 3 + u + j)) = true ∧
      ¬ chAt buf (p3 + 3 + u + j) = '(' ∧ ¬ chAt buf (p3 + 3 + u + j) = ')' ∧
      ¬ chAt buf (p3 + 3 + u + j) = '\\' ∧ ¬ chAt buf (p3 + 3 + u + j) = '<' ∧
      ¬ chAt buf (p3 + 3 + u + j) = '"') :
    parse_link_paren buf p3 eos [] =
      (eos, [⟨URI, buf, p3 + 1, p3 + 1 + u⟩,
        ⟨TITLE, buf, p3 + 3 + u, p3 + 3 + u + t⟩]) := by
  subst heos
  unfold parse_link_paren
  have hp6 : scan_quoted buf p3 (p3 + u + t + 5) '(' ')' '\\' ismdany =
      p3 + (u + t + 3) + 2 := by
    apply scan_quoted_flat buf p3 (p3 + u + t + 5) '(' ')' '\\' ismdany (u + t + 3)
      (by decide) (by decide) (fun _ => by decide) hp3 (by omega)
      (fun j hj => by
        by_cases hj1 : j < u
        · obtain ⟨w1, w2, w3, w4, w5, _, _, _⟩ := huri j hj1
          exact ⟨w1, w4, w3, w2, fun _ => w5⟩
        · by_cases hj2 : j = u
          · subst hj2
            rw [hsp]
            exact ⟨by decide, by decide, by decide, by decide, fun _ => by decide⟩
          · by_cases hj3 : j = u + 1
            · subst hj3
              rw [show p3 + 1 + (u + 1) = p3 + 2 + u from by omega, hq1]
              exact ⟨by decide, by decide, by decide, by decide, fun _ => by decide⟩
            · by_cases hj4 : j < u + 2 + t
              · obtain ⟨w1, w2, w3, w4, w5, _⟩ := htit (j - u - 2) (by omega)
                have harr : p3 + 3 + u + (j - u - 2) = p3 + 1 + j := by omega
                rw [harr] at w1 w2 w3 w4 w5
                exact ⟨w1, w4, w3, w2, fun _ => w5⟩
              · rw [show j = u + t + 2 from by omega,
                  show p3 + 1 + (u + t + 2) = p3 + 3 + u + t from by omega, hq2]
                exact ⟨by decide, by decide, by decide, by decide, fun _ => by decide⟩)
      (by rw [show p3 + 1 + (u + t + 3) = p3 + 4 + u + t from by omega]; exact hrp)
  rw [show p3 + (u + t + 3) + 2 = p3 + u + t + 5 from by omega] at hp6
  simp only [hp6]
  rw [if_neg (by omega : ¬ p3 = p3 + u + t + 5)]
  have hp5 : rscan_of buf (p3 + 1) ismdwhite (p3 + u + t + 5 - 1) = p3 + u + t + 4 := by
    rw [show p3 + u + t + 5 - 1 = (p3 + u + t + 3) + 1 from by omega]
    unfold rscan_of
    rw [if_neg (by
      intro hq
      rw [show p3 + u + t + 3 = p3 + 3 + u + t from by omega, hq2] at hq
      exact absurd hq.2 (by decide))]
  simp only [hp5]
  obtain ⟨_, _, _, _, hu5, _, _, _⟩ := huri 0 hu
  rw [Nat.add_zero] at hu5
  rw [if_neg hu5]
  have hc : chAt buf (p3 + u + t + 4 - 1) = '"' := by
    rw [show p3 + u + t + 4 - 1 = p3 + 3 + u + t from by omega]
    exact hq2
  rw [hc]
  have hfind : find_from buf (p3 + 1 + 1) (p3 + u + t + 4)
      (fun c => c == '"') = p3 + 2 + u := by
    rw [find_from_spec buf (p3 + 1 + 1) (p3 + u + t + 4) _ (by omega) (by omega)]
    rw [takeWhile_len_eq _ ((buf.drop (p3 + 1 + 1)).take (p3 + u + t + 4 - (p3 + 1 + 1)))
      u (by rw [List.length_take, List.length_drop]; omega)
      (fun j hj => by
        show (! (chAt ((buf.drop (p3 + 1 + 1)).take (p3 + u + t + 4 - (p3 + 1 + 1))) j
          == '"')) = true
        rw [chAt_take _ _ _ (by omega), chAt_drop]
        by_cases hj1 : j + 1 < u
        · obtain ⟨_, _, _, _, _, w6, _, _⟩ := huri (j + 1) hj1
          rw [show p3 + 1 + 1 + j = p3 + 1 + (j + 1) from by omega]
          rw [show (chAt buf (p3 + 1 + (j + 1)) == '"') = false from by
            simp only [beq_eq_false_iff_ne, ne_eq]
            exact w6]
          rfl
        · rw [show p3 + 1 + 1 + j = p3 + 1 + u from by omega, hsp]
          decide)
      (fun _ => by
        show (! (chAt ((buf.drop (p3 + 1 + 1)).take (p3 + u + t + 4 - (p3 + 1 + 1))) u
          == '"')) = false
        rw [chAt_take _ _ _ (by omega), chAt_drop]
        rw [show p3 + 1 + 1 + u = p3 + 2 + u from by omega, hq1]
        decide)]
  rw [hfind]
  have hquote : find_quote_go buf (p3 + u + t + 4) '"'
      (p3 + u + t + 4 - (p3 + 1 + 1) + 2) (p3 + 2 + u) = p3 + 2 + u := by
    rw [show p3 + u + t + 4 - (p3 + 1 + 1) + 2 = (u + t + 3) + 1 from by omega]
    unfold find_quote_go
    rw [if_neg (by
      intro hq
      have h9 := hq.2
      rw [show p3 + 2 + u - 1 = p3 + 1 + u from by omega, hsp] at h9
      exact h9 (by decide))]
  rw [hquote]
  have hr : rscan_of buf (p3 + 1 + 1) ismdwhite (p3 + 2 + u) = p3 + 1 + u := by
    rw [show p3 + 2 + u = (p3 + 1 + u) + 1 from by omega]
    unfold rscan_of
    rw [if_pos ⟨by omega, by rw [hsp]; decide⟩]
    rw [show p3 + 1 + u = (p3 + u) + 1 from by omega]
    unfold rscan_of
    rw [if_neg (by
      intro hq
      obtain ⟨_, _, _, _, _, _, _, w8⟩ := huri (u - 1) (by omega)
      rw [show p3 + 1 + (u - 1) = p3 + u from by omega] at w8
      rw [w8] at hq
      exact Bool.noConfusion hq.2)]
  rw [hr]
  rw [if_pos (show ('"' : Char) = '"' ∨ ('"' : Char) = squote from Or.inl rfl)]
  simp only []
  rw [if_pos (show p3 + u + t + 4 - (p3 + 2 + u) > 1 ∧
      chAt buf (p3 + 2 + u) = '"' ∧ (True ∨ ('"' : Char) = squote) from
    ⟨by omega, hq1, Or.inl trivial⟩)]
  rw [if_neg (show ¬ (p3 + 1 + u - (p3 + 1) > 1 ∧ chAt buf (p3 + 1) = '<' ∧
      chAt buf (p3 + 1 + u - 1) = '>') from fun hk => hu5 hk.2.1)]
  rw [List.nil_append]
  rw [show p3 + 2 + u + 1 = p3 + 3 + u from by omega]
  rw [show p3 + u + t + 4 - 1 = p3 + 3 + u + t from by omega]
  rfl

theorem parse_link_paren_nomatch (buf : Buf) (pos eos : Nat) (attr : List Tok)
    (hc : ¬ (pos < eos ∧ chAt buf pos = '(')) :
    parse_link_paren buf pos eos attr = (pos, attr) := by
  unfold parse_link_paren
  rw [scan_quoted_nomatch buf pos eos '(' ')' '\\' ismdany hc]
  rw [if_pos rfl]

theorem nest_exists_nil (n : Nat) : nest_exists [] n = false := rfl

theorem clear_nonzero_zero (inner : List Tok) (p : Nat) :
    clear_nonzero inner [⟨p, 0⟩] = (inner, [⟨p, 0⟩]) := by
  unfold clear_nonzero
  rw [if_neg (by simp)]

/-- `parse_link` on `[a][b]` resolves through the dictionary. -/
theorem link_ref (rec : Nat → Nat → List Tok → List Nest → Option (Nat × List Tok × List Nest))
    (dict : Refdict) (a b : Buf) (entry : Reflink)
    (ha : 0 < a.length) (hb : 0 < b.length)
    (hrec : rec 1 (ref_src a b).length [] [⟨0, 0⟩] =
      some (1 + a.length, [⟨TEXT, ref_src a b, 1, 1 + a.length⟩], [⟨0, 0⟩]))
    (hbC : ∀ c ∈ b, ismdany c = true ∧ ¬ c = '\\' ∧ ¬ c = ']' ∧ ¬ c = '[')
    (hdict : dict_find dict (decode_linkid b) = some entry) :
    parse_link rec 0 0 (ref_src a b).length (ref_src a b) [] dict [] =
      some ([] ++ [⟨SABEGIN, ref_src a b, 0, 0⟩] ++
        ([⟨URI, entry.uri, 0, entry.uri.length⟩] ++
          (if entry.title ≠ [] then [⟨TITLE, entry.title, 0, entry.title.length⟩]
           else [])) ++
        [⟨SAEND, ref_src a b, 0, 0⟩] ++ [⟨TEXT, ref_src a b, 1, 1 + a.length⟩] ++
        [⟨EA, ref_src a b, (ref_src a b).length, (ref_src a b).length⟩],
        [], (ref_src a b).length) := by
  have hlen := ref_src_len a b
  unfold parse_link
  have hp1 : scan_of_c (ref_src a b) 0 (ref_src a b).length 1 1 '[' = 1 := by
    unfold scan_of_c
    rw [scan_one_eq _ _ _ _ _ le_rfl]
    rw [if_pos ⟨by omega, by rw [ref_src_at0]; decide⟩]
  simp only [List.length_nil, hp1]
  rw [if_neg (by decide : ¬ (0 : Nat) = 1)]
  rw [hrec]
  simp only [clear_nonzero_zero]
  have hp3 : scan_of_c (ref_src a b) (1 + a.length) (ref_src a b).length 1 1 ']' = 
      2 + a.length := by
    unfold scan_of_c
    rw [scan_one_eq _ _ _ _ _ le_rfl]
    rw [if_pos ⟨by omega, by rw [ref_src_rb1]; decide⟩]
    omega
  simp only [hp3]
  simp only [List.tail_cons, nest_exists_nil]
  rw [if_neg (by omega : ¬ (1 = 1 + a.length ∨ 1 + a.length = 2 + a.length))]
  rw [parse_link_paren_nomatch _ _ _ _ (by
    intro hq
    rw [ref_src_lb2] at hq
    exact absurd hq.2 (by decide))]
  rw [if_neg (by
    intro hq
    exact absurd hq.2 (by omega))]
  rw [parse_link_bracket_flat (ref_src a b) (2 + a.length) (ref_src a b).length
    1 (1 + a.length) [] b.length hb (ref_src_lb2 a b) (by omega)
    (fun j hj => by
      rw [show 2 + a.length + 1 + j = 3 + a.length + j from by omega]
      rw [ref_src_id a b j hj]
      exact hbC _ (chAt_mem b j hj))
    (by
      rw [show 2 + a.length + 1 + b.length = 3 + a.length + b.length from by omega]
      exact ref_src_rb2 a b)]
  simp only [Bool.not_false, if_pos]
  have hfetch : parse_fetch_reference_link dict
      ([] ++ [⟨LINKID, ref_src a b, 2 + a.length + 1, 2 + a.length + b.length + 1⟩]) =
      some ([⟨URI, entry.uri, 0, entry.uri.length⟩] ++
        (if entry.title ≠ [] then [⟨TITLE, entry.title, 0, entry.title.length⟩]
         else [])) := by
    unfold parse_fetch_reference_link
    simp only [List.nil_append]
    rw [show ((([⟨LINKID, ref_src a b, 2 + a.length + 1,
        2 + a.length + b.length + 1⟩] : List Tok)[0]?).getD dfltTok) =
      ⟨LINKID, ref_src a b, 2 + a.length + 1, 2 + a.length + b.length + 1⟩ from rfl]
    rw [show Tok.slice ⟨LINKID, ref_src a b, 2 + a.length + 1,
        2 + a.length + b.length + 1⟩ =
      ((ref_src a b).drop (3 + a.length)).take b.length from by
        unfold Tok.slice
        rw [show 2 + a.length + 1 = 3 + a.length from by omega]
        rw [show 2 + a.length + b.length + 1 - (3 + a.length) = b.length from by omega]]
    rw [ref_src_slice_id]
    rw [hdict]
  rw [hfetch]
  rw [show 2 + a.length + b.length + 2 = (ref_src a b).length from by omega]
  rw [if_pos (show ¬ false = true from by decide)]
  simp only []
  unfold parse_make_link
  rfl

/- positional facts about the two inline tails -/

theorem tail_nt_at (uri : Buf) (j : Nat) (hj : j < uri.length) :
    chAt ('(' :: (uri ++ [')'])) (1 + j) = chAt uri j := by
  rw [show (1 : Nat) + j = j + 1 from by omega, chAt_cons_succ,
    chAt_append_left _ _ _ hj]

theorem tail_nt_rp (uri : Buf) :
    chAt ('(' :: (uri ++ [')'])) (1 + uri.length) = ')' := by
  rw [show (1 : Nat) + uri.length = uri.length + 1 from by omega, chAt_cons_succ,
    show uri.length = uri.length + 0 from rfl, chAt_append_right]
  rfl

theorem tail_t_at (uri title : Buf) (j : Nat) (hj : j < uri.length) :
    chAt ('(' :: (uri ++ (' ' :: '"' :: (title ++ ('"' :: [')']))))) (1 + j) =
      chAt uri j := by
  rw [show (1 : Nat) + j = j + 1 from by omega, chAt_cons_succ,
    chAt_append_left _ _ _ hj]

theorem tail_t_sp (uri title : Buf) :
    chAt ('(' :: (uri ++ (' ' :: '"' :: (title ++ ('"' :: [')'])))))
      (1 + uri.length) = ' ' := by
  rw [show (1 : Nat) + uri.length = uri.length + 1 from by omega, chAt_cons_succ,
    show uri.length = uri.length + 0 from rfl, chAt_append_right]
  rfl

theorem tail_t_q1 (uri title : Buf) :
    chAt ('(' :: (uri ++ (' ' :: '"' :: (title ++ ('"' :: [')'])))))
      (2 + uri.length) = '"' := by
  rw [show (2 : Nat) + uri.length = (uri.length + 1) + 1 from by omega, chAt_cons_succ,
    chAt_append_right]
  rfl

theorem tail_t_title (uri title : Buf) (j : Nat) (hj : j < title.length) :
    chAt ('(' :: (uri ++ (' ' :: '"' :: (title ++ ('"' :: [')'])))))
      (3 + uri.length + j) = chAt title j := by
  rw [show 3 + uri.length + j = (uri.length + (2 + j)) + 1 from by omega, chAt_cons_succ,
    chAt_append_right]
  rw [show (2 : Nat) + j = (j + 1) + 1 from by omega, chAt_cons_succ, chAt_cons_succ]
  rw [chAt_append_left _ _ _ hj]

theorem tail_t_q2 (uri title : Buf) :
    chAt ('(' :: (uri ++ (' ' :: '"' :: (title ++ ('"' :: [')'])))))
      (3 + uri.length + title.length) = '"' := by
  rw [show 3 + uri.length + title.length = (uri.length + (2 + title.length)) + 1
    from by omega, chAt_cons_succ, chAt_append_right]
  rw [show (2 : Nat) + title.length = (title.length + 1) + 1 from by omega,
    chAt_cons_succ, chAt_cons_succ]
  rw [show title.length = title.length + 0 from rfl, chAt_append_right]
  rfl

theorem tail_t_rp (uri title : Buf) :
    chAt ('(' :: (uri ++ (' ' :: '"' :: (title ++ ('"' :: [')'])))))
      (4 + uri.length + title.length) = ')' := by
  rw [show 4 + uri.length + title.length = (uri.length + (3 + title.length)) + 1
    from by omega, chAt_cons_succ, chAt_append_right]
  rw [show (3 : Nat) + title.length = (title.length + 2) + 1 from by omega,
    chAt_cons_succ, chAt_cons_succ]
  rw [show title.length + 1 = title.length + 1 from rfl]
  rw [show title.length + 1 = title.length + (0 + 1) from by omega, ← Nat.add_assoc]
  rw [show title.length + 0 + 1 = (title.length + 0) + 1 from rfl]
  rw [show (title.length + 0) + 1 = title.length + 1 from by omega]
  rw [show title.length + 1 = title.length + 1 from rfl]
  have h1 : chAt (title ++ ('"' :: [')'])) (title.length + 1) = chAt ('"' :: [')']) 1 :=
    chAt_append_right title _ 1
  rw [h1]
  rfl

set_option maxHeartbeats 1000000 in
/-- `parse_link` on `[a](uri "title")` (or `[a](uri)`). -/
theorem link_inl (rec : Nat → Nat → List Tok → List Nest → Option (Nat × List Tok × List Nest))
    (dict : Refdict) (a uri title : Buf)
    (ha : 0 < a.length) (hu : 0 < uri.length)
    (hrec : rec 1 (inl_src a uri title).length [] [⟨0, 0⟩] =
      some (1 + a.length, [⟨TEXT, inl_src a uri title, 1, 1 + a.length⟩], [⟨0, 0⟩]))
    (huC : ∀ c ∈ uri, ismdany c = true ∧ ¬ c = '(' ∧ ¬ c = ')' ∧ ¬ c = '\\' ∧
      ¬ c = '<' ∧ ¬ c = '"' ∧ ¬ c = squote ∧ ismdwhite c = false)
    (htC : ∀ c ∈ title, ismdany c = true ∧ ¬ c = '(' ∧ ¬ c = ')' ∧ ¬ c = '\\' ∧
      ¬ c = '<' ∧ ¬ c = '"') :
    parse_link rec 0 0 (inl_src a uri title).length (inl_src a uri title) [] dict [] =
      some ([] ++ [⟨SABEGIN, inl_src a uri title, 0, 0⟩] ++
        (if title = []
         then [⟨URI, inl_src a uri title, 3 + a.length, 3 + a.length + uri.length⟩]
         else [⟨URI, inl_src a uri title, 3 + a.length, 3 + a.length + uri.length⟩,
           ⟨TITLE, inl_src a uri title, 5 + a.length + uri.length,
             5 + a.length + uri.length + title.length⟩]) ++
        [⟨SAEND, inl_src a uri title, 0, 0⟩] ++
        [⟨TEXT, inl_src a uri title, 1, 1 + a.length⟩] ++
        [⟨EA, inl_src a uri title, (inl_src a uri title).length,
          (inl_src a uri title).length⟩],
        [], (inl_src a uri title).length) := by
  by_cases htitle : title = []
  · rw [if_pos htitle]
    have hsrc := inl_src_eq_nt a uri title htitle
    rw [hsrc] at hrec ⊢
    have hlen : ('[' :: (a ++ (']' :: ('(' :: (uri ++ [')']))))).length =
        a.length + uri.length + 4 := by
      rw [gsrc_len]
      simp
      omega
    unfold parse_link
    have hp1 : scan_of_c ('[' :: (a ++ (']' :: ('(' :: (uri ++ [')']))))) 0
        ('[' :: (a ++ (']' :: ('(' :: (uri ++ [')']))))).length 1 1 '[' = 1 := by
      unfold scan_of_c
      rw [scan_one_eq _ _ _ _ _ le_rfl]
      rw [if_pos ⟨by omega, by rw [gsrc_at0]; decide⟩]
    simp only [List.length_nil, hp1]
    rw [if_neg (by decide : ¬ (0 : Nat) = 1)]
    rw [hrec]
    simp only [clear_nonzero_zero]
    have hp3 : scan_of_c ('[' :: (a ++ (']' :: ('(' :: (uri ++ [')']))))) (1 + a.length)
        ('[' :: (a ++ (']' :: ('(' :: (uri ++ [')']))))).length 1 1 ']' =
        2 + a.length := by
      unfold scan_of_c
      rw [scan_one_eq _ _ _ _ _ le_rfl]
      rw [if_pos ⟨by omega, by rw [gsrc_rb1]; decide⟩]
      omega
    simp only [hp3]
    simp only [List.tail_cons, nest_exists_nil]
    rw [if_neg (by omega : ¬ (1 = 1 + a.length ∨ 1 + a.length = 2 + a.length))]
    rw [parse_link_paren_notitle _ (2 + a.length) _ uri.length hu (by omega) (by omega)
      (by
        have h0 := gsrc_tail_at a ('(' :: (uri ++ [')'])) 0
        rw [Nat.add_zero] at h0
        rw [h0]
        exact chAt_cons_zero _ _)
      (by
        rw [show 2 + a.length + 1 + uri.length = 2 + a.length + (1 + uri.length)
          from by omega]
        rw [gsrc_tail_at]
        exact tail_nt_rp uri)
      (fun j hj => by
        rw [show 2 + a.length + 1 + j = 2 + a.length + (1 + j) from by omega]
        rw [gsrc_tail_at, tail_nt_at uri j hj]
        exact huC _ (chAt_mem uri j hj))]
    rw [if_pos (show ¬ false = true ∧ 2 + a.length <
        ('[' :: (a ++ (']' :: ('(' :: (uri ++ [')']))))).length from
      ⟨by decide, by omega⟩)]
    unfold parse_make_link
    rw [show 2 + a.length + 1 = 3 + a.length from by omega]
  · rw [if_neg htitle]
    have hsrc := inl_src_eq_t a uri title htitle
    rw [hsrc] at hrec ⊢
    have htne : 0 < title.length := by
      cases title
      · exact absurd rfl htitle
      · simp
    have hlen : ('[' :: (a ++ (']' :: ('(' :: (uri ++
        (' ' :: '"' :: (title ++ ('"' :: [')'])))))))).length =
        a.length + uri.length + title.length + 7 := by
      rw [gsrc_len]
      simp
      omega
    unfold parse_link
    have hp1 : scan_of_c ('[' :: (a ++ (']' :: ('(' :: (uri ++
        (' ' :: '"' :: (title ++ ('"' :: [')'])))))))) 0
        ('[' :: (a ++ (']' :: ('(' :: (uri ++
          (' ' :: '"' :: (title ++ ('"' :: [')'])))))))).length 1 1 '[' = 1 := by
      unfold scan_of_c
      rw [scan_one_eq _ _ _ _ _ le_rfl]
      rw [if_pos ⟨by omega, by rw [gsrc_at0]; decide⟩]
    simp only [List.length_nil, hp1]
    rw [if_neg (by decide : ¬ (0 : Nat) = 1)]
    rw [hrec]
    simp only [clear_nonzero_zero]
    have hp3 : scan_of_c ('[' :: (a ++ (']' :: ('(' :: (uri ++
        (' ' :: '"' :: (title ++ ('"' :: [')'])))))))) (1 + a.length)
        ('[' :: (a ++ (']' :: ('(' :: (uri ++
          (' ' :: '"' :: (title ++ ('"' :: [')'])))))))).length 1 1 ']' =
        2 + a.length := by
      unfold scan_of_c
      rw [scan_one_eq _ _ _ _ _ le_rfl]
      rw [if_pos ⟨by omega, by rw [gsrc_rb1]; decide⟩]
      omega
    simp only [hp3]
    simp only [List.tail_cons, nest_exists_nil]
    rw [if_neg (by omega : ¬ (1 = 1 + a.length ∨ 1 + a.length = 2 + a.length))]
    rw [parse_link_paren_title _ (2 + a.length) _ uri.length title.length hu htne
      (by omega) (by omega)
      (by
        have h0 := gsrc_tail_at a ('(' :: (uri ++
          (' ' :: '"' :: (title ++ ('"' :: [')']))))) 0
        rw [Nat.add_zero] at h0
        rw [h0]
        exact chAt_cons_zero _ _)
      (by
        rw [show 2 + a.length + 1 + uri.length = 2 + a.length + (1 + uri.length)
          from by omega]
        rw [gsrc_tail_at]
        exact tail_t_sp uri title)
      (by
        rw [show 2 + a.length + 2 + uri.length = 2 + a.length + (2 + uri.length)
          from by omega]
        rw [gsrc_tail_at]
        exact tail_t_q1 uri title)
      (by
        rw [show 2 + a.length + 3 + uri.length + title.length =
          2 + a.length + (3 + uri.length + title.length) from by omega]
        rw [gsrc_tail_at]
        exact tail_t_q2 uri title)
      (by
        rw [show 2 + a.length + 4 + uri.length + title.length =
          2 + a.length + (4 + uri.length + title.length) from by omega]
        rw [gsrc_tail_at]
        exact tail_t_rp uri title)
      (fun j hj => by
        rw [show 2 + a.length + 1 + j = 2 + a.length + (1 + j) from by omega]
        rw [gsrc_tail_at, tail_t_at uri title j hj]
        exact huC _ (chAt_mem uri j hj))
      (fun j hj => by
        rw [show 2 + a.length + 3 + uri.length + j =
          2 + a.length + (3 + uri.length + j) from by omega]
        rw [gsrc_tail_at, tail_t_title uri title j hj]
        exact htC _ (chAt_mem title j hj))]
    rw [if_pos (show ¬ false = true ∧ 2 + a.length <
        ('[' :: (a ++ (']' :: ('(' :: (uri ++
          (' ' :: '"' :: (title ++ ('"' :: [')'])))))))).length from
      ⟨by decide, by omega⟩)]
    unfold parse_make_link
    rw [show 2 + a.length + 1 = 3 + a.length from by omega]
    rw [show 2 + a.length + 3 + uri.length = 5 + a.length + uri.length from by omega]

/-- Starting the inline loop on a source whose head opens a link. -/
theorem loop_start_link (dict : Refdict) (S : Buf) (f : Nat)
    (h0 : chAt S 0 = '[') (hlen : 0 < S.length)
    (r : List Tok × List Nest × Nat)
    (hlink : parse_link (fun p e o n => parse_inline_loop dict S 0 (f + 1 + 1) p e o n)
      0 0 S.length S [] dict [] = some r)
    (hpos : r.2.2 = S.length) :
    parse_inline_loop dict S 0 (f + 1 + 1 + 1) 0 S.length [] [] =
      some (S.length, r.1, r.2.1) := by
  unfold parse_inline_loop
  rw [if_pos (show 0 < S.length ∧ chAt S 0 ≠ ']' from
    ⟨hlen, by rw [h0]; decide⟩)]
  rw [h0]
  rw [if_neg (by decide : ¬ ('[' : Char) = ' ')]
  rw [if_neg (by decide : ¬ ('[' : Char) = '\\')]
  rw [if_neg (by decide : ¬ ('[' : Char) = backquote)]
  rw [if_neg (by decide : ¬ (('[' : Char) = '*' ∨ ('[' : Char) = '_'))]
  rw [if_neg (by decide : ¬ ('[' : Char) = '<')]
  rw [if_pos (rfl : ('[' : Char) = '[')]
  rw [hlink]
  simp only []
  rw [hpos]
  unfold parse_inline_loop
  rw [if_neg (by omega : ¬ (S.length < S.length ∧ chAt S S.length ≠ ']'))]

/-- Parsing a whole inline source that is one resolved link. -/
theorem parse_inline_link (dict : Refdict) (S : Buf) (f : Nat)
    (hf : S.length = f + 1 + 1)
    (h0 : chAt S 0 = '[')
    (r : List Tok × List Nest × Nat)
    (hlink : parse_link (fun p e o n => parse_inline_loop dict S 0 (f + 1 + 1) p e o n)
      0 0 S.length S [] dict [] = some r)
    (hpos : r.2.2 = S.length) (hnest : r.2.1 = []) :
    parse_inline dict (S.length + 2) S = some r.1 := by
  unfold parse_inline
  rw [show S.length + 2 = (S.length + 1) + 1 from by omega]
  unfold parse_inline_go
  rw [if_pos (by omega : 0 < S.length)]
  rw [show S.length + 1 = f + 1 + 1 + 1 from by omega]
  have hloop := loop_start_link dict S f h0 (by omega) r hlink hpos
  rw [hloop]
  simp only []
  rw [if_neg (by
    intro hq
    omega)]
  unfold parse_inline_go
  rw [if_neg (by omega : ¬ S.length < S.length)]
  simp only []
  rw [hnest]
  rfl

set_option maxHeartbeats 1000000 in
/-- Printing a link token group without a title. -/
theorem print_inline_link_nt (B ub tb : Buf) (eB u1 u2 t1 t2 : Nat) (hb : t1 < t2) :
    print_inline [⟨SABEGIN, B, 0, 0⟩, ⟨URI, ub, u1, u2⟩, ⟨SAEND, B, 0, 0⟩,
      ⟨TEXT, tb, t1, t2⟩, ⟨EA, B, eB, eB⟩] =
      escape_html_str (unescape_backslash (Tok.slice ⟨TEXT, tb, t1, t2⟩))
        (print_with_escape_uri (unescape_backslash (Tok.slice ⟨URI, ub, u1, u2⟩))
          ([] ++ kindname SABEGIN) ++ kindname SAEND) ++ kindname EA := by
  have hrun : text_run [⟨SABEGIN, B, 0, 0⟩, ⟨URI, ub, u1, u2⟩, ⟨SAEND, B, 0, 0⟩,
      ⟨TEXT, tb, t1, t2⟩, ⟨EA, B, eB, eB⟩] 3 3 [] =
      (4, [] ++ Tok.slice ⟨TEXT, tb, t1, t2⟩) := by
    show text_run [⟨SABEGIN, B, 0, 0⟩, ⟨URI, ub, u1, u2⟩, ⟨SAEND, B, 0, 0⟩,
        ⟨TEXT, tb, t1, t2⟩, ⟨EA, B, eB, eB⟩] 2 (3 + 1)
        (if t1 < t2 then [] ++ Tok.slice ⟨TEXT, tb, t1, t2⟩ else []) =
      (4, [] ++ Tok.slice ⟨TEXT, tb, t1, t2⟩)
    rw [if_pos hb]
    rfl
  have hmain : print_inline [⟨SABEGIN, B, 0, 0⟩, ⟨URI, ub, u1, u2⟩, ⟨SAEND, B, 0, 0⟩,
      ⟨TEXT, tb, t1, t2⟩, ⟨EA, B, eB, eB⟩] =
      print_inline_go [⟨SABEGIN, B, 0, 0⟩, ⟨URI, ub, u1, u2⟩, ⟨SAEND, B, 0, 0⟩,
        ⟨TEXT, tb, t1, t2⟩, ⟨EA, B, eB, eB⟩] 4
        (text_run [⟨SABEGIN, B, 0, 0⟩, ⟨URI, ub, u1, u2⟩, ⟨SAEND, B, 0, 0⟩,
          ⟨TEXT, tb, t1, t2⟩, ⟨EA, B, eB, eB⟩] 3 3 []).1
        (escape_html_str (unescape_backslash
          (text_run [⟨SABEGIN, B, 0, 0⟩, ⟨URI, ub, u1, u2⟩, ⟨SAEND, B, 0, 0⟩,
            ⟨TEXT, tb, t1, t2⟩, ⟨EA, B, eB, eB⟩] 3 3 []).2)
          (print_with_escape_uri (unescape_backslash (Tok.slice ⟨URI, ub, u1, u2⟩))
            ([] ++ kindname SABEGIN) ++ kindname SAEND)) := rfl
  rw [hmain, hrun]
  rw [List.nil_append]
  rfl

set_option maxHeartbeats 1000000 in
/-- Printing a link token group with a title. -/
theorem print_inline_link_t (B ub vb tb : Buf) (eB u1 u2 v1 v2 t1 t2 : Nat)
    (hbt : v1 < v2) (hb : t1 < t2) :
    print_inline [⟨SABEGIN, B, 0, 0⟩, ⟨URI, ub, u1, u2⟩, ⟨TITLE, vb, v1, v2⟩,
      ⟨SAEND, B, 0, 0⟩, ⟨TEXT, tb, t1, t2⟩, ⟨EA, B, eB, eB⟩] =
      escape_html_str (unescape_backslash (Tok.slice ⟨TEXT, tb, t1, t2⟩))
        (escape_html_str (unescape_backslash (Tok.slice ⟨TITLE, vb, v1, v2⟩))
          (print_with_escape_uri (unescape_backslash (Tok.slice ⟨URI, ub, u1, u2⟩))
            ([] ++ kindname SABEGIN) ++ kindname TITLE) ++ kindname SAEND) ++
        kindname EA := by
  have hmain : print_inline [⟨SABEGIN, B, 0, 0⟩, ⟨URI, ub, u1, u2⟩, ⟨TITLE, vb, v1, v2⟩,
      ⟨SAEND, B, 0, 0⟩, ⟨TEXT, tb, t1, t2⟩, ⟨EA, B, eB, eB⟩] =
      print_inline_go [⟨SABEGIN, B, 0, 0⟩, ⟨URI, ub, u1, u2⟩, ⟨TITLE, vb, v1, v2⟩,
        ⟨SAEND, B, 0, 0⟩, ⟨TEXT, tb, t1, t2⟩, ⟨EA, B, eB, eB⟩] 6 4
        ((if v1 < v2 then
            escape_html_str (unescape_backslash (Tok.slice ⟨TITLE, vb, v1, v2⟩))
              (print_with_escape_uri (unescape_backslash (Tok.slice ⟨URI, ub, u1, u2⟩))
                ([] ++ kindname SABEGIN) ++ kindname TITLE)
          else print_with_escape_uri (unescape_backslash (Tok.slice ⟨URI, ub, u1, u2⟩))
            ([] ++ kindname SABEGIN)) ++ kindname SAEND) := rfl
  rw [hmain, if_pos hbt]
  have hrun : text_run [⟨SABEGIN, B, 0, 0⟩, ⟨URI, ub, u1, u2⟩, ⟨TITLE, vb, v1, v2⟩,
      ⟨SAEND, B, 0, 0⟩, ⟨TEXT, tb, t1, t2⟩, ⟨EA, B, eB, eB⟩] 2 (4 + 1)
      (if t1 < t2 then [] ++ Tok.slice ⟨TEXT, tb, t1, t2⟩ else []) =
      (5, [] ++ Tok.slice ⟨TEXT, tb, t1, t2⟩) := by
    rw [if_pos hb]
    rfl
  have hstep : print_inline_go [⟨SABEGIN, B, 0, 0⟩, ⟨URI, ub, u1, u2⟩,
      ⟨TITLE, vb, v1, v2⟩, ⟨SAEND, B, 0, 0⟩, ⟨TEXT, tb, t1, t2⟩, ⟨EA, B, eB, eB⟩] 6 4
      (escape_html_str (unescape_backslash (Tok.slice ⟨TITLE, vb, v1, v2⟩))
        (print_with_escape_uri (unescape_backslash (Tok.slice ⟨URI, ub, u1, u2⟩))
          ([] ++ kindname SABEGIN) ++ kindname TITLE) ++ kindname SAEND) =
      print_inline_go [⟨SABEGIN, B, 0, 0⟩, ⟨URI, ub, u1, u2⟩, ⟨TITLE, vb, v1, v2⟩,
        ⟨SAEND, B, 0, 0⟩, ⟨TEXT, tb, t1, t2⟩, ⟨EA, B, eB, eB⟩] 5
        (text_run [⟨SABEGIN, B, 0, 0⟩, ⟨URI, ub, u1, u2⟩, ⟨TITLE, vb, v1, v2⟩,
          ⟨SAEND, B, 0, 0⟩, ⟨TEXT, tb, t1, t2⟩, ⟨EA, B, eB, eB⟩] 2 (4 + 1)
          (if t1 < t2 then [] ++ Tok.slice ⟨TEXT, tb, t1, t2⟩ else [])).1
        (escape_html_str (unescape_backslash
          (text_run [⟨SABEGIN, B, 0, 0⟩, ⟨URI, ub, u1, u2⟩, ⟨TITLE, vb, v1, v2⟩,
            ⟨SAEND, B, 0, 0⟩, ⟨TEXT, tb, t1, t2⟩, ⟨EA, B, eB, eB⟩] 2 (4 + 1)
            (if t1 < t2 then [] ++ Tok.slice ⟨TEXT, tb, t1, t2⟩ else [])).2)
          (escape_html_str (unescape_backslash (Tok.slice ⟨TITLE, vb, v1, v2⟩))
            (print_with_escape_uri (unescape_backslash (Tok.slice ⟨URI, ub, u1, u2⟩))
              ([] ++ kindname SABEGIN) ++ kindname TITLE) ++ kindname SAEND)) := rfl
  rw [hstep, hrun]
  rw [List.nil_append]
  rfl

/- slices of the produced tokens -/

theorem slice_text_ref (a b : Buf) :
    Tok.slice ⟨TEXT, ref_src a b, 1, 1 + a.length⟩ = a := by
  unfold Tok.slice
  rw [show 1 + a.length - 1 = a.length from by omega]
  exact ref_src_slice_label a b

theorem slice_whole (k : Nat) (w : Buf) : Tok.slice ⟨k, w, 0, w.length⟩ = w := by
  unfold Tok.slice
  rw [List.drop_zero, Nat.sub_zero, List.take_length]

theorem slice_text_gsrc (a tail : Buf) :
    Tok.slice ⟨TEXT, '[' :: (a ++ (']' :: tail)), 1, 1 + a.length⟩ = a := by
  unfold Tok.slice
  rw [show 1 + a.length - 1 = a.length from by omega]
  exact gsrc_slice_label a tail

theorem slice_uri_nt (a uri : Buf) :
    Tok.slice ⟨URI, '[' :: (a ++ (']' :: ('(' :: (uri ++ [')'])))), 3 + a.length,
      3 + a.length + uri.length⟩ = uri := by
  unfold Tok.slice
  rw [show 3 + a.length + uri.length - (3 + a.length) = uri.length from by omega]
  rw [show 3 + a.length = 2 + a.length + 1 from by omega]
  rw [gsrc_slice_tail]
  rw [show ('(' :: (uri ++ [')'])).drop 1 = uri ++ [')'] from rfl]
  exact List.take_left uri _

theorem slice_uri_t (a uri title : Buf) :
    Tok.slice ⟨URI, '[' :: (a ++ (']' :: ('(' :: (uri ++
      (' ' :: '"' :: (title ++ ('"' :: [')']))))))), 3 + a.length,
      3 + a.length + uri.length⟩ = uri := by
  unfold Tok.slice
  rw [show 3 + a.length + uri.length - (3 + a.length) = uri.length from by omega]
  rw [show 3 + a.length = 2 + a.length + 1 from by omega]
  rw [gsrc_slice_tail]
  rw [show ('(' :: (uri ++ (' ' :: '"' :: (title ++ ('"' :: [')']))))).drop 1 =
    uri ++ (' ' :: '"' :: (title ++ ('"' :: [')']))) from rfl]
  exact List.take_left uri _

theorem slice_title_t (a uri title : Buf) :
    Tok.slice ⟨TITLE, '[' :: (a ++ (']' :: ('(' :: (uri ++
      (' ' :: '"' :: (title ++ ('"' :: [')']))))))), 5 + a.length + uri.length,
      5 + a.length + uri.length + title.length⟩ = title := by
  unfold Tok.slice
  rw [show 5 + a.length + uri.length + title.length - (5 + a.length + uri.length) =
    title.length from by omega]
  rw [show 5 + a.length + uri.length = 2 + a.length + (3 + uri.length) from by omega]
  rw [gsrc_slice_tail]
  rw [show ('(' :: (uri ++ (' ' :: '"' :: (title ++ ('"' :: [')']))))).drop
      (3 + uri.length) =
    (uri ++ (' ' :: '"' :: (title ++ ('"' :: [')'])))).drop (uri.length + 2) from by
      rw [show 3 + uri.length = (uri.length + 2) + 1 from by omega]
      rfl]
  rw [List.drop_append 2]
  rw [show (' ' :: '"' :: (title ++ ('"' :: [')']))).drop 2 =
    title ++ ('"' :: [')']) from rfl]
  exact List.take_left title _

/- facts about the inline source that do not depend on the title case -/

theorem inl_at0 (a uri title : Buf) : chAt (inl_src a uri title) 0 = '[' := by
  by_cases htl : title = []
  · rw [inl_src_eq_nt a uri title htl]
    exact gsrc_at0 _ _
  · rw [inl_src_eq_t a uri title htl]
    exact gsrc_at0 _ _

theorem inl_label (a uri title : Buf) (j : Nat) (hj : j < a.length) :
    chAt (inl_src a uri title) (1 + j) = chAt a j := by
  by_cases htl : title = []
  · rw [inl_src_eq_nt a uri title htl]
    exact gsrc_label _ _ j hj
  · rw [inl_src_eq_t a uri title htl]
    exact gsrc_label _ _ j hj

theorem inl_rb1 (a uri title : Buf) :
    chAt (inl_src a uri title) (1 + a.length) = ']' := by
  by_cases htl : title = []
  · rw [inl_src_eq_nt a uri title htl]
    exact gsrc_rb1 _ _
  · rw [inl_src_eq_t a uri title htl]
    exact gsrc_rb1 _ _

theorem inl_len_ge (a uri title : Buf) :
    a.length + uri.length + 4 ≤ (inl_src a uri title).length := by
  by_cases htl : title = []
  · rw [inl_src_eq_nt a uri title htl, gsrc_len]
    simp
    omega
  · rw [inl_src_eq_t a uri title htl, gsrc_len]
    simp
    omega

theorem slice_text_inl (a uri title : Buf) :
    Tok.slice ⟨TEXT, inl_src a uri title, 1, 1 + a.length⟩ = a := by
  by_cases htl : title = []
  · rw [inl_src_eq_nt a uri title htl]
    exact slice_text_gsrc _ _
  · rw [inl_src_eq_t a uri title htl]
    exact slice_text_gsrc _ _

theorem slice_uri_inl (a uri title : Buf) :
    Tok.slice ⟨URI, inl_src a uri title, 3 + a.length, 3 + a.length + uri.length⟩ =
      uri := by
  by_cases htl : title = []
  · rw [inl_src_eq_nt a uri title htl]
    exact slice_uri_nt a uri
  · rw [inl_src_eq_t a uri title htl]
    exact slice_uri_t a uri title

theorem slice_title_inl (a uri title : Buf) (htl : ¬ title = []) :
    Tok.slice ⟨TITLE, inl_src a uri title, 5 + a.length + uri.length,
      5 + a.length + uri.length + title.length⟩ = title := by
  rw [inl_src_eq_t a uri title htl]
  exact slice_title_t a uri title

set_option maxHeartbeats 1600000 in
/-- Claim C6 (amended): for a representable link (label free of
inline-special characters, id nonempty printable and bracket- and
backslash-free, uri nonempty graphic without parentheses, angle
bracket, quotes or backslash, title empty or printable without
parentheses, angle bracket, double quote or backslash), when the
dictionary resolves the id to an entry carrying exactly that uri and
title, the reference-style source `[label][id]` and the inline-style
source `[label](uri "title")` (or `[label](uri)` for an empty title)
produce the same printed inline output. -/
theorem C6_reference_inline_agreement (dict : Refdict) (a b uri title : Buf)
    (entry : Reflink)
    (ha : a ≠ []) (hb : b ≠ []) (hu : uri ≠ [])
    (haC : ∀ c ∈ a, inline_ccls.contains c = false)
    (hbC : ∀ c ∈ b, ismdany c = true ∧ ¬ c = '\\' ∧ ¬ c = ']' ∧ ¬ c = '[')
    (huC : ∀ c ∈ uri, ismdany c = true ∧ ¬ c = '(' ∧ ¬ c = ')' ∧ ¬ c = '\\' ∧
      ¬ c = '<' ∧ ¬ c = '"' ∧ ¬ c = squote ∧ ismdwhite c = false)
    (htC : ∀ c ∈ title, ismdany c = true ∧ ¬ c = '(' ∧ ¬ c = ')' ∧ ¬ c = '\\' ∧
      ¬ c = '<' ∧ ¬ c = '"')
    (hdict : dict_find dict (decode_linkid b) = some entry)
    (hent_uri : entry.uri = uri) (hent_title : entry.title = title) :
    inline_out dict (ref_src a b) = inline_out dict (inl_src a uri title) := by
  have ha0 : 0 < a.length := List.length_pos.mpr ha
  have hb0 : 0 < b.length := List.length_pos.mpr hb
  have hu0 : 0 < uri.length := List.length_pos.mpr hu
  have hlen1 : (ref_src a b).length = a.length + b.length + 4 := ref_src_len a b
  have hlen2 : a.length + uri.length + 4 ≤ (inl_src a uri title).length :=
    inl_len_ge a uri title
  have hrec1 : parse_inline_loop dict (ref_src a b) 0
      ((a.length + b.length + 2) + 1 + 1) 1 (ref_src a b).length [] [⟨0, 0⟩] =
      some (1 + a.length, [⟨TEXT, ref_src a b, 1, 1 + a.length⟩], [⟨0, 0⟩]) := by
    refine loop_label dict (ref_src a b) 0 (a.length + b.length + 2) 1
      (1 + a.length) (ref_src a b).length [⟨0, 0⟩] (by omega) (by omega) le_rfl
      ?_ (ref_src_rb1 a b)
    intro j hj1 hj2
    rw [show j = 1 + (j - 1) from by omega, ref_src_label a b (j - 1) (by omega)]
    exact haC _ (chAt_mem a (j - 1) (by omega))
  have hlink1 := link_ref
    (fun p e o n => parse_inline_loop dict (ref_src a b) 0
      ((a.length + b.length + 2) + 1 + 1) p e o n)
    dict a b entry ha0 hb0 hrec1 hbC hdict
  have hpi1 := parse_inline_link dict (ref_src a b) (a.length + b.length + 2)
    (by omega) (ref_src_at0 a b) _ hlink1 rfl rfl
  have hrec2 : parse_inline_loop dict (inl_src a uri title) 0
      (((inl_src a uri title).length - 2) + 1 + 1) 1 (inl_src a uri title).length
      [] [⟨0, 0⟩] =
      some (1 + a.length, [⟨TEXT, inl_src a uri title, 1, 1 + a.length⟩],
        [⟨0, 0⟩]) := by
    refine loop_label dict (inl_src a uri title) 0
      ((inl_src a uri title).length - 2) 1 (1 + a.length)
      (inl_src a uri title).length [⟨0, 0⟩] (by omega) (by omega) le_rfl
      ?_ (inl_rb1 a uri title)
    intro j hj1 hj2
    rw [show j = 1 + (j - 1) from by omega,
      inl_label a uri title (j - 1) (by omega)]
    exact haC _ (chAt_mem a (j - 1) (by omega))
  have hlink2 := link_inl
    (fun p e o n => parse_inline_loop dict (inl_src a uri title) 0
      (((inl_src a uri title).length - 2) + 1 + 1) p e o n)
    dict a uri title ha0 hu0 hrec2 huC htC
  have hpi2 := parse_inline_link dict (inl_src a uri title)
    ((inl_src a uri title).length - 2) (by omega) (inl_at0 a uri title) _ hlink2
    rfl rfl
  by_cases htl : title = []
  · have het : entry.title = [] := hent_title.trans htl
    have hout1 : inline_out dict (ref_src a b) =
        some (print_inline [⟨SABEGIN, ref_src a b, 0, 0⟩,
          ⟨URI, uri, 0, uri.length⟩, ⟨SAEND, ref_src a b, 0, 0⟩,
          ⟨TEXT, ref_src a b, 1, 1 + a.length⟩,
          ⟨EA, ref_src a b, (ref_src a b).length, (ref_src a b).length⟩]) := by
      unfold inline_out
      rw [hpi1]
      rw [show (if entry.title ≠ []
        then [⟨TITLE, entry.title, 0, entry.title.length⟩]
        else ([] : List Tok)) = [] from by rw [het]; simp]
      rw [hent_uri]
      rfl
    have hout2 : inline_out dict (inl_src a uri title) =
        some (print_inline [⟨SABEGIN, inl_src a uri title, 0, 0⟩,
          ⟨URI, inl_src a uri title, 3 + a.length, 3 + a.length + uri.length⟩,
          ⟨SAEND, inl_src a uri title, 0, 0⟩,
          ⟨TEXT, inl_src a uri title, 1, 1 + a.length⟩,
          ⟨EA, inl_src a uri title, (inl_src a uri title).length,
            (inl_src a uri title).length⟩]) := by
      unfold inline_out
      rw [hpi2]
      rw [show (if title = []
        then [(⟨URI, inl_src a uri title, 3 + a.length,
          3 + a.length + uri.length⟩ : Tok)]
        else [⟨URI, inl_src a uri title, 3 + a.length,
            3 + a.length + uri.length⟩,
          ⟨TITLE, inl_src a uri title, 5 + a.length + uri.length,
            5 + a.length + uri.length + title.length⟩]) =
        [(⟨URI, inl_src a uri title, 3 + a.length,
          3 + a.length + uri.length⟩ : Tok)]
        from if_pos htl]
      rfl
    rw [hout1, hout2]
    rw [print_inline_link_nt (ref_src a b) uri (ref_src a b)
      (ref_src a b).length 0 uri.length 1 (1 + a.length) (by omega)]
    rw [print_inline_link_nt (inl_src a uri title) (inl_src a uri title)
      (inl_src a uri title) (inl_src a uri title).length (3 + a.length)
      (3 + a.length + uri.length) 1 (1 + a.length) (by omega)]
    rw [slice_text_ref a b, slice_whole URI uri, slice_text_inl a uri title,
      slice_uri_inl a uri title]
  · have ht0 : 0 < title.length := List.length_pos.mpr htl
    have het : entry.title ≠ [] := by
      rw [hent_title]
      exact htl
    have hout1 : inline_out dict (ref_src a b) =
        some (print_inline [⟨SABEGIN, ref_src a b, 0, 0⟩,
          ⟨URI, uri, 0, uri.length⟩, ⟨TITLE, title, 0, title.length⟩,
          ⟨SAEND, ref_src a b, 0, 0⟩, ⟨TEXT, ref_src a b, 1, 1 + a.length⟩,
          ⟨EA, ref_src a b, (ref_src a b).length, (ref_src a b).length⟩]) := by
      unfold inline_out
      rw [hpi1]
      rw [show (if entry.title ≠ []
        then [⟨TITLE, entry.title, 0, entry.title.length⟩]
        else ([] : List Tok)) = [⟨TITLE, entry.title, 0, entry.title.length⟩]
        from if_pos het]
      rw [hent_uri, hent_title]
      rfl
    have hout2 : inline_out dict (inl_src a uri title) =
        some (print_inline [⟨SABEGIN, inl_src a uri title, 0, 0⟩,
          ⟨URI, inl_src a uri title, 3 + a.length, 3 + a.length + uri.length⟩,
          ⟨TITLE, inl_src a uri title, 5 + a.length + uri.length,
            5 + a.length + uri.length + title.length⟩,
          ⟨SAEND, inl_src a uri title, 0, 0⟩,
          ⟨TEXT, inl_src a uri title, 1, 1 + a.length⟩,
          ⟨EA, inl_src a uri title, (inl_src a uri title).length,
            (inl_src a uri title).length⟩]) := by
      unfold inline_out
      rw [hpi2]
      rw [show (if title = []
        then [(⟨URI, inl_src a uri title, 3 + a.length,
          3 + a.length + uri.length⟩ : Tok)]
        else [⟨URI, inl_src a uri title, 3 + a.length,
            3 + a.length + uri.length⟩,
          ⟨TITLE, inl_src a uri title, 5 + a.length + uri.length,
            5 + a.length + uri.length + title.length⟩]) =
        [(⟨URI, inl_src a uri title, 3 + a.length,
            3 + a.length + uri.length⟩ : Tok),
          ⟨TITLE, inl_src a uri title, 5 + a.length + uri.length,
            5 + a.length + uri.length + title.length⟩]
        from if_neg htl]
      rfl
    rw [hout1, hout2]
    rw [print_inline_link_t (ref_src a b) uri title (ref_src a b)
      (ref_src a b).length 0 uri.length 0 title.length 1 (1 + a.length)
      (by omega) (by omega)]
    rw [print_inline_link_t (inl_src a uri title) (inl_src a uri title)
      (inl_src a uri title) (inl_src a uri title)
      (inl_src a uri title).length (3 + a.length) (3 + a.length + uri.length)
      (5 + a.length + uri.length) (5 + a.length + uri.length + title.length)
      1 (1 + a.length) (by omega) (by omega)]
    rw [slice_text_ref a b, slice_whole URI uri, slice_whole TITLE title,
      slice_text_inl a uri title, slice_uri_inl a uri title,
      slice_title_inl a uri title htl]

/-- Witness for C6: with the dictionary mapping id `r` to uri `u` and an
empty title, the reference link `[x][r]` and the inline link `[x](u)`
print the same output. -/
theorem C6_reference_inline_agreement_witness :
    inline_out [⟨['r'], ['u'], []⟩] (ref_src ['x'] ['r']) =
      inline_out [⟨['r'], ['u'], []⟩] (inl_src ['x'] ['u'] []) :=
  C6_reference_inline_agreement [⟨['r'], ['u'], []⟩] ['x'] ['r'] ['u'] []
    ⟨['r'], ['u'], []⟩ (by decide) (by decide) (by decide) (by decide)
    (by decide) (by decide) (by decide) (by decide) rfl rfl
